import Mathlib

/-! # UNIX-VM-Emulator: the 8-bit machine (`src/src/vm.h`, `src/src/vm.c`)

A shallow embedding of the C sources.  Machine integers are natural numbers;
every place where the C type truncates (`uint8_t`, `uint16_t`, `uint32_t`,
`uint64_t` stores and increments) carries an explicit `% 2^w`.  Byte arrays
(`ram`, `regs`, `breakpoints`) are total maps from index to value; the source
only ever indexes them inside their bounds.  The process's standard streams are
threaded through the state as lists of bytes.
-/

namespace VM8

/-! ## `vm.h`: configuration and opcodes -/

/-- The macro `VM_RAM_SIZE` of `vm.h`: 64 KiB. -/
def VM_RAM_SIZE : Nat := 64 * 1024

/-- The macro `VM_REG_COUNT` of `vm.h`. -/
def VM_REG_COUNT : Nat := 8

/-- The macro `VM_MAX_BREAKPOINTS` of `vm.h`. -/
def VM_MAX_BREAKPOINTS : Nat := 16

def OP_HALT : Nat := 0x00
def OP_MOVI : Nat := 0x10
def OP_ADD : Nat := 0x20
def OP_SUB : Nat := 0x21
def OP_MUL : Nat := 0x22
def OP_DIV : Nat := 0x23
def OP_MOD : Nat := 0x24
def OP_AND : Nat := 0x25
def OP_OR : Nat := 0x26
def OP_XOR : Nat := 0x27
def OP_NOT : Nat := 0x28
def OP_SHL : Nat := 0x29
def OP_SHR : Nat := 0x2A
def OP_LOAD : Nat := 0x30
def OP_STORE : Nat := 0x31
def OP_OUT : Nat := 0x40
def OP_IN : Nat := 0x41
def OP_JMP : Nat := 0x50
def OP_JNZ : Nat := 0x51
def OP_JZ : Nat := 0x52
def OP_JLT : Nat := 0x53
def OP_JGT : Nat := 0x54
def OP_CMP : Nat := 0x60
def OP_CALL : Nat := 0x70
def OP_RET : Nat := 0x71
def OP_PUSH : Nat := 0x80
def OP_POP : Nat := 0x81

/-- The 27 opcodes of the enum `Opcode`. -/
def opcodes : List Nat :=
  [OP_HALT, OP_MOVI, OP_ADD, OP_SUB, OP_MUL, OP_DIV, OP_MOD, OP_AND, OP_OR, OP_XOR, OP_NOT,
   OP_SHL, OP_SHR, OP_LOAD, OP_STORE, OP_OUT, OP_IN, OP_JMP, OP_JNZ, OP_JZ, OP_JLT, OP_JGT,
   OP_CMP, OP_CALL, OP_RET, OP_PUSH, OP_POP]

/-- The struct `VM` of `vm.h`.  `halted` is a C `int` that only ever holds 0 or
1; `debug_mode` is a C `int` set from a caller-supplied value and tested for
being non-zero; `breakpoint_count` is a C `int` that starts at 0, is
incremented below the capacity and decremented only after an entry was found,
so it is never negative. -/
structure VM where
  ram : Nat → Nat
  regs : Nat → Nat
  pc : Nat
  sp : Nat
  halted : Bool
  cycle_count : Nat
  debug_mode : Int
  breakpoints : Nat → Nat
  breakpoint_count : Nat

/-- A VM together with the standard streams of the host process: the bytes
still to be read from stdin, and the bytes written so far to stdout and
stderr. -/
structure Sys where
  vm : VM
  stdin : List Nat
  stdout : List Nat
  stderr : List Nat

/-- The values a C `VM` struct can hold: bytes in `ram`, 64-bit registers and
cycle counter, 16-bit `pc`, `sp` and breakpoint addresses. -/
def VM.WF (vm : VM) : Prop :=
  (∀ a, vm.ram a < 256) ∧ (∀ r, vm.regs r < 2 ^ 64) ∧ vm.pc < 2 ^ 16 ∧ vm.sp < 2 ^ 16 ∧
    vm.cycle_count < 2 ^ 64 ∧ (∀ i, vm.breakpoints i < 2 ^ 16)

/-- Array store `a[i] = v`. -/
def setAt (f : Nat → Nat) (i v : Nat) : Nat → Nat :=
  fun j => if j = i then v else f j

/-- A memory image holding `bytes` from address 0 on and zero elsewhere. -/
def imageOf (bytes : List Nat) : Nat → Nat :=
  fun a => bytes.getD a 0

/-! ## `printf` formatting -/

/-- The bytes of a string literal. -/
def text (s : String) : List Nat := s.toList.map Char.toNat

/-- One upper-case hexadecimal digit as an ASCII code. -/
def hexDigit (d : Nat) : Nat := if d < 10 then 48 + d else 55 + d

/-- The digits of `n` in base `b`, most significant first, prepended to `acc`;
at most `fuel + 1` digits are produced. -/
def digitsAux (b : Nat) : Nat → Nat → List Nat → List Nat
  | 0, n, acc => hexDigit (n % b) :: acc
  | fuel + 1, n, acc =>
    if n / b = 0 then hexDigit (n % b) :: acc
    else digitsAux b fuel (n / b) (hexDigit (n % b) :: acc)

/-- Left-pad with ASCII zeros up to `width`. -/
def padZero (width : Nat) (ds : List Nat) : List Nat :=
  List.replicate (width - ds.length) 48 ++ ds

/-- The conversion `%0<width>X` / `%0<width>llX` of an unsigned value. -/
def fmtHex (width n : Nat) : List Nat := padZero width (digitsAux 16 64 n [])

/-- The conversion `%llu` / `%d` of a non-negative value. -/
def fmtDec (n : Nat) : List Nat := digitsAux 10 64 n []

/-- The conversion `%lld` of a 64-bit pattern reinterpreted as `long long`. -/
def fmtSigned64 (n : Nat) : List Nat :=
  if n < 2 ^ 63 then fmtDec n else 45 :: fmtDec (2 ^ 64 - n)

/-! ## `vm.c`: creation, reset, built-in image -/

/-- The function `vm_create` (the allocation succeeding): `memset` to zero,
then the stack pointer at the top of memory. -/
def vm_create : VM :=
  { ram := fun _ => 0
    regs := fun _ => 0
    pc := 0
    sp := VM_RAM_SIZE - 1
    halted := false
    cycle_count := 0
    debug_mode := 0
    breakpoints := fun _ => 0
    breakpoint_count := 0 }

/-- The function `vm_reset`. -/
def vm_reset (vm : VM) : VM :=
  { vm with
    ram := fun _ => 0
    regs := fun _ => 0
    pc := 0
    sp := VM_RAM_SIZE - 1
    halted := false
    cycle_count := 0 }

/-- The array `demo` of `vm_load_builtin_image`, byte for byte. -/
def demo : List Nat :=
  [ 0x10, 0x00, 0x48, 0x00, 0x00, 0x00,  -- MOVI R0, 0x48 ('H')
    0x40, 0x00,                          -- OUT R0
    0x10, 0x00, 0x45, 0x00, 0x00, 0x00,  -- MOVI R0, 0x45 ('E')
    0x40, 0x00,
    0x10, 0x00, 0x4C, 0x00, 0x00, 0x00,  -- MOVI R0, 0x4C ('L')
    0x40, 0x00,
    0x10, 0x00, 0x4C, 0x00, 0x00, 0x00,  -- MOVI R0, 0x4C ('L')
    0x40, 0x00,
    0x10, 0x00, 0x4F, 0x00, 0x00, 0x00,  -- MOVI R0, 0x4F ('O')
    0x40, 0x00,
    0x10, 0x00, 0x20, 0x00, 0x00, 0x00,  -- MOVI R0, 0x20 (' ')
    0x40, 0x00,
    0x10, 0x00, 0x46, 0x00, 0x00, 0x00,  -- MOVI R0, 0x46 ('F')
    0x40, 0x00,
    0x10, 0x00, 0x52, 0x00, 0x00, 0x00,  -- MOVI R0, 0x52 ('R')
    0x40, 0x00,
    0x10, 0x00, 0x4F, 0x00, 0x00, 0x00,  -- MOVI R0, 0x4F ('O')
    0x40, 0x00,
    0x10, 0x00, 0x4D, 0x00, 0x00, 0x00,  -- MOVI R0, 0x4D ('M')
    0x40, 0x00,
    0x10, 0x00, 0x20, 0x00, 0x00, 0x00,  -- MOVI R0, 0x20 (' ')
    0x40, 0x00,
    0x10, 0x00, 0x56, 0x00, 0x00, 0x00,  -- MOVI R0, 0x56 ('V')
    0x40, 0x00,
    0x10, 0x00, 0x4D, 0x00, 0x00, 0x00,  -- MOVI R0, 0x4D ('M')
    0x40, 0x00,
    0x10, 0x00, 0x0A, 0x00, 0x00, 0x00,  -- MOVI R0, 0x0A (newline)
    0x40, 0x00,
    0x00 ]                               -- HALT

/-- The call `memcpy(vm->ram, src, n)`. -/
def memcpy_ram (ram : Nat → Nat) (src : List Nat) (n : Nat) : Nat → Nat :=
  fun a => if a < n then src.getD a 0 else ram a

/-- The function `vm_load_builtin_image`; it always returns 0. -/
def vm_load_builtin_image (vm : VM) : VM :=
  let demo_size := if demo.length > VM_RAM_SIZE then VM_RAM_SIZE else demo.length
  { vm with ram := memcpy_ram vm.ram demo demo_size, pc := 0 }

/-- The function `vm_load_image`, with the file system abstracted: `file` is
`none` when `fopen` fails and `some data` when the file holds the bytes `data`;
`fread` delivers the first `VM_RAM_SIZE` of them into `ram` from address 0.
Returns the new state and the C return value. -/
def vm_load_image (s : Sys) (filename : List Nat) (file : Option (List Nat)) : Sys × Int :=
  match file with
  | none =>
    ({ s with stderr := s.stderr ++ text "Error: Cannot open file '" ++ filename ++ text "'\n" },
      -1)
  | some data =>
    let bytes_read := min data.length VM_RAM_SIZE
    let vm1 : VM := { s.vm with ram := memcpy_ram s.vm.ram data bytes_read }
    if bytes_read = 0 then
      ({ s with
         vm := vm1
         stderr := s.stderr ++ text "Error: File '" ++ filename ++ text "' is empty\n" }, -1)
    else ({ s with vm := { vm1 with pc := 0 } }, 0)

/-! ## `vm.c`: breakpoints and debug mode -/

/-- The function `vm_set_debug_mode`. -/
def vm_set_debug_mode (vm : VM) (enable : Int) : VM :=
  { vm with debug_mode := enable }

/-- The function `vm_add_breakpoint`. -/
def vm_add_breakpoint (vm : VM) (addr : Nat) : VM :=
  if vm.breakpoint_count ≥ VM_MAX_BREAKPOINTS then vm
  else
    { vm with
      breakpoints := setAt vm.breakpoints vm.breakpoint_count addr
      breakpoint_count := vm.breakpoint_count + 1 }

/-- The inner loop of `vm_remove_breakpoint`: `breakpoints[j] = breakpoints[j+1]`
for `n` consecutive indices starting at `j`. -/
def shiftDown (bps : Nat → Nat) : Nat → Nat → Nat → Nat
  | _, 0 => bps
  | j, n + 1 => shiftDown (setAt bps j (bps (j + 1))) (j + 1) n

/-- The outer loop of `vm_remove_breakpoint` from index `i` on, with `n` rounds
left: at the first entry equal to `addr` the later entries move down by one
(`j` from `i` while `j < breakpoint_count - 1`), the count drops by one and the
loop is left by `break`. -/
def remove_breakpoint_from (vm : VM) (addr : Nat) : Nat → Nat → VM
  | _, 0 => vm
  | i, n + 1 =>
    if vm.breakpoints i = addr then
      { vm with
        breakpoints := shiftDown vm.breakpoints i (vm.breakpoint_count - 1 - i)
        breakpoint_count := vm.breakpoint_count - 1 }
    else remove_breakpoint_from vm addr (i + 1) n

/-- The function `vm_remove_breakpoint`. -/
def vm_remove_breakpoint (vm : VM) (addr : Nat) : VM :=
  remove_breakpoint_from vm addr 0 vm.breakpoint_count

/-- The scan of `vm_at_breakpoint` from index `i` on, with `n` entries left. -/
def at_breakpoint_from (vm : VM) : Nat → Nat → Bool
  | _, 0 => false
  | i, n + 1 => if vm.breakpoints i = vm.pc then true else at_breakpoint_from vm (i + 1) n

/-- The function `vm_at_breakpoint`. -/
def vm_at_breakpoint (vm : VM) : Bool :=
  at_breakpoint_from vm 0 vm.breakpoint_count

/-- The stored breakpoints `breakpoints[0 .. breakpoint_count)` in order. -/
def VM.breakpointList (vm : VM) : List Nat :=
  (List.range vm.breakpoint_count).map vm.breakpoints

/-! ## `vm.c`: `vm_dump_state` -/

/-- One line of the register loop of `vm_dump_state`. -/
def dumpReg (vm : VM) (i : Nat) : List Nat :=
  text "  R" ++ fmtDec i ++ text ": 0x" ++ fmtHex 16 (vm.regs i) ++ text " (" ++
    fmtSigned64 (vm.regs i) ++ text ")\n"

/-- The stack loop of `vm_dump_state`, from index `i` on, with `n` rounds left. -/
def dumpStack (vm : VM) : Nat → Nat → List Nat
  | _, 0 => []
  | i, n + 1 =>
    if vm.sp + i < VM_RAM_SIZE then
      text "  [0x" ++ fmtHex 4 (vm.sp + i) ++ text "]: 0x" ++ fmtHex 2 (vm.ram (vm.sp + i)) ++
        text "\n" ++ dumpStack vm (i + 1) n
    else []

/-- The bytes `vm_dump_state` writes to stdout. -/
def vm_dump_state (vm : VM) : List Nat :=
  text "\n=== VM State ===\n" ++
  text "PC: 0x" ++ fmtHex 4 vm.pc ++ text "  SP: 0x" ++ fmtHex 4 vm.sp ++ text "\n" ++
  text "Cycles: " ++ fmtDec vm.cycle_count ++ text "  Halted: " ++
    fmtDec (if vm.halted then 1 else 0) ++ text "\n" ++
  text "\nRegisters:\n" ++
  ((List.range VM_REG_COUNT).map (dumpReg vm)).flatten ++
  text "\nStack (first 32 bytes):\n" ++
  dumpStack vm 0 32

/-! ## `vm.c`: `vm_execute_one` -/

/-- The assignment `vm->halted = 1`. -/
def VM.halt (vm : VM) : VM := { vm with halted := true }

/-- The increment `vm->pc += k` on the `uint16_t` program counter. -/
def VM.advance (vm : VM) (k : Nat) : VM := { vm with pc := (vm.pc + k) % 2 ^ 16 }

/-- The assignment `vm->regs[r] = v`. -/
def VM.setReg (vm : VM) (r v : Nat) : VM := { vm with regs := setAt vm.regs r v }

/-- The expression `(vm->ram[a] << 8) | vm->ram[a+1]` stored into a `uint16_t`. -/
def be16 (ram : Nat → Nat) (a : Nat) : Nat :=
  ((ram a <<< 8) ||| ram (a + 1)) % 2 ^ 16

/-- The big-endian immediate of `OP_MOVI`, stored into a `uint32_t`. -/
def be32 (ram : Nat → Nat) (a : Nat) : Nat :=
  ((ram a <<< 24) ||| (ram (a + 1) <<< 16) ||| (ram (a + 2) <<< 8) ||| ram (a + 3)) % 2 ^ 32

/-- The case `OP_MOVI`. -/
def case_MOVI (vm : VM) : VM :=
  if vm.pc + 4 ≥ VM_RAM_SIZE then vm.halt
  else
    let reg := vm.ram vm.pc
    let vm1 := vm.advance 1
    let imm := be32 vm1.ram vm1.pc
    let vm2 := vm1.advance 4
    if reg < VM_REG_COUNT then vm2.setReg reg imm else vm2

/-- The shape shared by the cases with operands `dst, src`: bounds check, two
operand fetches `vm->ram[vm->pc++]`, then the update `upd dst src` under the
guard `dst < VM_REG_COUNT && src < VM_REG_COUNT`. -/
def twoRegs (vm : VM) (upd : VM → Nat → Nat → VM) : VM :=
  if vm.pc + 1 ≥ VM_RAM_SIZE then vm.halt
  else
    let dst := vm.ram vm.pc
    let vm1 := vm.advance 1
    let src := vm1.ram vm1.pc
    let vm2 := vm1.advance 1
    if dst < VM_REG_COUNT ∧ src < VM_REG_COUNT then upd vm2 dst src else vm2

/-- The case `OP_ADD`: `vm->regs[dst] += vm->regs[src]`. -/
def case_ADD (vm : VM) : VM :=
  twoRegs vm fun v dst src => v.setReg dst ((v.regs dst + v.regs src) % 2 ^ 64)

/-- The case `OP_SUB`: `vm->regs[dst] -= vm->regs[src]`. -/
def case_SUB (vm : VM) : VM :=
  twoRegs vm fun v dst src => v.setReg dst ((v.regs dst + 2 ^ 64 - v.regs src) % 2 ^ 64)

/-- The case `OP_MUL`: `vm->regs[dst] *= vm->regs[src]`. -/
def case_MUL (vm : VM) : VM :=
  twoRegs vm fun v dst src => v.setReg dst ((v.regs dst * v.regs src) % 2 ^ 64)

/-- The case `OP_DIV`: the division is guarded by `vm->regs[src] != 0`. -/
def case_DIV (vm : VM) : VM :=
  twoRegs vm fun v dst src =>
    if v.regs src ≠ 0 then v.setReg dst (v.regs dst / v.regs src) else v

/-- The case `OP_MOD`: the remainder is guarded by `vm->regs[src] != 0`. -/
def case_MOD (vm : VM) : VM :=
  twoRegs vm fun v dst src =>
    if v.regs src ≠ 0 then v.setReg dst (v.regs dst % v.regs src) else v

/-- The case `OP_AND`. -/
def case_AND (vm : VM) : VM :=
  twoRegs vm fun v dst src => v.setReg dst (v.regs dst &&& v.regs src)

/-- The case `OP_OR`. -/
def case_OR (vm : VM) : VM :=
  twoRegs vm fun v dst src => v.setReg dst (v.regs dst ||| v.regs src)

/-- The case `OP_XOR`. -/
def case_XOR (vm : VM) : VM :=
  twoRegs vm fun v dst src => v.setReg dst (v.regs dst ^^^ v.regs src)

/-- The case `OP_NOT`: `vm->regs[dst] = ~vm->regs[dst]` on 64 bits. -/
def case_NOT (vm : VM) : VM :=
  if vm.pc ≥ VM_RAM_SIZE then vm.halt
  else
    let dst := vm.ram vm.pc
    let vm1 := vm.advance 1
    if dst < VM_REG_COUNT then vm1.setReg dst (vm1.regs dst ^^^ (2 ^ 64 - 1)) else vm1

/-- The shape shared by `OP_SHL` and `OP_SHR`: operands `dst, imm8`, the shift
guarded by `dst < VM_REG_COUNT && imm < 64`. -/
def regImm8 (vm : VM) (upd : VM → Nat → Nat → VM) : VM :=
  if vm.pc + 1 ≥ VM_RAM_SIZE then vm.halt
  else
    let dst := vm.ram vm.pc
    let vm1 := vm.advance 1
    let imm := vm1.ram vm1.pc
    let vm2 := vm1.advance 1
    if dst < VM_REG_COUNT ∧ imm < 64 then upd vm2 dst imm else vm2

/-- The case `OP_SHL`: `vm->regs[dst] <<= imm`. -/
def case_SHL (vm : VM) : VM :=
  regImm8 vm fun v dst imm => v.setReg dst ((v.regs dst <<< imm) % 2 ^ 64)

/-- The case `OP_SHR`: `vm->regs[dst] >>= imm`. -/
def case_SHR (vm : VM) : VM :=
  regImm8 vm fun v dst imm => v.setReg dst (v.regs dst >>> imm)

/-- The shape shared by the cases with operands `reg, addr16`: bounds check,
`reg = vm->ram[vm->pc++]`, the big-endian `addr`, `vm->pc += 2`, then `k`. -/
def regAddr16 (vm : VM) (k : VM → Nat → Nat → VM) : VM :=
  if vm.pc + 2 ≥ VM_RAM_SIZE then vm.halt
  else
    let reg := vm.ram vm.pc
    let vm1 := vm.advance 1
    let addr := be16 vm1.ram vm1.pc
    let vm2 := vm1.advance 2
    k vm2 reg addr

/-- The case `OP_LOAD`. -/
def case_LOAD (vm : VM) : VM :=
  regAddr16 vm fun v dst addr =>
    if dst < VM_REG_COUNT ∧ addr < VM_RAM_SIZE then v.setReg dst (v.ram addr) else v

/-- The case `OP_STORE`: `vm->ram[addr] = (uint8_t)(vm->regs[src] & 0xFF)`. -/
def case_STORE (vm : VM) : VM :=
  regAddr16 vm fun v src addr =>
    if src < VM_REG_COUNT ∧ addr < VM_RAM_SIZE then
      { v with ram := setAt v.ram addr ((v.regs src &&& 0xFF) % 2 ^ 8) }
    else v

/-- The case `OP_OUT`: `putchar((int)(vm->regs[reg] & 0xFF))`. -/
def case_OUT (s : Sys) : Sys :=
  if s.vm.pc ≥ VM_RAM_SIZE then { s with vm := s.vm.halt }
  else
    let reg := s.vm.ram s.vm.pc
    let vm1 := s.vm.advance 1
    if reg < VM_REG_COUNT then
      { s with vm := vm1, stdout := s.stdout ++ [vm1.regs reg &&& 0xFF] }
    else { s with vm := vm1 }

/-- The case `OP_IN`: `getchar()`, with end of input giving 0. -/
def case_IN (s : Sys) : Sys :=
  if s.vm.pc ≥ VM_RAM_SIZE then { s with vm := s.vm.halt }
  else
    let reg := s.vm.ram s.vm.pc
    let vm1 := s.vm.advance 1
    if reg < VM_REG_COUNT then
      match s.stdin with
      | [] => { s with vm := vm1.setReg reg 0 }
      | ch :: rest => { s with vm := vm1.setReg reg ch, stdin := rest }
    else { s with vm := vm1 }

/-- The case `OP_JMP`. -/
def case_JMP (vm : VM) : VM :=
  if vm.pc + 1 ≥ VM_RAM_SIZE then vm.halt
  else { vm with pc := be16 vm.ram vm.pc }

/-- The case `OP_JNZ`. -/
def case_JNZ (vm : VM) : VM :=
  regAddr16 vm fun v reg addr =>
    if reg < VM_REG_COUNT ∧ v.regs reg ≠ 0 then { v with pc := addr } else v

/-- The case `OP_JZ`. -/
def case_JZ (vm : VM) : VM :=
  regAddr16 vm fun v reg addr =>
    if reg < VM_REG_COUNT ∧ v.regs reg = 0 then { v with pc := addr } else v

/-- The case `OP_JLT`: `(int64_t)vm->regs[reg] < 0`, that is the sign bit set. -/
def case_JLT (vm : VM) : VM :=
  regAddr16 vm fun v reg addr =>
    if reg < VM_REG_COUNT ∧ v.regs reg ≥ 2 ^ 63 then { v with pc := addr } else v

/-- The case `OP_JGT`: `(int64_t)vm->regs[reg] > 0`. -/
def case_JGT (vm : VM) : VM :=
  regAddr16 vm fun v reg addr =>
    if reg < VM_REG_COUNT ∧ 0 < v.regs reg ∧ v.regs reg < 2 ^ 63 then { v with pc := addr }
    else v

/-- The case `OP_CMP`: 0 if equal, 1 if different. -/
def case_CMP (vm : VM) : VM :=
  twoRegs vm fun v dst src => v.setReg dst (if v.regs dst ≠ v.regs src then 1 else 0)

/-- The case `OP_CALL`: the return address is pushed as two bytes, high byte
first, under the guard `vm->sp > 1`. -/
def case_CALL (vm : VM) : VM :=
  if vm.pc + 1 ≥ VM_RAM_SIZE then vm.halt
  else
    let addr := be16 vm.ram vm.pc
    let vm1 := vm.advance 2
    if vm1.sp > 1 then
      let sp := vm1.sp - 2
      let ram1 := setAt vm1.ram sp ((vm1.pc >>> 8) &&& 0xFF)
      let ram2 := setAt ram1 (sp + 1) (vm1.pc &&& 0xFF)
      { vm1 with sp := sp, ram := ram2, pc := addr }
    else vm1

/-- The case `OP_RET`, under the guard `vm->sp + 1 < VM_RAM_SIZE`. -/
def case_RET (vm : VM) : VM :=
  if vm.sp + 1 < VM_RAM_SIZE then
    { vm with pc := be16 vm.ram vm.sp, sp := (vm.sp + 2) % 2 ^ 16 }
  else vm

/-- The loop of `OP_PUSH`: `vm->ram[vm->sp + i] = (val >> (56 - i*8)) & 0xFF`
for `i = 0 .. 7`. -/
def pushBytes (ram : Nat → Nat) (sp val : Nat) : Nat → Nat :=
  (List.range 8).foldl (fun m i => setAt m (sp + i) ((val >>> (56 - i * 8)) &&& 0xFF)) ram

/-- The loop of `OP_POP`: `val = (val << 8) | vm->ram[vm->sp + i]` for
`i = 0 .. 7`, on a `uint64_t` accumulator starting at 0. -/
def popBytes (ram : Nat → Nat) (sp : Nat) : Nat :=
  (List.range 8).foldl (fun val i => ((val <<< 8) % 2 ^ 64) ||| ram (sp + i)) 0

/-- The case `OP_PUSH`. -/
def case_PUSH (vm : VM) : VM :=
  if vm.pc ≥ VM_RAM_SIZE then vm.halt
  else
    let reg := vm.ram vm.pc
    let vm1 := vm.advance 1
    if reg < VM_REG_COUNT ∧ vm1.sp > 7 then
      let sp := vm1.sp - 8
      { vm1 with sp := sp, ram := pushBytes vm1.ram sp (vm1.regs reg) }
    else vm1

/-- The case `OP_POP`. -/
def case_POP (vm : VM) : VM :=
  if vm.pc ≥ VM_RAM_SIZE then vm.halt
  else
    let reg := vm.ram vm.pc
    let vm1 := vm.advance 1
    if reg < VM_REG_COUNT ∧ vm1.sp + 8 ≤ VM_RAM_SIZE then
      { vm1 with regs := setAt vm1.regs reg (popBytes vm1.ram vm1.sp), sp := (vm1.sp + 8) % 2 ^ 16 }
    else vm1

/-- The `default` case: a diagnostic on stderr naming the opcode and
`vm->pc - 1` (an `int`, printed through `%04X` as 32-bit unsigned), then halt. -/
def case_default (opcode : Nat) (s : Sys) : Sys :=
  { s with
    stderr := s.stderr ++ text "Unknown opcode: 0x" ++ fmtHex 2 opcode ++ text " at PC 0x" ++
      fmtHex 4 ((s.vm.pc + 2 ^ 32 - 1) % 2 ^ 32) ++ text "\n"
    vm := s.vm.halt }

/-- Lift a case that touches only the VM struct. -/
def Sys.onVM (s : Sys) (f : VM → VM) : Sys := { s with vm := f s.vm }

/-- The `switch (opcode)` of `vm_execute_one`. -/
def dispatch (opcode : Nat) (s : Sys) : Sys :=
  if opcode = OP_HALT then s.onVM VM.halt
  else if opcode = OP_MOVI then s.onVM case_MOVI
  else if opcode = OP_ADD then s.onVM case_ADD
  else if opcode = OP_SUB then s.onVM case_SUB
  else if opcode = OP_MUL then s.onVM case_MUL
  else if opcode = OP_DIV then s.onVM case_DIV
  else if opcode = OP_MOD then s.onVM case_MOD
  else if opcode = OP_AND then s.onVM case_AND
  else if opcode = OP_OR then s.onVM case_OR
  else if opcode = OP_XOR then s.onVM case_XOR
  else if opcode = OP_NOT then s.onVM case_NOT
  else if opcode = OP_SHL then s.onVM case_SHL
  else if opcode = OP_SHR then s.onVM case_SHR
  else if opcode = OP_LOAD then s.onVM case_LOAD
  else if opcode = OP_STORE then s.onVM case_STORE
  else if opcode = OP_OUT then case_OUT s
  else if opcode = OP_IN then case_IN s
  else if opcode = OP_JMP then s.onVM case_JMP
  else if opcode = OP_JNZ then s.onVM case_JNZ
  else if opcode = OP_JZ then s.onVM case_JZ
  else if opcode = OP_JLT then s.onVM case_JLT
  else if opcode = OP_JGT then s.onVM case_JGT
  else if opcode = OP_CMP then s.onVM case_CMP
  else if opcode = OP_CALL then s.onVM case_CALL
  else if opcode = OP_RET then s.onVM case_RET
  else if opcode = OP_PUSH then s.onVM case_PUSH
  else if opcode = OP_POP then s.onVM case_POP
  else case_default opcode s

/-- The line `[PC: 0x%04X] Opcode: 0x%02X` that debug mode prints to stdout
before an instruction; nothing when `debug_mode` is 0. -/
def debugLine (vm : VM) (opcode : Nat) : List Nat :=
  if vm.debug_mode ≠ 0 then
    text "[PC: 0x" ++ fmtHex 4 vm.pc ++ text "] Opcode: 0x" ++ fmtHex 2 opcode ++ text "\n"
  else []

/-- The statements `vm->pc++; vm->cycle_count++;` after the opcode fetch. -/
def VM.fetch (vm : VM) : VM :=
  { vm with pc := (vm.pc + 1) % 2 ^ 16, cycle_count := (vm.cycle_count + 1) % 2 ^ 64 }

/-- The function `vm_execute_one`. -/
def vm_execute_one (s : Sys) : Sys :=
  if s.vm.halted = true ∨ s.vm.pc ≥ VM_RAM_SIZE then s.onVM VM.halt
  else
    let opcode := s.vm.ram s.vm.pc
    dispatch opcode
      { s with stdout := s.stdout ++ debugLine s.vm opcode, vm := s.vm.fetch }

/-! ## `vm.c`: `vm_run` -/

/-- How the `while` loop of `vm_run` was left: its condition became false, or
the `break` at a breakpoint was taken. -/
inductive RunExit where
  | condition_false
  | breakpoint_hit
  deriving DecidableEq, Repr

/-- What `vm_run` prints to stdout when it stops at a breakpoint. -/
def breakpointReport (vm : VM) : List Nat :=
  text "\nBreakpoint hit at PC: 0x" ++ fmtHex 4 vm.pc ++ text "\n" ++ vm_dump_state vm

/-- The loop of `vm_run`, with at most `fuel` calls of `vm_execute_one`;
`none` when the loop is still running after them. -/
def vm_run_loop : Nat → Sys → Option (Sys × RunExit)
  | fuel, s =>
    if s.vm.halted = false ∧ s.vm.pc < VM_RAM_SIZE then
      if vm_at_breakpoint s.vm = true then
        some ({ s with stdout := s.stdout ++ breakpointReport s.vm }, RunExit.breakpoint_hit)
      else
        match fuel with
        | 0 => none
        | fuel + 1 => vm_run_loop fuel (vm_execute_one s)
    else some (s, RunExit.condition_false)

/-- The function `vm_run`. -/
def vm_run (fuel : Nat) (s : Sys) : Option Sys :=
  (vm_run_loop fuel s).map Prod.fst

/-! ## Test programs and states -/

/-- A process whose VM is `vm`, with `inp` waiting on stdin and nothing
written yet. -/
def boot (vm : VM) (inp : List Nat) : Sys :=
  { vm := vm, stdin := inp, stdout := [], stderr := [] }

/-- The image of Scenario 1: `MOVI r0, 0x41; OUT r0; HALT`. -/
def scenario1 : List Nat := [0x10, 0x00, 0x00, 0x00, 0x00, 0x41, 0x40, 0x00, 0x00]

/-- Scenario 1 in a freshly created VM. -/
def scenario1Start (inp : List Nat) : Sys :=
  boot { vm_create with ram := imageOf scenario1 } inp

/-- Scenario 1 with debug mode switched on before the run. -/
def scenario1Debug : Sys :=
  boot (vm_set_debug_mode { vm_create with ram := imageOf scenario1 } 1) []

/-- Scenario 1 with a breakpoint on the `OUT` at address 6. -/
def scenario1Break : Sys :=
  boot (vm_add_breakpoint { vm_create with ram := imageOf scenario1 } 6) []

/-- A fresh VM holding the two-operand instruction `op 1, x` at address 0,
with `a` in register 1 and `b` in register 2. -/
def operandState (op x a b : Nat) : Sys :=
  boot { vm_create with
         ram := imageOf [op, 1, x]
         regs := fun r => if r = 1 then a else if r = 2 then b else 0 } []

/-- A fresh VM holding `CALL 0xFFFD` at address 0 and `RET` at 0xFFFD, the
address of the first stack byte the call writes. -/
def callIntoStack : Sys :=
  boot { vm_create with
         ram := fun a => if a = 0xFFFD then 0x71 else imageOf [0x70, 0xFF, 0xFD] a } []

/-- A fresh VM holding `CALL 0x0010` at address 0 and `RET` at 0x0010. -/
def callRet : Sys :=
  boot { vm_create with
         ram := fun a => if a = 0x10 then 0x71 else imageOf [0x70, 0x00, 0x10] a } []

/-- A fresh VM with `CALL 0x0010` in the last three bytes of memory, PC on it,
and `RET` at 0x0010; the stack pointer is moved to 0x8000, away from both. -/
def callAtTop : Sys :=
  boot { vm_create with
         ram := fun a =>
           if a = 0xFFFD then 0x70 else if a = 0xFFFE then 0x00 else if a = 0xFFFF then 0x10
           else if a = 0x10 then 0x71 else 0
         pc := 0xFFFD
         sp := 0x8000 } []

/-- The state in which `vm_run` leaves `scenario1Break`: one instruction
executed, then the breakpoint report printed. -/
def scenario1Stop : Sys :=
  { vm_execute_one scenario1Break with
    stdout := (vm_execute_one scenario1Break).stdout ++
      breakpointReport (vm_execute_one scenario1Break).vm }

/-- Whether the next `n` executed instructions are all different from `IN`. -/
def noInput : Nat → Sys → Bool
  | 0, _ => true
  | n + 1, s => decide (s.vm.ram s.vm.pc ≠ OP_IN) && noInput n (vm_execute_one s)

/-- The projection of a run's result onto output, halt flag and cycle count. -/
def observe (r : Option (Sys × RunExit)) : Option (List Nat × Bool × Nat) :=
  r.map fun p => (p.1.stdout, p.1.vm.halted, p.1.vm.cycle_count)


/-- A fresh VM holding `PUSH r0` at address 0. -/
def pushFresh : Sys :=
  boot { vm_create with ram := imageOf [0x80, 0x00] } []

/-- A fresh VM holding `PUSH 8`, a register index out of range, at address 0. -/
def pushInvalid : Sys :=
  boot { vm_create with ram := imageOf [0x80, 0x08] } []

/-- A VM holding `POP r0` at address 0 whose stack pointer is 0xFFF8, eight
bytes below the end of memory. -/
def popAtTop : Sys :=
  boot { vm_create with ram := imageOf [0x81, 0x00], sp := 0xFFF8 } []

/-- A fresh VM holding `PUSH r1; POP r2` at address 0, with a 64-bit pattern
in register 1. -/
def pushPop : Sys :=
  boot { vm_create with
         ram := imageOf [0x80, 0x01, 0x81, 0x02]
         regs := fun r => if r = 1 then 0x1122334455667788 else 0 } []

/-! ## Instruction encodings -/

/-- The number of operand bytes that follow an opcode byte, as the cases of
`vm_execute_one` fetch them and the comments of the enum `Opcode` list them:
`reg`, `dst`, `src` and `imm8` are one byte, `addr16` two, `imm32` four. -/
def operandBytes (opcode : Nat) : Nat :=
  if opcode = OP_MOVI then 5
  else if opcode ∈ [OP_LOAD, OP_STORE, OP_JNZ, OP_JZ, OP_JLT, OP_JGT] then 3
  else if opcode ∈ [OP_ADD, OP_SUB, OP_MUL, OP_DIV, OP_MOD, OP_AND, OP_OR, OP_XOR, OP_SHL,
      OP_SHR, OP_JMP, OP_CMP, OP_CALL] then 2
  else if opcode ∈ [OP_NOT, OP_OUT, OP_IN, OP_PUSH, OP_POP] then 1
  else 0

/-- The opcodes whose first operand byte is their only register index. -/
def oneRegOpcodes : List Nat :=
  [OP_MOVI, OP_NOT, OP_SHL, OP_SHR, OP_LOAD, OP_STORE, OP_OUT, OP_IN, OP_JNZ, OP_JZ, OP_JLT,
   OP_JGT, OP_PUSH, OP_POP]

/-- The opcodes whose two operand bytes are the register indices `dst, src`. -/
def twoRegOpcodes : List Nat :=
  [OP_ADD, OP_SUB, OP_MUL, OP_DIV, OP_MOD, OP_AND, OP_OR, OP_XOR, OP_CMP]

/-- The instruction at PC has a register operand byte that is no register
index: the operand of a one-register instruction, or `dst` or `src` of a
two-register instruction. -/
def invalidRegister (vm : VM) : Prop :=
  (vm.ram vm.pc ∈ oneRegOpcodes ∧ vm.ram (vm.pc + 1) ≥ VM_REG_COUNT) ∨
  (vm.ram vm.pc ∈ twoRegOpcodes ∧
    (vm.ram (vm.pc + 1) ≥ VM_REG_COUNT ∨ vm.ram (vm.pc + 2) ≥ VM_REG_COUNT))

instance (vm : VM) : Decidable (invalidRegister vm) := by
  unfold invalidRegister
  exact inferInstance

/-- A VM with `NOT` in the last byte of memory and PC on it; all other bytes,
the one at address 0 included, are zero. -/
def notAtTop : Sys :=
  boot { vm_create with ram := fun a => if a = 0xFFFF then 0x28 else 0, pc := 0xFFFF } []

/-- A VM in debug mode with `ADD` in the last but one byte of memory and PC on
it: one of its two operand bytes lies past the end of memory. -/
def addAtTopDebug : Sys :=
  boot (vm_set_debug_mode
    { vm_create with ram := fun a => if a = 0xFFFE then 0x20 else 0, pc := 0xFFFE } 1) []

/-- The same VM with debug mode off. -/
def addAtTop : Sys :=
  boot { vm_create with ram := fun a => if a = 0xFFFE then 0x20 else 0, pc := 0xFFFE } []

/-- A fresh VM holding `NOT 8` at address 0, debug mode on. -/
def notInvalidDebug : Sys :=
  boot (vm_set_debug_mode { vm_create with ram := imageOf [0x28, 0x08] } 1) []

/-- A VM with `MOVI 8, ..` four bytes before the end of memory and PC on it:
the register byte 8 lies inside memory, the immediate runs past its end. -/
def moviInvalidAtTop : Sys :=
  boot { vm_create with
         ram := fun a => if a = 0xFFFC then 0x10 else if a = 0xFFFD then 8 else 0
         pc := 0xFFFC } []

/-! ## `vm.c`: `vm_execute_one` with checked indexing

The same function once more, statement for statement, with every access to
`vm->ram[..]` and `vm->regs[..]` going through an accessor that answers `none`
when the index lies outside the array. -/

/-- The read `vm->ram[i]`; `none` when `i` is outside `[0, VM_RAM_SIZE)`. -/
def VM.readRam (vm : VM) (i : Nat) : Option Nat :=
  if i < VM_RAM_SIZE then some (vm.ram i) else none

/-- The write `vm->ram[i] = v`; `none` when `i` is outside `[0, VM_RAM_SIZE)`. -/
def VM.writeRam (vm : VM) (i v : Nat) : Option VM :=
  if i < VM_RAM_SIZE then some { vm with ram := setAt vm.ram i v } else none

/-- The read `vm->regs[r]`; `none` when `r` is outside `[0, VM_REG_COUNT)`. -/
def VM.readReg (vm : VM) (r : Nat) : Option Nat :=
  if r < VM_REG_COUNT then some (vm.regs r) else none

/-- The write `vm->regs[r] = v`; `none` when `r` is outside `[0, VM_REG_COUNT)`. -/
def VM.writeReg (vm : VM) (r v : Nat) : Option VM :=
  if r < VM_REG_COUNT then some (vm.setReg r v) else none

/-- The expression `(vm->ram[a] << 8) | vm->ram[a+1]`, both reads checked. -/
def checked_be16 (vm : VM) (a : Nat) : Option Nat := do
  let hi ← vm.readRam a
  let lo ← vm.readRam (a + 1)
  pure (((hi <<< 8) ||| lo) % 2 ^ 16)

/-- The immediate of `OP_MOVI`, all four reads checked. -/
def checked_be32 (vm : VM) (a : Nat) : Option Nat := do
  let b0 ← vm.readRam a
  let b1 ← vm.readRam (a + 1)
  let b2 ← vm.readRam (a + 2)
  let b3 ← vm.readRam (a + 3)
  pure (((b0 <<< 24) ||| (b1 <<< 16) ||| (b2 <<< 8) ||| b3) % 2 ^ 32)

/-- The case `OP_MOVI`, checked. -/
def checked_MOVI (vm : VM) : Option VM :=
  if vm.pc + 4 ≥ VM_RAM_SIZE then some vm.halt
  else do
    let reg ← vm.readRam vm.pc
    let vm1 := vm.advance 1
    let imm ← checked_be32 vm1 vm1.pc
    let vm2 := vm1.advance 4
    if reg < VM_REG_COUNT then vm2.writeReg reg imm else pure vm2

/-- The shape of the cases with operands `dst, src`, checked. -/
def checked_twoRegs (vm : VM) (upd : VM → Nat → Nat → Option VM) : Option VM :=
  if vm.pc + 1 ≥ VM_RAM_SIZE then some vm.halt
  else do
    let dst ← vm.readRam vm.pc
    let vm1 := vm.advance 1
    let src ← vm1.readRam vm1.pc
    let vm2 := vm1.advance 1
    if dst < VM_REG_COUNT ∧ src < VM_REG_COUNT then upd vm2 dst src else pure vm2

/-- The statement `vm->regs[dst] = f(vm->regs[dst], vm->regs[src])`, checked. -/
def checked_binop (f : Nat → Nat → Nat) (v : VM) (dst src : Nat) : Option VM := do
  let a ← v.readReg dst
  let b ← v.readReg src
  v.writeReg dst (f a b)

/-- The statement of `OP_DIV` and `OP_MOD`, guarded by `vm->regs[src] != 0`,
checked. -/
def checked_divop (f : Nat → Nat → Nat) (v : VM) (dst src : Nat) : Option VM := do
  let b ← v.readReg src
  if b ≠ 0 then do
    let a ← v.readReg dst
    v.writeReg dst (f a b)
  else pure v

/-- The case `OP_NOT`, checked. -/
def checked_NOT (vm : VM) : Option VM :=
  if vm.pc ≥ VM_RAM_SIZE then some vm.halt
  else do
    let dst ← vm.readRam vm.pc
    let vm1 := vm.advance 1
    if dst < VM_REG_COUNT then do
      let a ← vm1.readReg dst
      vm1.writeReg dst (a ^^^ (2 ^ 64 - 1))
    else pure vm1

/-- The shape of `OP_SHL` and `OP_SHR`, checked. -/
def checked_regImm8 (vm : VM) (f : Nat → Nat → Nat) : Option VM :=
  if vm.pc + 1 ≥ VM_RAM_SIZE then some vm.halt
  else do
    let dst ← vm.readRam vm.pc
    let vm1 := vm.advance 1
    let imm ← vm1.readRam vm1.pc
    let vm2 := vm1.advance 1
    if dst < VM_REG_COUNT ∧ imm < 64 then do
      let a ← vm2.readReg dst
      vm2.writeReg dst (f a imm)
    else pure vm2

/-- The shape of the cases with operands `reg, addr16`, checked. -/
def checked_regAddr16 (vm : VM) (k : VM → Nat → Nat → Option VM) : Option VM :=
  if vm.pc + 2 ≥ VM_RAM_SIZE then some vm.halt
  else do
    let reg ← vm.readRam vm.pc
    let vm1 := vm.advance 1
    let addr ← checked_be16 vm1 vm1.pc
    let vm2 := vm1.advance 2
    k vm2 reg addr

/-- The case `OP_LOAD`, checked. -/
def checked_LOAD (vm : VM) : Option VM :=
  checked_regAddr16 vm fun v dst addr =>
    if dst < VM_REG_COUNT ∧ addr < VM_RAM_SIZE then do
      let b ← v.readRam addr
      v.writeReg dst b
    else pure v

/-- The case `OP_STORE`, checked. -/
def checked_STORE (vm : VM) : Option VM :=
  checked_regAddr16 vm fun v src addr =>
    if src < VM_REG_COUNT ∧ addr < VM_RAM_SIZE then do
      let a ← v.readReg src
      v.writeRam addr ((a &&& 0xFF) % 2 ^ 8)
    else pure v

/-- The conditional jumps: `reg < VM_REG_COUNT && test(vm->regs[reg])`, the
register read only after the index test, checked. -/
def checked_jumpIf (test : Nat → Bool) (vm : VM) : Option VM :=
  checked_regAddr16 vm fun v reg addr =>
    if reg < VM_REG_COUNT then do
      let x ← v.readReg reg
      pure (if test x = true then { v with pc := addr } else v)
    else pure v

/-- The case `OP_OUT`, checked. -/
def checked_OUT (s : Sys) : Option Sys :=
  if s.vm.pc ≥ VM_RAM_SIZE then some { s with vm := s.vm.halt }
  else do
    let reg ← s.vm.readRam s.vm.pc
    let vm1 := s.vm.advance 1
    if reg < VM_REG_COUNT then do
      let x ← vm1.readReg reg
      pure { s with vm := vm1, stdout := s.stdout ++ [x &&& 0xFF] }
    else pure { s with vm := vm1 }

/-- The case `OP_IN`, checked. -/
def checked_IN (s : Sys) : Option Sys :=
  if s.vm.pc ≥ VM_RAM_SIZE then some { s with vm := s.vm.halt }
  else do
    let reg ← s.vm.readRam s.vm.pc
    let vm1 := s.vm.advance 1
    if reg < VM_REG_COUNT then
      match s.stdin with
      | [] => do
        let vm2 ← vm1.writeReg reg 0
        pure { s with vm := vm2 }
      | ch :: rest => do
        let vm2 ← vm1.writeReg reg ch
        pure { s with vm := vm2, stdin := rest }
    else pure { s with vm := vm1 }

/-- The case `OP_JMP`, checked. -/
def checked_JMP (vm : VM) : Option VM :=
  if vm.pc + 1 ≥ VM_RAM_SIZE then some vm.halt
  else do
    let addr ← checked_be16 vm vm.pc
    pure { vm with pc := addr }

/-- The case `OP_CALL`, checked. -/
def checked_CALL (vm : VM) : Option VM :=
  if vm.pc + 1 ≥ VM_RAM_SIZE then some vm.halt
  else do
    let addr ← checked_be16 vm vm.pc
    let vm1 := vm.advance 2
    if vm1.sp > 1 then do
      let vm2 : VM := { vm1 with sp := vm1.sp - 2 }
      let vm3 ← vm2.writeRam vm2.sp ((vm2.pc >>> 8) &&& 0xFF)
      let vm4 ← vm3.writeRam (vm3.sp + 1) (vm3.pc &&& 0xFF)
      pure { vm4 with pc := addr }
    else pure vm1

/-- The case `OP_RET`, checked. -/
def checked_RET (vm : VM) : Option VM :=
  if vm.sp + 1 < VM_RAM_SIZE then do
    let addr ← checked_be16 vm vm.sp
    pure { vm with pc := addr, sp := (vm.sp + 2) % 2 ^ 16 }
  else pure vm

/-- The loop of `OP_PUSH`, every write checked. -/
def checked_pushBytes (vm : VM) (val : Nat) : Option VM :=
  (List.range 8).foldlM (fun m i => m.writeRam (m.sp + i) ((val >>> (56 - i * 8)) &&& 0xFF)) vm

/-- The loop of `OP_POP`, every read checked. -/
def checked_popBytes (vm : VM) : Option Nat :=
  (List.range 8).foldlM
    (fun val i => do
      let b ← vm.readRam (vm.sp + i)
      pure (((val <<< 8) % 2 ^ 64) ||| b)) 0

/-- The case `OP_PUSH`, checked. -/
def checked_PUSH (vm : VM) : Option VM :=
  if vm.pc ≥ VM_RAM_SIZE then some vm.halt
  else do
    let reg ← vm.readRam vm.pc
    let vm1 := vm.advance 1
    if reg < VM_REG_COUNT ∧ vm1.sp > 7 then do
      let vm2 : VM := { vm1 with sp := vm1.sp - 8 }
      let val ← vm2.readReg reg
      checked_pushBytes vm2 val
    else pure vm1

/-- The case `OP_POP`, checked. -/
def checked_POP (vm : VM) : Option VM :=
  if vm.pc ≥ VM_RAM_SIZE then some vm.halt
  else do
    let reg ← vm.readRam vm.pc
    let vm1 := vm.advance 1
    if reg < VM_REG_COUNT ∧ vm1.sp + 8 ≤ VM_RAM_SIZE then do
      let val ← checked_popBytes vm1
      let vm2 ← vm1.writeReg reg val
      pure { vm2 with sp := (vm1.sp + 8) % 2 ^ 16 }
    else pure vm1

/-- Lift a checked case that touches only the VM struct. -/
def Sys.onVMChecked (s : Sys) (f : VM → Option VM) : Option Sys :=
  (f s.vm).map fun vm => { s with vm := vm }

/-- The `switch (opcode)` of `vm_execute_one`, checked. -/
def checked_dispatch (opcode : Nat) (s : Sys) : Option Sys :=
  if opcode = OP_HALT then some (s.onVM VM.halt)
  else if opcode = OP_MOVI then s.onVMChecked checked_MOVI
  else if opcode = OP_ADD then
    s.onVMChecked fun vm => checked_twoRegs vm (checked_binop fun a b => (a + b) % 2 ^ 64)
  else if opcode = OP_SUB then
    s.onVMChecked fun vm => checked_twoRegs vm (checked_binop fun a b => (a + 2 ^ 64 - b) % 2 ^ 64)
  else if opcode = OP_MUL then
    s.onVMChecked fun vm => checked_twoRegs vm (checked_binop fun a b => (a * b) % 2 ^ 64)
  else if opcode = OP_DIV then
    s.onVMChecked fun vm => checked_twoRegs vm (checked_divop fun a b => a / b)
  else if opcode = OP_MOD then
    s.onVMChecked fun vm => checked_twoRegs vm (checked_divop fun a b => a % b)
  else if opcode = OP_AND then
    s.onVMChecked fun vm => checked_twoRegs vm (checked_binop fun a b => a &&& b)
  else if opcode = OP_OR then
    s.onVMChecked fun vm => checked_twoRegs vm (checked_binop fun a b => a ||| b)
  else if opcode = OP_XOR then
    s.onVMChecked fun vm => checked_twoRegs vm (checked_binop fun a b => a ^^^ b)
  else if opcode = OP_NOT then s.onVMChecked checked_NOT
  else if opcode = OP_SHL then
    s.onVMChecked fun vm => checked_regImm8 vm fun a imm => (a <<< imm) % 2 ^ 64
  else if opcode = OP_SHR then
    s.onVMChecked fun vm => checked_regImm8 vm fun a imm => a >>> imm
  else if opcode = OP_LOAD then s.onVMChecked checked_LOAD
  else if opcode = OP_STORE then s.onVMChecked checked_STORE
  else if opcode = OP_OUT then checked_OUT s
  else if opcode = OP_IN then checked_IN s
  else if opcode = OP_JMP then s.onVMChecked checked_JMP
  else if opcode = OP_JNZ then s.onVMChecked (checked_jumpIf fun x => decide (x ≠ 0))
  else if opcode = OP_JZ then s.onVMChecked (checked_jumpIf fun x => decide (x = 0))
  else if opcode = OP_JLT then s.onVMChecked (checked_jumpIf fun x => decide (x ≥ 2 ^ 63))
  else if opcode = OP_JGT then
    s.onVMChecked (checked_jumpIf fun x => decide (0 < x ∧ x < 2 ^ 63))
  else if opcode = OP_CMP then
    s.onVMChecked fun vm => checked_twoRegs vm (checked_binop fun a b => if a ≠ b then 1 else 0)
  else if opcode = OP_CALL then s.onVMChecked checked_CALL
  else if opcode = OP_RET then s.onVMChecked checked_RET
  else if opcode = OP_PUSH then s.onVMChecked checked_PUSH
  else if opcode = OP_POP then s.onVMChecked checked_POP
  else some (case_default opcode s)

/-- The function `vm_execute_one` with checked indexing: `none` as soon as an
index into `vm->ram` or `vm->regs` is out of range. -/
def vm_execute_one_checked (s : Sys) : Option Sys :=
  if s.vm.halted = true ∨ s.vm.pc ≥ VM_RAM_SIZE then some (s.onVM VM.halt)
  else do
    let opcode ← s.vm.readRam s.vm.pc
    checked_dispatch opcode
      { s with stdout := s.stdout ++ debugLine s.vm opcode, vm := s.vm.fetch }

/-- A fresh VM holding `STORE r1, 0x0100; LOAD r2, 0x0100` at address 0, with
0x1234 in register 1. -/
def storeLoad : Sys :=
  boot { vm_create with
         ram := imageOf [0x31, 0x01, 0x01, 0x00, 0x30, 0x02, 0x01, 0x00]
         regs := fun r => if r = 1 then 0x1234 else 0 } []

/-- A VM with `JNZ r0, 0x0010` in the last four bytes of memory and PC on it;
register 0 is zero, so the jump is not taken. -/
def jumpAtTop : Sys :=
  boot { vm_create with
         ram := fun a => if a = 0xFFFC then 0x51 else if a = 0xFFFF then 0x10 else 0
         pc := 0xFFFC } []

/-- A fresh VM holding `CALL 0x0010` at address 0 and `PUSH r1; RET` at
0x0010, with a 64-bit pattern in register 1. -/
def callPushRet : Sys :=
  boot { vm_create with
         ram := fun a =>
           if a = 0x10 then 0x80 else if a = 0x11 then 0x01 else if a = 0x12 then 0x71
           else imageOf [0x70, 0x00, 0x10] a
         regs := fun r => if r = 1 then 0xABCD123456789ABC else 0 } []

/-! ## `imggen.c`: the image generator

The output file is the list of bytes written so far. -/

/-- The function `emit_byte`: `fputc(b, f)` with `b` a `uint8_t`. -/
def emit_byte (f : List Nat) (b : Nat) : List Nat := f ++ [b % 2 ^ 8]

/-- The function `emit_dword`: four bytes, most significant first. -/
def emit_dword (f : List Nat) (v : Nat) : List Nat :=
  let f := emit_byte f ((v >>> 24) &&& 0xFF)
  let f := emit_byte f ((v >>> 16) &&& 0xFF)
  let f := emit_byte f ((v >>> 8) &&& 0xFF)
  emit_byte f (v &&& 0xFF)

/-- The function `emit_word`: two bytes, most significant first. -/
def emit_word (f : List Nat) (v : Nat) : List Nat :=
  let f := emit_byte f ((v >>> 8) &&& 0xFF)
  emit_byte f (v &&& 0xFF)

/-- The local `int loop_addr = 31;` of `gen_fibonacci`. -/
def loop_addr : Nat := 31

/-- The function `gen_fibonacci`, statement for statement, with the comments
of the source. -/
def gen_fibonacci (f : List Nat) : List Nat :=
  -- r0 = 1 (F1)
  let f := emit_byte f 0x10              -- MOVI
  let f := emit_byte f 0                 -- r0
  let f := emit_dword f 1                -- 1
  -- r1 = 1 (F2)
  let f := emit_byte f 0x10              -- MOVI
  let f := emit_byte f 1                 -- r1
  let f := emit_dword f 1                -- 1
  -- r2 = 10 (iterations)
  let f := emit_byte f 0x10              -- MOVI
  let f := emit_byte f 2                 -- r2
  let f := emit_dword f 10               -- 10
  -- loop: OUT r0
  let f := emit_byte f 0x40              -- OUT
  let f := emit_byte f 0                 -- r0
  -- newline
  let f := emit_byte f 0x10              -- MOVI
  let f := emit_byte f 3                 -- r3
  let f := emit_dword f 10               -- '\n'
  let f := emit_byte f 0x40              -- OUT
  let f := emit_byte f 3                 -- r3
  -- r3 = r0 + r1
  let f := emit_byte f 0x10              -- MOVI
  let f := emit_byte f 3                 -- r3
  let f := emit_dword f 0                -- 0 (temp)
  let f := emit_byte f 0x20              -- ADD
  let f := emit_byte f 3                 -- r3 = r0 + r1 (pseudo)
  -- r3 = r0
  let f := emit_byte f 0x10              -- MOVI
  let f := emit_byte f 3                 -- r3
  let f := emit_dword f 0                -- Will copy r0
  -- r2 -= 1
  let f := emit_byte f 0x10              -- MOVI
  let f := emit_byte f 3                 -- r3
  let f := emit_dword f 1                -- 1
  let f := emit_byte f 0x21              -- SUB
  let f := emit_byte f 2                 -- r2
  let f := emit_byte f 3                 -- r3
  -- JNZ r2, loop
  let f := emit_byte f 0x51              -- JNZ
  let f := emit_byte f 2                 -- r2
  let f := emit_word f loop_addr         -- loop address
  emit_byte f 0x00                       -- HALT

/-- A fresh VM after `vm_load_image` of the file that `gen_fibonacci` writes. -/
def fibonacci : Sys :=
  (vm_load_image (boot vm_create []) (text "fibonacci.bin") (some (gen_fibonacci []))).1

/-! ## Sequences of calls of the interface of `vm.h` -/

/-- One call of a function of `vm.h` that can change the VM, with its
arguments; for `vm_load_image` the file as in `vm_load_image`. -/
inductive Call where
  | execute_one
  | load_image (filename : List Nat) (file : Option (List Nat))
  | load_builtin_image
  | reset
  | set_debug_mode (enable : Int)
  | add_breakpoint (addr : Nat)
  | remove_breakpoint (addr : Nat)

/-- The effect of one call on the process. -/
def Call.run : Call → Sys → Sys
  | Call.execute_one, s => vm_execute_one s
  | Call.load_image filename file, s => (vm_load_image s filename file).1
  | Call.load_builtin_image, s => s.onVM vm_load_builtin_image
  | Call.reset, s => s.onVM vm_reset
  | Call.set_debug_mode enable, s => s.onVM fun vm => vm_set_debug_mode vm enable
  | Call.add_breakpoint addr, s => s.onVM fun vm => vm_add_breakpoint vm addr
  | Call.remove_breakpoint addr, s => s.onVM fun vm => vm_remove_breakpoint vm addr

/-- The effect of a sequence of calls, first call first. -/
def runCalls (cs : List Call) (s : Sys) : Sys := cs.foldl (fun t c => c.run t) s

/-- The opcodes that are neither `HALT` nor a jump, call or return. -/
def sequentialOpcodes : List Nat :=
  [OP_MOVI, OP_ADD, OP_SUB, OP_MUL, OP_DIV, OP_MOD, OP_AND, OP_OR, OP_XOR, OP_NOT, OP_SHL,
   OP_SHR, OP_LOAD, OP_STORE, OP_OUT, OP_IN, OP_CMP, OP_PUSH, OP_POP]

/-- The opcodes of the conditional jumps. -/
def condJumpOpcodes : List Nat := [OP_JNZ, OP_JZ, OP_JLT, OP_JGT]

/-- The test `reg < VM_REG_COUNT && ..` on which the conditional jump at PC
assigns `vm->pc = addr`. -/
def jumpTaken (vm : VM) : Prop :=
  vm.ram (vm.pc + 1) < VM_REG_COUNT ∧
  ((vm.ram vm.pc = OP_JNZ ∧ vm.regs (vm.ram (vm.pc + 1)) ≠ 0) ∨
   (vm.ram vm.pc = OP_JZ ∧ vm.regs (vm.ram (vm.pc + 1)) = 0) ∨
   (vm.ram vm.pc = OP_JLT ∧ vm.regs (vm.ram (vm.pc + 1)) ≥ 2 ^ 63) ∨
   (vm.ram vm.pc = OP_JGT ∧
     0 < vm.regs (vm.ram (vm.pc + 1)) ∧ vm.regs (vm.ram (vm.pc + 1)) < 2 ^ 63))

instance (vm : VM) : Decidable (jumpTaken vm) := by
  unfold jumpTaken
  exact inferInstance

/-- A VM with `ADD r1, r2` in the last three bytes of memory and PC on it,
3 in register 1 and 4 in register 2. -/
def addLast : Sys :=
  boot { vm_create with
         ram := fun a =>
           if a = 0xFFFD then 0x20 else if a = 0xFFFE then 1 else if a = 0xFFFF then 2 else 0
         regs := fun r => if r = 1 then 3 else if r = 2 then 4 else 0
         pc := 0xFFFD } []

end VM8

/-! # The 64-bit machine (`src/src/vm64.h`, `src/src/vm64.c`)

Same conventions as for the 8-bit machine.  The system calls that the shim
delegates to the host are answered by an oracle, a parameter of the step
function, and recorded in a log, so that "no host call" is observable.  The
syscall numbers come from `<sys/syscall.h>` (or, under `__APPLE__`, from the
macros at the top of `vm64.c`) and are a parameter too.
-/

namespace X64

open VM8 (setAt text fmtHex fmtDec)

/-! ## `vm64.h`: configuration, registers, opcodes -/

/-- The macro `VM64_RAM_SIZE` of `vm64.h`: 8 MiB. -/
def VM64_RAM_SIZE : Nat := 8 * 1024 * 1024

/-- The macro `VM64_REG_COUNT` of `vm64.h`. -/
def VM64_REG_COUNT : Nat := 16

def RAX : Nat := 0
def RCX : Nat := 1
def RDX : Nat := 2
def RBX : Nat := 3
def RBP : Nat := 5
def RSI : Nat := 6
def RDI : Nat := 7

def X64_HALT : Nat := 0x00
def X64_NOP : Nat := 0x01
def X64_MOVI : Nat := 0x10
def X64_ADD : Nat := 0x11
def X64_SUB : Nat := 0x12
def X64_MUL : Nat := 0x13
def X64_DIV : Nat := 0x14
def X64_MOD : Nat := 0x15
def X64_AND : Nat := 0x20
def X64_OR : Nat := 0x21
def X64_XOR : Nat := 0x22
def X64_NOT : Nat := 0x23
def X64_SHL : Nat := 0x24
def X64_SHR : Nat := 0x25
def X64_LOAD : Nat := 0x30
def X64_STORE : Nat := 0x31
def X64_MEMCPY : Nat := 0x32
def X64_OUT : Nat := 0x40
def X64_IN : Nat := 0x41
def X64_JMP : Nat := 0x50
def X64_JNZ : Nat := 0x51
def X64_JZ : Nat := 0x52
def X64_CALL : Nat := 0x53
def X64_RET : Nat := 0x54
def X64_SYSCALL : Nat := 0x80
def X64_PUSH : Nat := 0x90
def X64_POP : Nat := 0x91

/-- The opcodes with a `case` in the switch of `vm64_execute_one`, in source
order. -/
def handled : List Nat :=
  [X64_HALT, X64_NOP, X64_MOVI, X64_ADD, X64_SUB, X64_LOAD, X64_STORE, X64_OUT, X64_SYSCALL,
   X64_JMP, X64_PUSH, X64_POP]

/-- The opcodes of the enum `X64Opcode` without a `case` in the switch. -/
def reserved : List Nat :=
  [X64_MUL, X64_DIV, X64_MOD, X64_AND, X64_OR, X64_XOR, X64_NOT, X64_SHL, X64_SHR, X64_MEMCPY,
   X64_IN, X64_JNZ, X64_JZ, X64_CALL, X64_RET]

/-- The struct `VM64` of `vm64.h`; `ram` points to `VM64_RAM_SIZE` bytes. -/
structure VM64 where
  ram : Nat → Nat
  regs : Nat → Nat
  rip : Nat
  rsp : Nat
  eflags : Nat
  halted : Bool
  cycle_count : Nat
  instruction_count : Nat
  debug_mode : Int

/-! ## The host -/

/-- The `SYS_*` constants used as `case` labels by `vm64_syscall_handler`. -/
structure SyscallNumbers where
  SYS_write : Nat
  SYS_read : Nat
  SYS_open : Nat
  SYS_close : Nat
  SYS_lseek : Nat
  SYS_exit : Nat
  SYS_exit_group : Nat
  SYS_mmap : Nat
  SYS_brk : Nat

/-- The labels in the order of the switch. -/
def SyscallNumbers.labels (n : SyscallNumbers) : List Nat :=
  [n.SYS_write, n.SYS_read, n.SYS_exit, n.SYS_exit_group, n.SYS_open, n.SYS_close, n.SYS_lseek,
   n.SYS_mmap, n.SYS_brk]

/-- The labels of a C `switch` are pairwise different. -/
def SyscallNumbers.Distinct (n : SyscallNumbers) : Prop := n.labels.Nodup

/-- The numbers of `<sys/syscall.h>` on Linux x86-64. -/
def linux_x86_64 : SyscallNumbers :=
  { SYS_write := 1, SYS_read := 0, SYS_open := 2, SYS_close := 3, SYS_lseek := 8,
    SYS_exit := 60, SYS_exit_group := 231, SYS_mmap := 9, SYS_brk := 12 }

/-- The numbers defined at the top of `vm64.c` under `__APPLE__`. -/
def apple : SyscallNumbers :=
  { SYS_write := 4, SYS_read := 3, SYS_open := 2, SYS_close := 6, SYS_lseek := 19,
    SYS_exit := 1, SYS_exit_group := 231, SYS_mmap := 9, SYS_brk := 17 }

/-- A call the shim made to the host, with its arguments and return value.
A `write` carries the bytes handed over, `count` of them from `&ram[buf_addr]`. -/
inductive HostCall where
  | write (fd : Int) (buf_addr : Nat) (data : List Nat) (ret : Int)
  | read (fd : Int) (buf_addr count : Nat) (ret : Int)
  | openFile (filename_addr : Nat) (flags : Int) (ret : Int)
  | close (fd : Int) (ret : Int)
  | lseek (fd : Int) (offset : Int) (whence : Int) (ret : Int)
  deriving DecidableEq, Repr

/-- What the host answers; every answer may depend on the calls made before.
`read` answers `none` for the error return -1 and `some data` for the bytes
it delivers, of which at most `count` are taken.  `stray a b vm` is what the
VM64 struct holds after `read` has stored the byte `b` through `&ram[a]` with
the index `a` outside the image: that store lands in memory of the process
which the source does not lay out (the struct comes from one `malloc`, the
image from a `calloc`), so the host says what it hits. -/
structure Host where
  write : List HostCall → Int → List Nat → Int
  read : List HostCall → Int → Nat → Option (List Nat)
  openFile : List HostCall → List Nat → Int → Int
  close : List HostCall → Int → Int
  lseek : List HostCall → Int → Int → Int → Int
  stray : Nat → Nat → VM64 → VM64

/-- A VM64 together with what the process has printed through stdio on
stdout and stderr and the log of its host calls.  Bytes written directly with
`write(2)` are kept in the log, apart from the stdio streams: their order on
the descriptor relative to buffered stdio output depends on the buffering. -/
structure Sys64 where
  vm : VM64
  stdout : List Nat
  stderr : List Nat
  calls : List HostCall

/-- The bytes a call put on descriptor `fd`: those a `write` on `fd` handed
over and the host accepted. -/
def HostCall.written (fd : Int) : HostCall → List Nat
  | HostCall.write fd' _ data ret => if fd' = fd ∧ 0 < ret then data.take ret.toNat else []
  | _ => []

/-- All bytes the host accepted on descriptor `fd` through `write` calls. -/
def Sys64.fdWritten (s : Sys64) (fd : Int) : List Nat :=
  (s.calls.map (HostCall.written fd)).flatten

/-- A signed host result stored into a `uint64_t` register. -/
def toU64 (r : Int) : Nat := (r % 2 ^ 64).toNat

/-- A `uint64_t` register value converted to `int`. -/
def toInt32 (x : Nat) : Int :=
  if x % 2 ^ 32 < 2 ^ 31 then ((x % 2 ^ 32 : Nat) : Int) else ((x % 2 ^ 32 : Nat) : Int) - 2 ^ 32

/-- A `uint64_t` register value converted to `off_t`. -/
def toInt64 (x : Nat) : Int :=
  if x % 2 ^ 64 < 2 ^ 63 then ((x % 2 ^ 64 : Nat) : Int) else ((x % 2 ^ 64 : Nat) : Int) - 2 ^ 64

/-- The `count` bytes at `&ram[buf_addr]`, with 64-bit pointer arithmetic.
Indices at or above `VM64_RAM_SIZE` stand for the out-of-bounds accesses of the
C code. -/
def bytesAt (ram : Nat → Nat) (buf_addr count : Nat) : List Nat :=
  (List.range count).map fun i => ram ((buf_addr + i) % 2 ^ 64)

/-- The bytes of the C string at `&ram[a]` up to its terminating NUL, looking
at no more than `fuel` bytes. -/
def cstring (ram : Nat → Nat) : Nat → Nat → List Nat
  | _, 0 => []
  | a, fuel + 1 => if ram a = 0 then [] else ram a :: cstring ram (a + 1) fuel

/-- Whether the C string at `&ram[a]` has its terminating NUL among the next
`fuel` bytes. -/
def terminated (ram : Nat → Nat) : Nat → Nat → Bool
  | _, 0 => false
  | a, fuel + 1 => if ram a = 0 then true else terminated ram (a + 1) fuel

/-- The bytes `data` stored at `&ram[buf_addr]` by the `fread` of
`vm64_load_image`, which for a file size that `ftell` can report is reached
only with `buf_addr + data.length <= VM64_RAM_SIZE`: every byte stays in the
image. -/
def storeAt (ram : Nat → Nat) (buf_addr : Nat) (data : List Nat) : Nat → Nat :=
  fun a => if buf_addr ≤ a ∧ a < buf_addr + data.length then data.getD (a - buf_addr) 0 else ram a

/-! ## `vm64.c`: creation, reset, loading -/

/-- The function `vm64_create` (both allocations succeeding). -/
def vm64_create : VM64 :=
  { ram := fun _ => 0
    regs := fun _ => 0
    rip := 0
    rsp := VM64_RAM_SIZE - 8
    eflags := 0x202
    halted := false
    cycle_count := 0
    instruction_count := 0
    debug_mode := 0 }

/-- The function `vm64_reset`. -/
def vm64_reset (vm : VM64) : VM64 :=
  { vm with
    ram := fun _ => 0
    regs := fun _ => 0
    rip := 0
    rsp := VM64_RAM_SIZE - 1
    eflags := 0x202
    halted := false
    cycle_count := 0
    instruction_count := 0 }

/-- The function `vm64_set_debug`. -/
def vm64_set_debug (vm : VM64) (enable : Int) : VM64 :=
  { vm with debug_mode := enable }

/-- The function `vm64_load_image`, with the file system abstracted: `file` is
`none` when `fopen` fails and `some data` when the file holds the bytes `data`,
so that `ftell` reports `data.length` and `fread` delivers the `size` bytes
asked for.  Returns the new state and the C return value. -/
def vm64_load_image (s : Sys64) (filename : List Nat) (file : Option (List Nat))
    (load_addr : Nat) : Sys64 × Int :=
  if load_addr ≥ VM64_RAM_SIZE then (s, -1)
  else
    match file with
    | none =>
      ({ s with
         stderr := s.stderr ++ text "Error: Cannot open file '" ++ filename ++ text "'\n" }, -1)
    | some data =>
      let size := data.length
      if size ≤ 0 ∨ (load_addr + size) % 2 ^ 64 > VM64_RAM_SIZE then
        ({ s with stderr := s.stderr ++ text "Error: File too large or invalid address\n" }, -1)
      else
        let bytes_read := (data.take size).length
        let vm1 : VM64 := { s.vm with ram := storeAt s.vm.ram load_addr (data.take size) }
        if bytes_read ≠ size then
          ({ s with
             vm := vm1
             stderr := s.stderr ++ text "Error: Failed to read entire file\n" }, -1)
        else
          ({ s with
             vm := { vm1 with rip := load_addr }
             stdout := s.stdout ++ text "Loaded " ++ fmtDec bytes_read ++ text " bytes at 0x" ++
               fmtHex 0 load_addr ++ text "\n" }, 0)

/-- The function `vm64_load_kernel`. -/
def vm64_load_kernel (s : Sys64) (filename : List Nat) (file : Option (List Nat)) :
    Sys64 × Int :=
  vm64_load_image s filename file 0x400000

/-! ## `vm64.c`: `vm64_syscall_handler` -/

/-- The assignment `vm->regs[r] = v`. -/
def VM64.setReg (vm : VM64) (r v : Nat) : VM64 := { vm with regs := setAt vm.regs r v }

/-- The assignment `vm->halted = 1`. -/
def VM64.halt (vm : VM64) : VM64 := { vm with halted := true }

/-- The increment of `vm->rip` by `k` on a `uint64_t`. -/
def VM64.advance (vm : VM64) (k : Nat) : VM64 := { vm with rip := (vm.rip + k) % 2 ^ 64 }

/-- Lift a case that touches only the VM struct. -/
def Sys64.onVM (s : Sys64) (f : VM64 → VM64) : Sys64 := { s with vm := f s.vm }

/-- The case `SYS_write`: the range check adds in `uint64_t`. -/
def sys_write (host : Host) (s : Sys64) : Sys64 :=
  let fd := toInt32 (s.vm.regs RDI)
  let buf_addr := s.vm.regs RSI
  let count := s.vm.regs RDX
  if (buf_addr + count) % 2 ^ 64 > VM64_RAM_SIZE then s.onVM fun vm => vm.setReg RAX (toU64 (-1))
  else
    let data := bytesAt s.vm.ram buf_addr count
    let written := host.write s.calls fd data
    { s with
      vm := s.vm.setReg RAX (toU64 written)
      calls := s.calls ++ [HostCall.write fd buf_addr data written] }

/-- One byte `b` stored by the host's `read` through `&ram[a]`: into the image
when the index is inside it, and else wherever the host has that address. -/
def hostStoreByte (host : Host) (vm : VM64) (a b : Nat) : VM64 :=
  if a < VM64_RAM_SIZE then { vm with ram := setAt vm.ram a b } else host.stray a b vm

/-- The bytes `data` stored by the host's `read` from `&ram[buf_addr]` on, in
ascending order, the index wrapping as 64-bit pointer arithmetic does. -/
def hostStore (host : Host) : VM64 → Nat → List Nat → VM64
  | vm, _, [] => vm
  | vm, buf_addr, b :: rest =>
    hostStore host (hostStoreByte host vm (buf_addr % 2 ^ 64) b) (buf_addr + 1) rest

/-- The case `SYS_read`: the range check adds in `uint64_t`; the host stores
what it delivers from `&ram[buf_addr]` on, then RAX is assigned. -/
def sys_read (host : Host) (s : Sys64) : Sys64 :=
  let fd := toInt32 (s.vm.regs RDI)
  let buf_addr := s.vm.regs RSI
  let count := s.vm.regs RDX
  if (buf_addr + count) % 2 ^ 64 > VM64_RAM_SIZE then s.onVM fun vm => vm.setReg RAX (toU64 (-1))
  else
    match host.read s.calls fd count with
    | none =>
      { s with
        vm := s.vm.setReg RAX (toU64 (-1))
        calls := s.calls ++ [HostCall.read fd buf_addr count (-1)] }
    | some data =>
      let got := data.take count
      { s with
        vm := (hostStore host s.vm buf_addr got).setReg RAX (toU64 got.length)
        calls := s.calls ++ [HostCall.read fd buf_addr count got.length] }

/-- The case `SYS_open`: only the start of the file name is checked; the host
is handed the C string at `&ram[filename_addr]` as far as it lies in `ram`. -/
def sys_open (host : Host) (s : Sys64) : Sys64 :=
  let filename_addr := s.vm.regs RDI
  let flags := toInt32 (s.vm.regs RSI)
  if filename_addr ≥ VM64_RAM_SIZE then s.onVM fun vm => vm.setReg RAX (toU64 (-1))
  else
    let name := cstring s.vm.ram filename_addr (VM64_RAM_SIZE - filename_addr)
    let fd := host.openFile s.calls name flags
    { s with
      vm := s.vm.setReg RAX (toU64 fd)
      calls := s.calls ++ [HostCall.openFile filename_addr flags fd] }

/-- The case `SYS_close`. -/
def sys_close (host : Host) (s : Sys64) : Sys64 :=
  let fd := toInt32 (s.vm.regs RDI)
  let ret := host.close s.calls fd
  { s with vm := s.vm.setReg RAX (toU64 ret), calls := s.calls ++ [HostCall.close fd ret] }

/-- The case `SYS_lseek`. -/
def sys_lseek (host : Host) (s : Sys64) : Sys64 :=
  let fd := toInt32 (s.vm.regs RDI)
  let offset := toInt64 (s.vm.regs RSI)
  let whence := toInt32 (s.vm.regs RDX)
  let ret := host.lseek s.calls fd offset whence
  { s with
    vm := s.vm.setReg RAX (toU64 ret)
    calls := s.calls ++ [HostCall.lseek fd offset whence ret] }

/-- The `default` case of the syscall switch. -/
def sys_default (syscall_id : Nat) (s : Sys64) : Sys64 :=
  { s with
    stderr := s.stderr ++ text "Unknown syscall: " ++ fmtDec syscall_id ++ text "\n"
    vm := s.vm.setReg RAX (toU64 (-1)) }

/-- The function `vm64_syscall_handler`. -/
def vm64_syscall_handler (n : SyscallNumbers) (host : Host) (s : Sys64) : Sys64 :=
  let syscall_id := s.vm.regs RAX
  if syscall_id = n.SYS_write then sys_write host s
  else if syscall_id = n.SYS_read then sys_read host s
  else if syscall_id = n.SYS_exit then s.onVM VM64.halt
  else if syscall_id = n.SYS_exit_group then s.onVM VM64.halt
  else if syscall_id = n.SYS_open then sys_open host s
  else if syscall_id = n.SYS_close then sys_close host s
  else if syscall_id = n.SYS_lseek then sys_lseek host s
  else if syscall_id = n.SYS_mmap then s.onVM fun vm => vm.setReg RAX (vm.regs RDI)
  else if syscall_id = n.SYS_brk then s.onVM fun vm => vm.setReg RAX (vm.regs RDI)
  else sys_default syscall_id s

/-! ## `vm64.c`: `vm64_execute_one` -/

/-- The loop `acc = (acc << 8) | vm->ram[p++]` for eight bytes from `&ram[a]`,
on a `uint64_t` accumulator starting at 0 and a `uint64_t` index. -/
def be64 (ram : Nat → Nat) (a : Nat) : Nat :=
  (List.range 8).foldl (fun acc i => ((acc <<< 8) % 2 ^ 64) ||| ram ((a + i) % 2 ^ 64)) 0

/-- The loop of `X64_PUSH`: `vm->ram[vm->rsp + i] = (val >> (56 - i*8)) & 0xFF`
for `i = 0 .. 7`. -/
def pushBytes64 (ram : Nat → Nat) (rsp val : Nat) : Nat → Nat :=
  (List.range 8).foldl
    (fun m i => setAt m ((rsp + i) % 2 ^ 64) ((val >>> (56 - i * 8)) &&& 0xFF)) ram

/-- The case `X64_MOVI`. -/
def case_MOVI (vm : VM64) : VM64 :=
  if (vm.rip + 9) % 2 ^ 64 ≥ VM64_RAM_SIZE then vm.halt
  else
    let reg := vm.ram vm.rip
    let vm1 := vm.advance 1
    let imm := be64 vm1.ram vm1.rip
    let vm2 := vm1.advance 8
    if reg < VM64_REG_COUNT then vm2.setReg reg imm else vm2

/-- The shape shared by `X64_ADD` and `X64_SUB`. -/
def twoRegs (vm : VM64) (upd : VM64 → Nat → Nat → VM64) : VM64 :=
  if (vm.rip + 1) % 2 ^ 64 ≥ VM64_RAM_SIZE then vm.halt
  else
    let dst := vm.ram vm.rip
    let vm1 := vm.advance 1
    let src := vm1.ram vm1.rip
    let vm2 := vm1.advance 1
    if dst < VM64_REG_COUNT ∧ src < VM64_REG_COUNT then upd vm2 dst src else vm2

/-- The case `X64_ADD`. -/
def case_ADD (vm : VM64) : VM64 :=
  twoRegs vm fun v dst src => v.setReg dst ((v.regs dst + v.regs src) % 2 ^ 64)

/-- The case `X64_SUB`. -/
def case_SUB (vm : VM64) : VM64 :=
  twoRegs vm fun v dst src => v.setReg dst ((v.regs dst + 2 ^ 64 - v.regs src) % 2 ^ 64)

/-- The shape shared by `X64_LOAD` and `X64_STORE`: the bounds check looks two
bytes ahead, then a register byte and eight address bytes are fetched. -/
def regAddr64 (vm : VM64) (k : VM64 → Nat → Nat → VM64) : VM64 :=
  if (vm.rip + 2) % 2 ^ 64 ≥ VM64_RAM_SIZE then vm.halt
  else
    let reg := vm.ram vm.rip
    let vm1 := vm.advance 1
    let addr := be64 vm1.ram vm1.rip
    let vm2 := vm1.advance 8
    k vm2 reg addr

/-- The case `X64_LOAD`. -/
def case_LOAD (vm : VM64) : VM64 :=
  regAddr64 vm fun v dst addr =>
    if dst < VM64_REG_COUNT ∧ addr < VM64_RAM_SIZE then v.setReg dst (v.ram addr) else v

/-- The case `X64_STORE`: `vm->ram[addr] = vm->regs[src] & 0xFF`. -/
def case_STORE (vm : VM64) : VM64 :=
  regAddr64 vm fun v src addr =>
    if src < VM64_REG_COUNT ∧ addr < VM64_RAM_SIZE then
      { v with ram := setAt v.ram addr ((v.regs src &&& 0xFF) % 2 ^ 8) }
    else v

/-- The case `X64_OUT`: `putchar(vm->regs[reg] & 0xFF)`. -/
def case_OUT (s : Sys64) : Sys64 :=
  if s.vm.rip ≥ VM64_RAM_SIZE then s.onVM VM64.halt
  else
    let reg := s.vm.ram s.vm.rip
    let vm1 := s.vm.advance 1
    if reg < VM64_REG_COUNT then
      { s with vm := vm1, stdout := s.stdout ++ [vm1.regs reg &&& 0xFF] }
    else { s with vm := vm1 }

/-- The case `X64_JMP`. -/
def case_JMP (vm : VM64) : VM64 :=
  if (vm.rip + 7) % 2 ^ 64 ≥ VM64_RAM_SIZE then vm.halt
  else { vm with rip := be64 vm.ram vm.rip }

/-- The case `X64_PUSH`. -/
def case_PUSH (vm : VM64) : VM64 :=
  if vm.rip ≥ VM64_RAM_SIZE then vm.halt
  else
    let reg := vm.ram vm.rip
    let vm1 := vm.advance 1
    if reg < VM64_REG_COUNT ∧ vm1.rsp > 7 then
      let rsp := vm1.rsp - 8
      { vm1 with rsp := rsp, ram := pushBytes64 vm1.ram rsp (vm1.regs reg) }
    else vm1

/-- The case `X64_POP`. -/
def case_POP (vm : VM64) : VM64 :=
  if vm.rip ≥ VM64_RAM_SIZE then vm.halt
  else
    let reg := vm.ram vm.rip
    let vm1 := vm.advance 1
    if reg < VM64_REG_COUNT ∧ (vm1.rsp + 8) % 2 ^ 64 ≤ VM64_RAM_SIZE then
      { vm1 with regs := setAt vm1.regs reg (be64 vm1.ram vm1.rsp), rsp := (vm1.rsp + 8) % 2 ^ 64 }
    else vm1

/-- The `default` case: a diagnostic on stderr naming the opcode and
`vm->rip - 1`, then halt. -/
def case_default (opcode : Nat) (s : Sys64) : Sys64 :=
  { s with
    stderr := s.stderr ++ text "Unknown opcode: 0x" ++ fmtHex 2 opcode ++ text " at RIP 0x" ++
      fmtHex 0 ((s.vm.rip + 2 ^ 64 - 1) % 2 ^ 64) ++ text "\n"
    vm := s.vm.halt }

/-- The `switch (opcode)` of `vm64_execute_one`. -/
def dispatch (n : SyscallNumbers) (host : Host) (opcode : Nat) (s : Sys64) : Sys64 :=
  if opcode = X64_HALT then s.onVM VM64.halt
  else if opcode = X64_NOP then s
  else if opcode = X64_MOVI then s.onVM case_MOVI
  else if opcode = X64_ADD then s.onVM case_ADD
  else if opcode = X64_SUB then s.onVM case_SUB
  else if opcode = X64_LOAD then s.onVM case_LOAD
  else if opcode = X64_STORE then s.onVM case_STORE
  else if opcode = X64_OUT then case_OUT s
  else if opcode = X64_SYSCALL then vm64_syscall_handler n host s
  else if opcode = X64_JMP then s.onVM case_JMP
  else if opcode = X64_PUSH then s.onVM case_PUSH
  else if opcode = X64_POP then s.onVM case_POP
  else case_default opcode s

/-- The statements `vm->rip++; vm->cycle_count++; vm->instruction_count++;`
after the opcode fetch. -/
def VM64.fetch (vm : VM64) : VM64 :=
  { vm with
    rip := (vm.rip + 1) % 2 ^ 64
    cycle_count := (vm.cycle_count + 1) % 2 ^ 64
    instruction_count := (vm.instruction_count + 1) % 2 ^ 64 }

/-- The line `[RIP: 0x%016llX] Opcode: 0x%02X` that debug mode prints, after
the increments, for the address `vm->rip - 1`; nothing when `debug_mode` is 0. -/
def debugLine (vm : VM64) (opcode : Nat) : List Nat :=
  if vm.debug_mode ≠ 0 then
    text "[RIP: 0x" ++ fmtHex 16 ((vm.rip + 2 ^ 64 - 1) % 2 ^ 64) ++ text "] Opcode: 0x" ++
      fmtHex 2 opcode ++ text "\n"
  else []

/-- The function `vm64_execute_one`. -/
def vm64_execute_one (n : SyscallNumbers) (host : Host) (s : Sys64) : Sys64 :=
  if s.vm.halted = true ∨ s.vm.rip ≥ VM64_RAM_SIZE then s.onVM VM64.halt
  else
    let opcode := s.vm.ram s.vm.rip
    dispatch n host opcode
      { s with vm := s.vm.fetch, stdout := s.stdout ++ debugLine s.vm.fetch opcode }

/-! ## `vm64.c`: `vm64_run` -/

/-- The loop of `vm64_run`, with at most `fuel` calls of `vm64_execute_one`;
`none` when the loop is still running after them. -/
def vm64_run_loop (n : SyscallNumbers) (host : Host) : Nat → Sys64 → Option Sys64
  | fuel, s =>
    if s.vm.halted = false ∧ s.vm.rip < VM64_RAM_SIZE then
      match fuel with
      | 0 => none
      | fuel + 1 => vm64_run_loop n host fuel (vm64_execute_one n host s)
    else some s

/-- The function `vm64_run`: a banner, the loop, then the totals. -/
def vm64_run (n : SyscallNumbers) (host : Host) (fuel : Nat) (s : Sys64) : Option Sys64 :=
  (vm64_run_loop n host fuel
      { s with
        stdout := s.stdout ++ text "Starting VM64 execution from RIP: 0x" ++ fmtHex 0 s.vm.rip ++
          text "\n" }).map
    fun r =>
      { r with
        stdout := r.stdout ++ text "\nVM64 halted\n" ++
          text "Total instructions: " ++ fmtDec r.vm.instruction_count ++ text "\n" ++
          text "Total cycles: " ++ fmtDec r.vm.cycle_count ++ text "\n" }

/-! ## Test states of the 64-bit machine -/

/-- A process whose VM is `vm`, with nothing printed and no host call made. -/
def boot64 (vm : VM64) : Sys64 := { vm := vm, stdout := [], stderr := [], calls := [] }

/-- A host on which every `write` accepts all bytes, `read` is at end of
file, `open` fails and `close` and `lseek` succeed with 0; a store outside the
image would miss the VM64 struct. -/
def acceptingHost : Host :=
  { write := fun _ _ data => data.length
    read := fun _ _ _ => some []
    openFile := fun _ _ _ => -1
    close := fun _ _ => 0
    lseek := fun _ _ _ _ => 0
    stray := fun _ _ vm => vm }

/-- A host on which `open` succeeds with descriptor 3. -/
def openingHost : Host := { acceptingHost with openFile := fun _ _ _ => 3 }

/-- Byte `k` of a little-endian field holding `x`, replaced by `b`. -/
def pokeLE (x k b : Nat) : Nat :=
  x - (x / 2 ^ (8 * k) % 2 ^ 8) * 2 ^ (8 * k) + (b % 2 ^ 8) * 2 ^ (8 * k)

/-- The byte offset of the field `rsp` in the struct `VM64` of `vm64.h` with
8-byte pointers and `uint64_t`: `ram` at 0, `regs` at 8, `rip` at 136. -/
def OFFSET_rsp : Nat := 144

/-- The byte offset of the field `halted` in the struct `VM64` of `vm64.h`,
after `rsp` at 144 and the 4-byte `eflags` at 152. -/
def OFFSET_halted : Nat := 156

/-- A little-endian host that has put the VM64 struct `below` bytes before
`ram[0]` and whose `read` delivers the single byte 0xFF.  A store outside the
image that falls on the field `rsp` or `halted` of the struct replaces that
byte of the field (`halted` holds 0 or 1 and is tested against 0); stores
outside the image that fall elsewhere are not followed. -/
def strayHost (below : Nat) : Host :=
  { acceptingHost with
    read := fun _ _ _ => some [0xFF]
    stray := fun a b vm =>
      let o := (a + below) % 2 ^ 64
      if OFFSET_rsp ≤ o ∧ o < OFFSET_rsp + 8 then
        { vm with rsp := pokeLE vm.rsp (o - OFFSET_rsp) b }
      else if OFFSET_halted ≤ o ∧ o < OFFSET_halted + 4 then
        { vm with
          halted := decide (b % 2 ^ 8 ≠ 0) || (decide (o ≠ OFFSET_halted) && vm.halted) }
      else vm }

/-- A fresh VM64 with the `SYSCALL` opcode at address 0 and the given values
in RAX, RDI, RSI, RDX; `mem` overrides single memory bytes. -/
def syscallState (rax rdi rsi rdx : Nat) (mem : List (Nat × Nat)) : Sys64 :=
  boot64 { vm64_create with
           ram := fun a => match mem.lookup a with
             | some b => b
             | none => if a = 0 then X64_SYSCALL else 0
           regs := fun r =>
             if r = RAX then rax else if r = RDI then rdi else if r = RSI then rsi
             else if r = RDX then rdx else 0 }

/-- Scenario 3: `write(1, &ram[0x100], 2)` with "HI" at 0x100. -/
def scenario3 : Sys64 :=
  syscallState linux_x86_64.SYS_write 1 0x100 2 [(0x100, 0x48), (0x101, 0x49)]

/-- The call `read(0, &ram[2^64 - 0x1000 + 156], 0x1000 - 156)`: with the
struct 0x1000 bytes before the image the buffer starts on `vm->halted`, and
`buf_addr + count` is `2^64`, which is 0 in `uint64_t`. -/
def readOntoHalted : Sys64 :=
  syscallState linux_x86_64.SYS_read 0 (2 ^ 64 - 0x1000 + OFFSET_halted) (0x1000 - OFFSET_halted) []

/-! ## Instruction encodings of the 64-bit machine -/

/-- The number of operand bytes that follow an opcode byte, as the cases of
`vm64_execute_one` fetch them: a register byte and eight immediate or address
bytes for `MOVI`, `LOAD` and `STORE`, eight address bytes for `JMP`, two
register bytes for `ADD` and `SUB`, one register byte for `OUT`, `PUSH` and
`POP`. -/
def operandBytes (opcode : Nat) : Nat :=
  if opcode ∈ [X64_MOVI, X64_LOAD, X64_STORE] then 9
  else if opcode = X64_JMP then 8
  else if opcode ∈ [X64_ADD, X64_SUB] then 2
  else if opcode ∈ [X64_OUT, X64_PUSH, X64_POP] then 1
  else 0

/-- The opcodes whose first operand byte is their only register index. -/
def oneRegOpcodes : List Nat :=
  [X64_MOVI, X64_LOAD, X64_STORE, X64_OUT, X64_PUSH, X64_POP]

/-- The opcodes whose two operand bytes are the register indices `dst, src`. -/
def twoRegOpcodes : List Nat := [X64_ADD, X64_SUB]

/-- The instruction at RIP has a register operand byte that is no register
index. -/
def invalidRegister (vm : VM64) : Prop :=
  (vm.ram vm.rip ∈ oneRegOpcodes ∧ vm.ram (vm.rip + 1) ≥ VM64_REG_COUNT) ∨
  (vm.ram vm.rip ∈ twoRegOpcodes ∧
    (vm.ram (vm.rip + 1) ≥ VM64_REG_COUNT ∨ vm.ram (vm.rip + 2) ≥ VM64_REG_COUNT))

instance (vm : VM64) : Decidable (invalidRegister vm) := by
  unfold invalidRegister
  exact inferInstance

/-- The indices `a, a+1, ..` of `k` consecutive fetches `vm->ram[vm->rip++]`
starting with `vm->rip = a`. -/
def fetched (a k : Nat) : List Nat := (List.range k).map fun i => (a + i) % 2 ^ 64

/-- The indices into `vm->ram` that `vm64_execute_one` uses while it fetches
the opcode and the operand bytes, in program order: `vm->ram[vm->rip]` for the
opcode, then, when the bounds check of the case lets the case go on, one
`vm->ram[vm->rip++]` per operand byte. -/
def fetchReads (s : Sys64) : List Nat :=
  if s.vm.halted = true ∨ s.vm.rip ≥ VM64_RAM_SIZE then []
  else
    let opcode := s.vm.ram s.vm.rip
    let rip := s.vm.fetch.rip
    s.vm.rip ::
      (if opcode = X64_MOVI then
        if (rip + 9) % 2 ^ 64 ≥ VM64_RAM_SIZE then [] else fetched rip 9
      else if opcode = X64_ADD ∨ opcode = X64_SUB then
        if (rip + 1) % 2 ^ 64 ≥ VM64_RAM_SIZE then [] else fetched rip 2
      else if opcode = X64_LOAD ∨ opcode = X64_STORE then
        if (rip + 2) % 2 ^ 64 ≥ VM64_RAM_SIZE then [] else fetched rip 9
      else if opcode = X64_OUT ∨ opcode = X64_PUSH ∨ opcode = X64_POP then
        if rip ≥ VM64_RAM_SIZE then [] else fetched rip 1
      else if opcode = X64_JMP then
        if (rip + 7) % 2 ^ 64 ≥ VM64_RAM_SIZE then [] else fetched rip 8
      else [])

/-- A fresh VM64 after `vm64_load_image` of a file holding the single byte
`LOAD` at load address `VM64_RAM_SIZE - 4`: the opcode lies four bytes before
the end of memory with RIP on it, so that the register byte and the first two
address bytes are the last three bytes of memory. -/
def loadAtEnd : Sys64 :=
  (vm64_load_image (boot64 vm64_create) (text "load.bin") (some [X64_LOAD])
    (VM64_RAM_SIZE - 4)).1

/-- A fresh VM64 with `MOVI 16, 0` in the last ten bytes of memory and RIP on
it; 16 is no register index. -/
def moviAtEnd : Sys64 :=
  boot64 { vm64_create with
           ram := fun a =>
             if a = VM64_RAM_SIZE - 10 then X64_MOVI
             else if a = VM64_RAM_SIZE - 9 then 16 else 0
           rip := VM64_RAM_SIZE - 10 }

/-- A fresh VM64 holding `ADD 0, 16` at address 0; 16 is no register index. -/
def addInvalid : Sys64 :=
  boot64 { vm64_create with
           ram := fun a => if a = 0 then X64_ADD else if a = 2 then 16 else 0
           regs := fun _ => 5 }

/-- A fresh VM64 after `vm64_load_image` of the ten bytes of `MOVI RAX, 0x41`
at load address `VM64_RAM_SIZE - 10`: the instruction occupies exactly the last
ten bytes of memory, with RIP on it. -/
def moviLast : Sys64 :=
  (vm64_load_image (boot64 vm64_create) (text "movi.bin")
    (some [X64_MOVI, 0, 0, 0, 0, 0, 0, 0, 0, 0x41]) (VM64_RAM_SIZE - 10)).1

/-- The same ten bytes loaded one byte lower, at `VM64_RAM_SIZE - 11`. -/
def moviInside : Sys64 :=
  (vm64_load_image (boot64 vm64_create) (text "movi.bin")
    (some [X64_MOVI, 0, 0, 0, 0, 0, 0, 0, 0, 0x41]) (VM64_RAM_SIZE - 11)).1

/-! ## Sequences of calls of the interface of `vm64.h` -/

/-- One call of a function of `vm64.h` that can change the VM, with its
arguments; for the loads the file as in `vm64_load_image`. -/
inductive Call64 where
  | execute_one
  | load_image (filename : List Nat) (file : Option (List Nat)) (load_addr : Nat)
  | load_kernel (filename : List Nat) (file : Option (List Nat))
  | reset
  | set_debug (enable : Int)

/-- The effect of one call on the process. -/
def Call64.run (n : SyscallNumbers) (host : Host) : Call64 → Sys64 → Sys64
  | Call64.execute_one, s => vm64_execute_one n host s
  | Call64.load_image filename file load_addr, s => (vm64_load_image s filename file load_addr).1
  | Call64.load_kernel filename file, s => (vm64_load_kernel s filename file).1
  | Call64.reset, s => s.onVM vm64_reset
  | Call64.set_debug enable, s => s.onVM fun vm => vm64_set_debug vm enable

end X64

namespace VM8

/-! ## Stepping lemmas -/

theorem exec_running (s : Sys) (hh : s.vm.halted = false) (hpc : s.vm.pc < 2 ^ 16) :
    vm_execute_one s =
      dispatch (s.vm.ram s.vm.pc)
        { s with stdout := s.stdout ++ debugLine s.vm (s.vm.ram s.vm.pc), vm := s.vm.fetch } := by
  have h : ¬ (s.vm.halted = true ∨ s.vm.pc ≥ VM_RAM_SIZE) := by
    rintro (h | h)
    · rw [hh] at h; exact Bool.noConfusion h
    · simp only [VM_RAM_SIZE] at h; omega
  simp only [vm_execute_one, if_neg h]

theorem exec_halted (s : Sys) (hh : s.vm.halted = true) : vm_execute_one s = s.onVM VM.halt := by
  simp only [vm_execute_one, hh, true_or, if_true]

theorem onVM_vm (s : Sys) (f : VM → VM) : (s.onVM f).vm = f s.vm := rfl

theorem onVM_stdout (s : Sys) (f : VM → VM) : (s.onVM f).stdout = s.stdout := rfl

theorem dispatch_MOVI (s : Sys) : dispatch OP_MOVI s = s.onVM case_MOVI := rfl
theorem dispatch_ADD (s : Sys) : dispatch OP_ADD s = s.onVM case_ADD := rfl
theorem dispatch_SUB (s : Sys) : dispatch OP_SUB s = s.onVM case_SUB := rfl
theorem dispatch_MUL (s : Sys) : dispatch OP_MUL s = s.onVM case_MUL := rfl
theorem dispatch_DIV (s : Sys) : dispatch OP_DIV s = s.onVM case_DIV := rfl
theorem dispatch_MOD (s : Sys) : dispatch OP_MOD s = s.onVM case_MOD := rfl
theorem dispatch_SHL (s : Sys) : dispatch OP_SHL s = s.onVM case_SHL := rfl
theorem dispatch_SHR (s : Sys) : dispatch OP_SHR s = s.onVM case_SHR := rfl
theorem dispatch_OUT (s : Sys) : dispatch OP_OUT s = case_OUT s := rfl
theorem dispatch_CMP (s : Sys) : dispatch OP_CMP s = s.onVM case_CMP := rfl
theorem dispatch_CALL (s : Sys) : dispatch OP_CALL s = s.onVM case_CALL := rfl
theorem dispatch_RET (s : Sys) : dispatch OP_RET s = s.onVM case_RET := rfl

/-- The operand decoding of a two-register instruction whose three bytes lie
inside memory and whose operands are valid register indices. -/
theorem twoRegs_fetch (vm : VM) (upd : VM → Nat → Nat → VM) (h : vm.pc + 2 < 2 ^ 16)
    (hd : vm.ram (vm.pc + 1) < 8) (hs : vm.ram (vm.pc + 2) < 8) :
    twoRegs vm.fetch upd =
      upd { vm.fetch with pc := (vm.pc + 3) % 2 ^ 16 } (vm.ram (vm.pc + 1)) (vm.ram (vm.pc + 2)) := by
  have h1 : ¬ (vm.pc + 1 + 1 ≥ VM_RAM_SIZE) := by unfold VM_RAM_SIZE; omega
  have e1 : (vm.pc + 1) % 2 ^ 16 = vm.pc + 1 := Nat.mod_eq_of_lt (by omega)
  have e2 : (vm.pc + 1 + 1) % 2 ^ 16 = vm.pc + 2 := Nat.mod_eq_of_lt (by omega)
  have e3 : vm.pc + 2 + 1 = vm.pc + 3 := rfl
  simp only [twoRegs, VM.fetch, VM.advance, e1, e2, e3, if_neg h1, VM_REG_COUNT, hd, hs,
    and_self, if_true]

/-- The operand decoding of `SHL`/`SHR` whose three bytes lie inside memory. -/
theorem regImm8_fetch (vm : VM) (upd : VM → Nat → Nat → VM) (h : vm.pc + 2 < 2 ^ 16) :
    regImm8 vm.fetch upd =
      if vm.ram (vm.pc + 1) < 8 ∧ vm.ram (vm.pc + 2) < 64 then
        upd { vm.fetch with pc := (vm.pc + 3) % 2 ^ 16 } (vm.ram (vm.pc + 1)) (vm.ram (vm.pc + 2))
      else { vm.fetch with pc := (vm.pc + 3) % 2 ^ 16 } := by
  have h1 : ¬ (vm.pc + 1 + 1 ≥ VM_RAM_SIZE) := by unfold VM_RAM_SIZE; omega
  have e1 : (vm.pc + 1) % 2 ^ 16 = vm.pc + 1 := Nat.mod_eq_of_lt (by omega)
  have e2 : (vm.pc + 1 + 1) % 2 ^ 16 = vm.pc + 2 := Nat.mod_eq_of_lt (by omega)
  have e3 : vm.pc + 2 + 1 = vm.pc + 3 := rfl
  simp only [regImm8, VM.fetch, VM.advance, e1, e2, e3, if_neg h1, VM_REG_COUNT]

/-! ## The run loop -/

theorem vm_run_loop_zero (s : Sys) :
    vm_run_loop 0 s =
      if s.vm.halted = false ∧ s.vm.pc < VM_RAM_SIZE then
        if vm_at_breakpoint s.vm = true then
          some ({ s with stdout := s.stdout ++ breakpointReport s.vm }, RunExit.breakpoint_hit)
        else none
      else some (s, RunExit.condition_false) := by
  rw [vm_run_loop]

theorem vm_run_loop_succ (fuel : Nat) (s : Sys) :
    vm_run_loop (fuel + 1) s =
      if s.vm.halted = false ∧ s.vm.pc < VM_RAM_SIZE then
        if vm_at_breakpoint s.vm = true then
          some ({ s with stdout := s.stdout ++ breakpointReport s.vm }, RunExit.breakpoint_hit)
        else vm_run_loop fuel (vm_execute_one s)
      else some (s, RunExit.condition_false) := by
  rw [vm_run_loop]

/-- More fuel never changes a run that has already finished. -/
theorem run_fuel_mono (k : Nat) :
    ∀ (fuel : Nat) (s : Sys) (r : Sys × RunExit),
      vm_run_loop fuel s = some r → vm_run_loop (fuel + k) s = some r := by
  intro fuel
  induction fuel with
  | zero =>
    intro s r h
    rw [vm_run_loop_zero] at h
    cases k with
    | zero => rw [vm_run_loop_zero]; exact h
    | succ k =>
      rw [Nat.zero_add, vm_run_loop_succ]
      split_ifs at h ⊢ with h1 h2
      · exact h
      · exact h
  | succ n ih =>
    intro s r h
    rw [vm_run_loop_succ] at h
    rw [Nat.add_right_comm, vm_run_loop_succ]
    split_ifs at h ⊢ with h1 h2
    · exact h
    · exact ih _ _ h
    · exact h

theorem onVM_stdin (s : Sys) (f : VM → VM) (inp : List Nat) :
    Sys.onVM { s with stdin := inp } f = { s.onVM f with stdin := inp } := rfl

theorem case_OUT_stdin (s : Sys) (inp : List Nat) :
    case_OUT { s with stdin := inp } = { case_OUT s with stdin := inp } := by
  simp only [case_OUT]
  split_ifs <;> rfl

theorem case_default_stdin (op : Nat) (s : Sys) (inp : List Nat) :
    case_default op { s with stdin := inp } = { case_default op s with stdin := inp } := rfl

/-- An opcode byte outside the defined opcodes reaches the `default` case. -/
theorem dispatch_default (op : Nat) (s : Sys) (h : op ∉ opcodes) :
    dispatch op s = case_default op s := by
  have nHALT : op ≠ OP_HALT := fun e => h (by rw [e]; decide)
  have nMOVI : op ≠ OP_MOVI := fun e => h (by rw [e]; decide)
  have nADD : op ≠ OP_ADD := fun e => h (by rw [e]; decide)
  have nSUB : op ≠ OP_SUB := fun e => h (by rw [e]; decide)
  have nMUL : op ≠ OP_MUL := fun e => h (by rw [e]; decide)
  have nDIV : op ≠ OP_DIV := fun e => h (by rw [e]; decide)
  have nMOD : op ≠ OP_MOD := fun e => h (by rw [e]; decide)
  have nAND : op ≠ OP_AND := fun e => h (by rw [e]; decide)
  have nOR : op ≠ OP_OR := fun e => h (by rw [e]; decide)
  have nXOR : op ≠ OP_XOR := fun e => h (by rw [e]; decide)
  have nNOT : op ≠ OP_NOT := fun e => h (by rw [e]; decide)
  have nSHL : op ≠ OP_SHL := fun e => h (by rw [e]; decide)
  have nSHR : op ≠ OP_SHR := fun e => h (by rw [e]; decide)
  have nLOAD : op ≠ OP_LOAD := fun e => h (by rw [e]; decide)
  have nSTORE : op ≠ OP_STORE := fun e => h (by rw [e]; decide)
  have nOUT : op ≠ OP_OUT := fun e => h (by rw [e]; decide)
  have nIN : op ≠ OP_IN := fun e => h (by rw [e]; decide)
  have nJMP : op ≠ OP_JMP := fun e => h (by rw [e]; decide)
  have nJNZ : op ≠ OP_JNZ := fun e => h (by rw [e]; decide)
  have nJZ : op ≠ OP_JZ := fun e => h (by rw [e]; decide)
  have nJLT : op ≠ OP_JLT := fun e => h (by rw [e]; decide)
  have nJGT : op ≠ OP_JGT := fun e => h (by rw [e]; decide)
  have nCMP : op ≠ OP_CMP := fun e => h (by rw [e]; decide)
  have nCALL : op ≠ OP_CALL := fun e => h (by rw [e]; decide)
  have nRET : op ≠ OP_RET := fun e => h (by rw [e]; decide)
  have nPUSH : op ≠ OP_PUSH := fun e => h (by rw [e]; decide)
  have nPOP : op ≠ OP_POP := fun e => h (by rw [e]; decide)
  unfold dispatch
  rw [if_neg nHALT, if_neg nMOVI, if_neg nADD, if_neg nSUB, if_neg nMUL, if_neg nDIV, if_neg nMOD, if_neg nAND, if_neg nOR, if_neg nXOR, if_neg nNOT, if_neg nSHL, if_neg nSHR, if_neg nLOAD, if_neg nSTORE, if_neg nOUT, if_neg nIN, if_neg nJMP, if_neg nJNZ, if_neg nJZ, if_neg nJLT, if_neg nJGT, if_neg nCMP, if_neg nCALL, if_neg nRET, if_neg nPUSH, if_neg nPOP]

/-- Outside `IN`, the switch neither reads nor writes the pending input. -/
theorem dispatch_stdin (op : Nat) (s : Sys) (inp : List Nat) (h : op ≠ OP_IN) :
    dispatch op { s with stdin := inp } = { dispatch op s with stdin := inp } := by
  by_cases hmem : op ∈ opcodes
  · simp only [opcodes, List.mem_cons, List.not_mem_nil, or_false] at hmem
    rcases hmem with e | e | e | e | e | e | e | e | e | e | e | e | e | e | e | e | e | e | e |
      e | e | e | e | e | e | e | e
    all_goals first
      | exact absurd e h
      | (subst e; first | rfl | exact case_OUT_stdin _ _)
  · rw [dispatch_default _ _ hmem, dispatch_default _ _ hmem]
    rfl

/-- A step that does not execute `IN` commutes with replacing the pending input. -/
theorem exec_stdin (s : Sys) (inp : List Nat) (h : s.vm.ram s.vm.pc ≠ OP_IN) :
    vm_execute_one { s with stdin := inp } = { vm_execute_one s with stdin := inp } := by
  simp only [vm_execute_one]
  split_ifs
  · rfl
  · exact dispatch_stdin _
      { s with stdout := s.stdout ++ debugLine s.vm (s.vm.ram s.vm.pc), vm := s.vm.fetch } inp h

/-- A run that executes no `IN` shows the same output, halt flag and cycle
count whatever is waiting on stdin. -/
theorem run_stdin (inp : List Nat) :
    ∀ (fuel : Nat) (s : Sys), noInput fuel s = true →
      observe (vm_run_loop fuel { s with stdin := inp }) = observe (vm_run_loop fuel s) := by
  intro fuel
  induction fuel with
  | zero =>
    intro s _
    rw [vm_run_loop_zero, vm_run_loop_zero]
    split_ifs <;> rfl
  | succ n ih =>
    intro s h
    simp only [noInput, Bool.and_eq_true, decide_eq_true_eq] at h
    rw [vm_run_loop_succ, vm_run_loop_succ]
    split_ifs
    · rfl
    · rw [exec_stdin s inp h.1]
      exact ih _ h.2
    · rfl

/-! ## Big-endian fields -/

theorem and_FF (x : Nat) : x &&& 0xFF = x % 256 := Nat.and_pow_two_sub_one_eq_mod x 8

theorem shl8_or (a b : Nat) (hb : b < 256) : a <<< 8 ||| b = a * 256 + b := by
  have h := Nat.mul_add_lt_is_or (i := 8) (b := b) hb a
  rw [Nat.shiftLeft_eq, Nat.mul_comm a]
  exact h.symm

theorem or_eq_add (i a b : Nat) (hb : b < 2 ^ i) : 2 ^ i * a ||| b = 2 ^ i * a + b :=
  (Nat.mul_add_lt_is_or hb a).symm

/-- Four bytes combined by shifts and ors, as `OP_MOVI` does, add up. -/
theorem be32_sum (x y z w : Nat) (hy : y < 256) (hz : z < 256) (hw : w < 256) :
    x <<< 24 ||| y <<< 16 ||| z <<< 8 ||| w = x * 2 ^ 24 + y * 2 ^ 16 + z * 2 ^ 8 + w := by
  have s1 : x <<< 24 ||| y <<< 16 = 2 ^ 16 * (x * 256 + y) := by
    rw [Nat.shiftLeft_eq, Nat.shiftLeft_eq, Nat.mul_comm x (2 ^ 24),
      or_eq_add 24 x (y * 2 ^ 16) (by omega)]
    omega
  have s2 : 2 ^ 16 * (x * 256 + y) ||| z <<< 8 = 2 ^ 8 * ((x * 256 + y) * 256 + z) := by
    rw [Nat.shiftLeft_eq, or_eq_add 16 _ (z * 2 ^ 8) (by omega)]
    omega
  rw [s1, s2, or_eq_add 8 _ w (by omega)]
  omega

/-- The four bytes of a 32-bit value, most significant first, decode to it. -/
theorem be32_bytes (ram : Nat → Nat) (a v : Nat) (hv : v < 2 ^ 32)
    (h0 : ram a = v / 2 ^ 24 % 256) (h1 : ram (a + 1) = v / 2 ^ 16 % 256)
    (h2 : ram (a + 2) = v / 2 ^ 8 % 256) (h3 : ram (a + 3) = v % 256) :
    be32 ram a = v := by
  unfold be32
  rw [be32_sum _ _ _ _ (by omega) (by omega) (by omega), h0, h1, h2, h3]
  omega

/-- The two bytes a `CALL` pushes for a 16-bit return address decode to it. -/
theorem be16_pushed (ram : Nat → Nat) (a x : Nat) (hx : x < 2 ^ 16)
    (h0 : ram a = (x >>> 8) &&& 0xFF) (h1 : ram (a + 1) = x &&& 0xFF) :
    be16 ram a = x := by
  unfold be16
  rw [h0, h1, and_FF, and_FF, shl8_or _ _ (Nat.mod_lt _ (by decide)), Nat.shiftRight_eq_div_pow]
  omega

/-- The two bytes of a 16-bit address, high byte first, decode to it. -/
theorem be16_bytes (ram : Nat → Nat) (a x : Nat) (hx : x < 2 ^ 16)
    (h0 : ram a = x / 256) (h1 : ram (a + 1) = x % 256) :
    be16 ram a = x := by
  unfold be16
  rw [h0, h1, shl8_or _ _ (Nat.mod_lt _ (by decide))]
  omega

/-! ## Single instructions -/

/-- One step over a `MOVI reg, imm32` that lies inside memory. -/
theorem step_MOVI (s : Sys) (hh : s.vm.halted = false) (hpc : s.vm.pc + 5 < 2 ^ 16)
    (hop : s.vm.ram s.vm.pc = OP_MOVI) (hr : s.vm.ram (s.vm.pc + 1) < 8) :
    vm_execute_one s =
      { s with
        stdout := s.stdout ++ debugLine s.vm OP_MOVI
        vm := { s.vm with
                pc := (s.vm.pc + 6) % 2 ^ 16
                cycle_count := (s.vm.cycle_count + 1) % 2 ^ 64
                regs := setAt s.vm.regs (s.vm.ram (s.vm.pc + 1)) (be32 s.vm.ram (s.vm.pc + 2)) } } := by
  have h1 : ¬ (s.vm.pc + 1 + 4 ≥ VM_RAM_SIZE) := by unfold VM_RAM_SIZE; omega
  have e1 : (s.vm.pc + 1) % 2 ^ 16 = s.vm.pc + 1 := Nat.mod_eq_of_lt (by omega)
  have e2 : (s.vm.pc + 1 + 1) % 2 ^ 16 = s.vm.pc + 2 := Nat.mod_eq_of_lt (by omega)
  have e3 : s.vm.pc + 2 + 4 = s.vm.pc + 6 := rfl
  rw [exec_running s hh (by omega), hop, dispatch_MOVI]
  simp only [Sys.onVM, case_MOVI, VM.fetch, VM.advance, VM.setReg, e1, e2, e3, if_neg h1,
    VM_REG_COUNT, hr, if_true]

/-- One step over an `OUT reg` that lies inside memory. -/
theorem step_OUT (s : Sys) (hh : s.vm.halted = false) (hpc : s.vm.pc + 1 < 2 ^ 16)
    (hop : s.vm.ram s.vm.pc = OP_OUT) (hr : s.vm.ram (s.vm.pc + 1) < 8) :
    vm_execute_one s =
      { s with
        stdout := s.stdout ++ debugLine s.vm OP_OUT ++
          [s.vm.regs (s.vm.ram (s.vm.pc + 1)) &&& 0xFF]
        vm := { s.vm with
                pc := (s.vm.pc + 2) % 2 ^ 16
                cycle_count := (s.vm.cycle_count + 1) % 2 ^ 64 } } := by
  have h1 : ¬ (s.vm.pc + 1 ≥ VM_RAM_SIZE) := by unfold VM_RAM_SIZE; omega
  have e1 : (s.vm.pc + 1) % 2 ^ 16 = s.vm.pc + 1 := Nat.mod_eq_of_lt (by omega)
  have e2 : s.vm.pc + 1 + 1 = s.vm.pc + 2 := rfl
  rw [exec_running s hh (by omega), hop, dispatch_OUT]
  simp only [case_OUT, VM.fetch, VM.advance, e1, e2, if_neg h1, VM_REG_COUNT, hr, if_true]

/-- One step over an instruction with operands `dst, src`, both valid register
indices, whose three bytes lie inside memory. -/
theorem step_twoRegs (s : Sys) (op : Nat) (upd : VM → Nat → Nat → VM)
    (hdisp : ∀ t : Sys, dispatch op t = t.onVM fun vm => twoRegs vm upd)
    (hh : s.vm.halted = false) (hpc : s.vm.pc + 2 < 2 ^ 16) (hop : s.vm.ram s.vm.pc = op)
    (hd : s.vm.ram (s.vm.pc + 1) < 8) (hs : s.vm.ram (s.vm.pc + 2) < 8) :
    (vm_execute_one s).vm =
      upd { s.vm.fetch with pc := (s.vm.pc + 3) % 2 ^ 16 }
        (s.vm.ram (s.vm.pc + 1)) (s.vm.ram (s.vm.pc + 2)) := by
  rw [exec_running s hh (by omega), hop, hdisp, onVM_vm]
  exact twoRegs_fetch s.vm upd hpc hd hs

/-- One step over `SHL`/`SHR dst, imm8` whose three bytes lie inside memory. -/
theorem step_regImm8 (s : Sys) (op : Nat) (upd : VM → Nat → Nat → VM)
    (hdisp : ∀ t : Sys, dispatch op t = t.onVM fun vm => regImm8 vm upd)
    (hh : s.vm.halted = false) (hpc : s.vm.pc + 2 < 2 ^ 16) (hop : s.vm.ram s.vm.pc = op) :
    (vm_execute_one s).vm =
      if s.vm.ram (s.vm.pc + 1) < 8 ∧ s.vm.ram (s.vm.pc + 2) < 64 then
        upd { s.vm.fetch with pc := (s.vm.pc + 3) % 2 ^ 16 }
          (s.vm.ram (s.vm.pc + 1)) (s.vm.ram (s.vm.pc + 2))
      else { s.vm.fetch with pc := (s.vm.pc + 3) % 2 ^ 16 } := by
  rw [exec_running s hh (by omega), hop, hdisp, onVM_vm]
  exact regImm8_fetch s.vm upd hpc

/-- One step over a `CALL addr16` that lies inside memory, with `sp > 1`. -/
theorem step_CALL (s : Sys) (hh : s.vm.halted = false) (hpc : s.vm.pc + 2 < 2 ^ 16)
    (hop : s.vm.ram s.vm.pc = OP_CALL) (hsp : 1 < s.vm.sp) :
    (vm_execute_one s).vm =
      { s.vm with
        cycle_count := (s.vm.cycle_count + 1) % 2 ^ 64
        sp := s.vm.sp - 2
        ram := setAt (setAt s.vm.ram (s.vm.sp - 2) ((((s.vm.pc + 3) % 2 ^ 16) >>> 8) &&& 0xFF))
          (s.vm.sp - 2 + 1) (((s.vm.pc + 3) % 2 ^ 16) &&& 0xFF)
        pc := be16 s.vm.ram (s.vm.pc + 1) } := by
  have h1 : ¬ (s.vm.pc + 1 + 1 ≥ VM_RAM_SIZE) := by unfold VM_RAM_SIZE; omega
  have e1 : (s.vm.pc + 1) % 2 ^ 16 = s.vm.pc + 1 := Nat.mod_eq_of_lt (by omega)
  have e2 : s.vm.pc + 1 + 2 = s.vm.pc + 3 := rfl
  rw [exec_running s hh (by omega), hop, dispatch_CALL]
  simp only [Sys.onVM, case_CALL, VM.fetch, VM.advance, e1, e2, if_neg h1, gt_iff_lt, hsp,
    if_true]

/-- One step over a `RET` with two stack bytes below the top of memory. -/
theorem step_RET (s : Sys) (hh : s.vm.halted = false) (hpc : s.vm.pc < 2 ^ 16)
    (hop : s.vm.ram s.vm.pc = OP_RET) (hsp : s.vm.sp + 1 < 2 ^ 16) :
    (vm_execute_one s).vm =
      { s.vm with
        cycle_count := (s.vm.cycle_count + 1) % 2 ^ 64
        pc := be16 s.vm.ram s.vm.sp
        sp := (s.vm.sp + 2) % 2 ^ 16 } := by
  have h1 : s.vm.sp + 1 < VM_RAM_SIZE := by unfold VM_RAM_SIZE; omega
  rw [exec_running s hh hpc, hop, dispatch_RET]
  simp only [Sys.onVM, case_RET, VM.fetch, h1, if_true]

/-! ## Breakpoints -/

theorem at_breakpoint_from_iff (vm : VM) :
    ∀ (n i : Nat), at_breakpoint_from vm i n = true ↔
      ∃ j, i ≤ j ∧ j < i + n ∧ vm.breakpoints j = vm.pc := by
  intro n
  induction n with
  | zero =>
    intro i
    simp only [at_breakpoint_from, Bool.false_eq_true, false_iff]
    rintro ⟨j, h1, h2, _⟩
    omega
  | succ n ih =>
    intro i
    simp only [at_breakpoint_from]
    by_cases hi : vm.breakpoints i = vm.pc
    · simp only [hi, if_true, true_iff]
      exact ⟨i, Nat.le_refl _, by omega, hi⟩
    · rw [if_neg hi, ih]
      constructor
      · rintro ⟨j, h1, h2, h3⟩
        exact ⟨j, by omega, by omega, h3⟩
      · rintro ⟨j, h1, h2, h3⟩
        have hne : j ≠ i := fun e => hi (e ▸ h3)
        exact ⟨j, by omega, by omega, h3⟩

/-- `vm_at_breakpoint` holds exactly when PC is one of the stored breakpoints. -/
theorem vm_at_breakpoint_iff (vm : VM) :
    vm_at_breakpoint vm = true ↔ vm.pc ∈ vm.breakpointList := by
  simp only [vm_at_breakpoint, at_breakpoint_from_iff, VM.breakpointList, List.mem_map,
    List.mem_range, Nat.zero_add]
  constructor
  · rintro ⟨j, _, h2, h3⟩
    exact ⟨j, h2, h3⟩
  · rintro ⟨j, h2, h3⟩
    exact ⟨j, Nat.zero_le _, h2, h3⟩

/-- A run that stops at a breakpoint returns, up to the report printed on
stdout, the first iterate of the start state that is at a breakpoint. -/
theorem run_breakpoint_spec :
    ∀ (fuel : Nat) (s s' : Sys), vm_run_loop fuel s = some (s', RunExit.breakpoint_hit) →
      ∃ k, k ≤ fuel ∧
        s' = { (vm_execute_one^[k] s) with
               stdout := (vm_execute_one^[k] s).stdout ++
                 breakpointReport (vm_execute_one^[k] s).vm } ∧
        (vm_execute_one^[k] s).vm.halted = false ∧
        vm_at_breakpoint (vm_execute_one^[k] s).vm = true ∧
        ∀ j, j < k → ¬ ((vm_execute_one^[j] s).vm.halted = false ∧
          vm_at_breakpoint (vm_execute_one^[j] s).vm = true) := by
  intro fuel
  induction fuel with
  | zero =>
    intro s s' h
    rw [vm_run_loop_zero] at h
    split_ifs at h with h1 h2
    · simp only [Option.some.injEq, Prod.mk.injEq, and_true] at h
      exact ⟨0, Nat.le_refl _, h.symm, h1.1, h2, fun j hj => absurd hj (Nat.not_lt_zero j)⟩
    · simp only [Option.some.injEq, Prod.mk.injEq] at h
      exact absurd h.2 (by decide)
  | succ n ih =>
    intro s s' h
    rw [vm_run_loop_succ] at h
    split_ifs at h with h1 h2
    · simp only [Option.some.injEq, Prod.mk.injEq, and_true] at h
      exact ⟨0, Nat.zero_le _, h.symm, h1.1, h2, fun j hj => absurd hj (Nat.not_lt_zero j)⟩
    · obtain ⟨k, hk, hs', hhalt, hbp, hmin⟩ := ih _ _ h
      refine ⟨k + 1, by omega, ?_, ?_, ?_, ?_⟩
      · simpa only [Function.iterate_succ_apply] using hs'
      · simpa only [Function.iterate_succ_apply] using hhalt
      · simpa only [Function.iterate_succ_apply] using hbp
      · intro j hj
        cases j with
        | zero => exact fun hc => h2 hc.2
        | succ j =>
          simpa only [Function.iterate_succ_apply] using hmin j (by omega)
    · simp only [Option.some.injEq, Prod.mk.injEq] at h
      exact absurd h.2 (by decide)

theorem dispatch_HALT (s : Sys) : dispatch OP_HALT s = s.onVM VM.halt := rfl
theorem dispatch_AND (s : Sys) : dispatch OP_AND s = s.onVM case_AND := rfl
theorem dispatch_OR (s : Sys) : dispatch OP_OR s = s.onVM case_OR := rfl
theorem dispatch_XOR (s : Sys) : dispatch OP_XOR s = s.onVM case_XOR := rfl
theorem dispatch_NOT (s : Sys) : dispatch OP_NOT s = s.onVM case_NOT := rfl
theorem dispatch_LOAD (s : Sys) : dispatch OP_LOAD s = s.onVM case_LOAD := rfl
theorem dispatch_STORE (s : Sys) : dispatch OP_STORE s = s.onVM case_STORE := rfl
theorem dispatch_IN (s : Sys) : dispatch OP_IN s = case_IN s := rfl
theorem dispatch_JMP (s : Sys) : dispatch OP_JMP s = s.onVM case_JMP := rfl
theorem dispatch_JNZ (s : Sys) : dispatch OP_JNZ s = s.onVM case_JNZ := rfl
theorem dispatch_JZ (s : Sys) : dispatch OP_JZ s = s.onVM case_JZ := rfl
theorem dispatch_JLT (s : Sys) : dispatch OP_JLT s = s.onVM case_JLT := rfl
theorem dispatch_JGT (s : Sys) : dispatch OP_JGT s = s.onVM case_JGT := rfl
theorem dispatch_PUSH (s : Sys) : dispatch OP_PUSH s = s.onVM case_PUSH := rfl
theorem dispatch_POP (s : Sys) : dispatch OP_POP s = s.onVM case_POP := rfl

/-- The switch never reads the breakpoint table and leaves it as it was. -/
theorem dispatch_breakpoints (op : Nat) (s : Sys) (bps : Nat → Nat) (n : Nat) :
    dispatch op { s with vm := { s.vm with breakpoints := bps, breakpoint_count := n } } =
      { dispatch op s with
        vm := { (dispatch op s).vm with breakpoints := bps, breakpoint_count := n } } := by
  by_cases hmem : op ∈ opcodes
  · simp only [opcodes, List.mem_cons, List.not_mem_nil, or_false] at hmem
    rcases hmem with e | e | e | e | e | e | e | e | e | e | e | e | e | e | e | e | e | e | e |
      e | e | e | e | e | e | e | e
    all_goals subst e
    all_goals simp only [dispatch_HALT, dispatch_MOVI, dispatch_ADD, dispatch_SUB, dispatch_MUL,
      dispatch_DIV, dispatch_MOD, dispatch_AND, dispatch_OR, dispatch_XOR, dispatch_NOT,
      dispatch_SHL, dispatch_SHR, dispatch_LOAD, dispatch_STORE, dispatch_OUT, dispatch_IN,
      dispatch_JMP, dispatch_JNZ, dispatch_JZ, dispatch_JLT, dispatch_JGT, dispatch_CMP,
      dispatch_CALL, dispatch_RET, dispatch_PUSH, dispatch_POP, Sys.onVM, case_MOVI, case_ADD,
      case_SUB, case_MUL, case_DIV, case_MOD, case_AND, case_OR, case_XOR, case_NOT, case_SHL,
      case_SHR, case_LOAD, case_STORE, case_OUT, case_IN, case_JMP, case_JNZ, case_JZ, case_JLT,
      case_JGT, case_CMP, case_CALL, case_RET, case_PUSH, case_POP, twoRegs, regImm8, regAddr16,
      VM.halt, VM.advance, VM.setReg]
    all_goals first
      | rfl
      | (split_ifs <;> first | rfl | (cases s.stdin <;> rfl))
  · rw [dispatch_default _ _ hmem, dispatch_default _ _ hmem]
    rfl

/-- A step never reads the breakpoint table and leaves it as it was. -/
theorem exec_breakpoints (t : Sys) (bps : Nat → Nat) (n : Nat) :
    vm_execute_one { t with vm := { t.vm with breakpoints := bps, breakpoint_count := n } } =
      { vm_execute_one t with
        vm := { (vm_execute_one t).vm with breakpoints := bps, breakpoint_count := n } } := by
  simp only [vm_execute_one]
  split_ifs
  · rfl
  · exact dispatch_breakpoints _
      { t with stdout := t.stdout ++ debugLine t.vm (t.vm.ram t.vm.pc), vm := t.vm.fetch } bps n

/-! ## The claims about the 8-bit machine -/

/-- C1: Scenario 1. From a freshly created VM holding `MOVI r0,0x41; OUT r0;
HALT` at address 0, whatever waits on stdin, `vm_run` terminates (with any fuel
of at least 3 steps) having written exactly the byte 0x41, with the halt flag
set and a cycle count of 3. -/
theorem scenario1_run (inp : List Nat) (extra : Nat) :
    ∃ s', vm_run (3 + extra) (scenario1Start inp) = some s' ∧
      s'.stdout = [0x41] ∧ s'.vm.halted = true ∧ s'.vm.cycle_count = 3 := by
  have h0 : observe (vm_run_loop 3 (scenario1Start [])) = some ([0x41], true, 3) := by decide
  have h1 := run_stdin inp 3 (scenario1Start []) (by decide)
  rw [h0] at h1
  change observe (vm_run_loop 3 (scenario1Start inp)) = _ at h1
  cases hr : vm_run_loop 3 (scenario1Start inp) with
  | none => rw [hr] at h1; exact Option.noConfusion h1
  | some r =>
    rw [hr] at h1
    simp only [observe, Option.map_some', Option.some.injEq, Prod.mk.injEq] at h1
    refine ⟨r.1, ?_, h1.1, h1.2.1, h1.2.2⟩
    simp only [vm_run, run_fuel_mono extra 3 _ r hr, Option.map_some']

/-- C2 (amended): for every register index `r < 8` and 32-bit value `v`, from
any non-halted state whose memory at PC holds `MOVI r,v` followed by `OUT r`,
all 8 bytes inside memory, two steps leave `regs[r] = v` and write to stdout the
byte `v & 0xFF`, preceded by the debug line of each of the two instructions when
debug mode is on; with debug mode off exactly that one byte is appended. -/
theorem movi_out (s : Sys) (r v : Nat) (hr : r < 8) (hv : v < 2 ^ 32)
    (hh : s.vm.halted = false) (hpc : s.vm.pc + 7 < 2 ^ 16)
    (h0 : s.vm.ram s.vm.pc = OP_MOVI) (h1 : s.vm.ram (s.vm.pc + 1) = r)
    (h2 : s.vm.ram (s.vm.pc + 2) = v / 2 ^ 24 % 256)
    (h3 : s.vm.ram (s.vm.pc + 3) = v / 2 ^ 16 % 256)
    (h4 : s.vm.ram (s.vm.pc + 4) = v / 2 ^ 8 % 256)
    (h5 : s.vm.ram (s.vm.pc + 5) = v % 256)
    (h6 : s.vm.ram (s.vm.pc + 6) = OP_OUT) (h7 : s.vm.ram (s.vm.pc + 7) = r) :
    (vm_execute_one (vm_execute_one s)).vm.regs r = v ∧
    (vm_execute_one (vm_execute_one s)).stdout =
      s.stdout ++ debugLine s.vm OP_MOVI ++ debugLine { s.vm with pc := s.vm.pc + 6 } OP_OUT ++
        [v &&& 0xFF] ∧
    (s.vm.debug_mode = 0 →
      (vm_execute_one (vm_execute_one s)).stdout = s.stdout ++ [v &&& 0xFF]) := by
  have e6 : (s.vm.pc + 6) % 2 ^ 16 = s.vm.pc + 6 := Nat.mod_eq_of_lt (by omega)
  have himm : be32 s.vm.ram (s.vm.pc + 2) = v :=
    be32_bytes s.vm.ram (s.vm.pc + 2) v hv h2 h3 h4 h5
  have hs1 := step_MOVI s hh (by omega) h0 (by rw [h1]; exact hr)
  rw [h1, himm, e6] at hs1
  have hs2 := step_OUT (vm_execute_one s) (by rw [hs1]; exact hh) (by rw [hs1]; exact hpc)
    (by rw [hs1]; exact h6) (by rw [hs1]; show s.vm.ram (s.vm.pc + 6 + 1) < 8; rw [h7]; exact hr)
  have hreg : (vm_execute_one s).vm.regs ((vm_execute_one s).vm.ram ((vm_execute_one s).vm.pc + 1))
      = v := by
    rw [hs1]
    show setAt s.vm.regs r v (s.vm.ram (s.vm.pc + 6 + 1)) = v
    rw [h7]
    simp only [setAt, if_true]
  have hout : (vm_execute_one (vm_execute_one s)).stdout =
      s.stdout ++ debugLine s.vm OP_MOVI ++ debugLine { s.vm with pc := s.vm.pc + 6 } OP_OUT ++
        [v &&& 0xFF] := by
    rw [hs2, hreg, hs1]
    rfl
  refine ⟨?_, hout, ?_⟩
  · rw [hs2, hs1]
    simp only [setAt, if_true]
  · intro hd
    rw [hout]
    simp only [debugLine, hd, ne_eq, not_true_eq_false, if_false, List.append_nil]

/-- C2 as stated fails with debug mode on: on Scenario 1 started in debug
mode, all hypotheses of the claim hold with `r = 0`, `v = 0x41`, yet the two
steps write more to stdout than the single byte `v & 0xFF`. -/
theorem movi_out_debug_counterexample :
    scenario1Debug.vm.halted = false ∧ scenario1Debug.vm.pc + 7 < 2 ^ 16 ∧
    scenario1Debug.vm.ram scenario1Debug.vm.pc = OP_MOVI ∧
    scenario1Debug.vm.ram (scenario1Debug.vm.pc + 1) = 0 ∧
    scenario1Debug.vm.ram (scenario1Debug.vm.pc + 2) = 0x41 / 2 ^ 24 % 256 ∧
    scenario1Debug.vm.ram (scenario1Debug.vm.pc + 3) = 0x41 / 2 ^ 16 % 256 ∧
    scenario1Debug.vm.ram (scenario1Debug.vm.pc + 4) = 0x41 / 2 ^ 8 % 256 ∧
    scenario1Debug.vm.ram (scenario1Debug.vm.pc + 5) = 0x41 % 256 ∧
    scenario1Debug.vm.ram (scenario1Debug.vm.pc + 6) = OP_OUT ∧
    scenario1Debug.vm.ram (scenario1Debug.vm.pc + 7) = 0 ∧
    (vm_execute_one (vm_execute_one scenario1Debug)).stdout ≠
      scenario1Debug.stdout ++ [0x41 &&& 0xFF] := by
  decide

/-- C2 (amended) on Scenario 1 in debug mode: register 0 holds 0x41 and stdout
holds the two debug lines followed by the byte `A`. -/
theorem movi_out_witness :
    (vm_execute_one (vm_execute_one scenario1Debug)).vm.regs 0 = 0x41 ∧
    (vm_execute_one (vm_execute_one scenario1Debug)).stdout =
      text "[PC: 0x0000] Opcode: 0x10\n[PC: 0x0006] Opcode: 0x40\nA" := by
  have h := movi_out scenario1Debug 0 0x41 (by decide) (by decide) (by decide) (by decide)
    (by decide) (by decide) (by decide) (by decide) (by decide) (by decide) (by decide) (by decide)
  exact ⟨h.1, h.2.1.trans (by decide)⟩

set_option maxRecDepth 100000 in
/-- C3: the built-in demo image, loaded into a fresh VM and run, halts after
29 instructions having written fourteen NUL bytes, not the fourteen bytes of
"HELLO FROM VM\n": every `MOVI R0` of the image carries its character in the
most significant byte of the big-endian immediate. -/
theorem builtin_demo_output (inp : List Nat) (extra : Nat) :
    ∃ s', vm_run (29 + extra) (boot (vm_load_builtin_image vm_create) inp) = some s' ∧
      s'.stdout = List.replicate 14 0 ∧ s'.stdout ≠ text "HELLO FROM VM\n" ∧
      s'.vm.halted = true ∧ s'.vm.cycle_count = 29 := by
  have h0 : observe (vm_run_loop 29 (boot (vm_load_builtin_image vm_create) [])) =
      some (List.replicate 14 0, true, 29) := by decide
  have h1 := run_stdin inp 29 (boot (vm_load_builtin_image vm_create) []) (by decide)
  rw [h0] at h1
  change observe (vm_run_loop 29 (boot (vm_load_builtin_image vm_create) inp)) = _ at h1
  cases hr : vm_run_loop 29 (boot (vm_load_builtin_image vm_create) inp) with
  | none => rw [hr] at h1; exact Option.noConfusion h1
  | some r =>
    rw [hr] at h1
    simp only [observe, Option.map_some', Option.some.injEq, Prod.mk.injEq] at h1
    refine ⟨r.1, ?_, h1.1, ?_, h1.2.1, h1.2.2⟩
    · simp only [vm_run, run_fuel_mono extra 29 _ r hr, Option.map_some']
    · rw [h1.1]; decide

/-- C4: `ADD`/`SUB`/`MUL dst,src` with `dst, src < 8`, the instruction inside
memory, on 64-bit register values `a = regs[dst]`, `b = regs[src]`: the step
sets `regs[dst]` to `(a+b) mod 2^64`, `(a-b) mod 2^64`, `(a*b) mod 2^64`
respectively, changes no other register and does not set the halt flag. -/
theorem add_sub_mul_wrap (s : Sys) (op dst src : Nat)
    (hh : s.vm.halted = false) (hpc : s.vm.pc + 2 < 2 ^ 16)
    (hop : s.vm.ram s.vm.pc = op) (hdst : s.vm.ram (s.vm.pc + 1) = dst)
    (hsrc : s.vm.ram (s.vm.pc + 2) = src)
    (hd : dst < 8) (hs : src < 8) (ha : s.vm.regs dst < 2 ^ 64) (hb : s.vm.regs src < 2 ^ 64) :
    (op = OP_ADD →
      (vm_execute_one s).vm.regs dst = (s.vm.regs dst + s.vm.regs src) % 2 ^ 64) ∧
    (op = OP_SUB →
      ((vm_execute_one s).vm.regs dst : Int) =
        ((s.vm.regs dst : Int) - (s.vm.regs src : Int)) % 2 ^ 64) ∧
    (op = OP_MUL →
      (vm_execute_one s).vm.regs dst = (s.vm.regs dst * s.vm.regs src) % 2 ^ 64) ∧
    (op = OP_ADD ∨ op = OP_SUB ∨ op = OP_MUL →
      (∀ r, r ≠ dst → (vm_execute_one s).vm.regs r = s.vm.regs r) ∧
      (vm_execute_one s).vm.halted = false) := by
  have hd' : s.vm.ram (s.vm.pc + 1) < 8 := by rw [hdst]; exact hd
  have hs' : s.vm.ram (s.vm.pc + 2) < 8 := by rw [hsrc]; exact hs
  have hadd := step_twoRegs s OP_ADD _ (fun _ => rfl) hh hpc
  have hsub := step_twoRegs s OP_SUB _ (fun _ => rfl) hh hpc
  have hmul := step_twoRegs s OP_MUL _ (fun _ => rfl) hh hpc
  refine ⟨?_, ?_, ?_, ?_⟩
  · intro h; subst h
    rw [hadd hop hd' hs', hdst, hsrc]
    simp only [VM.setReg, VM.fetch, setAt, if_true]
  · intro h; subst h
    rw [hsub hop hd' hs', hdst, hsrc]
    simp only [VM.setReg, VM.fetch, setAt, if_true]
    omega
  · intro h; subst h
    rw [hmul hop hd' hs', hdst, hsrc]
    simp only [VM.setReg, VM.fetch, setAt, if_true]
  · rintro (h | h | h) <;> subst h
    · rw [hadd hop hd' hs', hdst, hsrc]
      exact ⟨fun r hr => by simp only [VM.setReg, VM.fetch, setAt, if_neg hr], hh⟩
    · rw [hsub hop hd' hs', hdst, hsrc]
      exact ⟨fun r hr => by simp only [VM.setReg, VM.fetch, setAt, if_neg hr], hh⟩
    · rw [hmul hop hd' hs', hdst, hsrc]
      exact ⟨fun r hr => by simp only [VM.setReg, VM.fetch, setAt, if_neg hr], hh⟩

/-- C4 at `SUB r1, r2` with `r1 = 3`, `r2 = 5`: the difference wraps. -/
theorem add_sub_mul_wrap_witness :
    (((vm_execute_one (operandState OP_SUB 2 3 5)).vm.regs 1 : Nat) : Int) =
        ((3 : Int) - 5) % 2 ^ 64 ∧
      (vm_execute_one (operandState OP_SUB 2 3 5)).vm.halted = false := by
  have h := add_sub_mul_wrap (operandState OP_SUB 2 3 5) OP_SUB 1 2 (by decide) (by decide)
    (by decide) (by decide) (by decide) (by decide) (by decide) (by decide) (by decide)
  exact ⟨h.2.1 rfl, (h.2.2.2 (Or.inr (Or.inl rfl))).2⟩

/-- C5: `DIV`/`MOD dst,src` with `dst, src < 8`, the instruction inside memory:
when `regs[src] = 0` the step leaves every register and every memory byte
unchanged and does not set the halt flag; when `regs[src] != 0` it sets
`regs[dst]` to the unsigned quotient, respectively remainder. -/
theorem div_mod_by_zero (s : Sys) (op dst src : Nat)
    (hh : s.vm.halted = false) (hpc : s.vm.pc + 2 < 2 ^ 16)
    (hop : s.vm.ram s.vm.pc = op) (hdst : s.vm.ram (s.vm.pc + 1) = dst)
    (hsrc : s.vm.ram (s.vm.pc + 2) = src) (hd : dst < 8) (hs : src < 8) :
    (op = OP_DIV ∨ op = OP_MOD → s.vm.regs src = 0 →
      (vm_execute_one s).vm.regs = s.vm.regs ∧ (vm_execute_one s).vm.ram = s.vm.ram ∧
      (vm_execute_one s).vm.halted = false) ∧
    (op = OP_DIV → s.vm.regs src ≠ 0 →
      (vm_execute_one s).vm.regs dst = s.vm.regs dst / s.vm.regs src) ∧
    (op = OP_MOD → s.vm.regs src ≠ 0 →
      (vm_execute_one s).vm.regs dst = s.vm.regs dst % s.vm.regs src) := by
  have hd' : s.vm.ram (s.vm.pc + 1) < 8 := by rw [hdst]; exact hd
  have hs' : s.vm.ram (s.vm.pc + 2) < 8 := by rw [hsrc]; exact hs
  have hdiv := step_twoRegs s OP_DIV _ (fun _ => rfl) hh hpc
  have hmod := step_twoRegs s OP_MOD _ (fun _ => rfl) hh hpc
  refine ⟨?_, ?_, ?_⟩
  · rintro (h | h) hz <;> subst h
    · rw [hdiv hop hd' hs', hdst, hsrc]
      refine ⟨?_, ?_, ?_⟩ <;>
        simp only [VM.fetch, hz, ne_eq, not_true_eq_false, if_false, hh]
    · rw [hmod hop hd' hs', hdst, hsrc]
      refine ⟨?_, ?_, ?_⟩ <;>
        simp only [VM.fetch, hz, ne_eq, not_true_eq_false, if_false, hh]
  · intro h hz; subst h
    rw [hdiv hop hd' hs', hdst, hsrc]
    simp only [VM.setReg, VM.fetch, setAt, ne_eq, hz, not_false_eq_true, if_true]
  · intro h hz; subst h
    rw [hmod hop hd' hs', hdst, hsrc]
    simp only [VM.setReg, VM.fetch, setAt, ne_eq, hz, not_false_eq_true, if_true]

/-- C5 at `DIV r1, r2` with `r1 = 7`, `r2 = 0`: nothing changes. -/
theorem div_mod_by_zero_witness :
    (vm_execute_one (operandState OP_DIV 2 7 0)).vm.regs = (operandState OP_DIV 2 7 0).vm.regs ∧
      (vm_execute_one (operandState OP_DIV 2 7 0)).vm.ram = (operandState OP_DIV 2 7 0).vm.ram ∧
      (vm_execute_one (operandState OP_DIV 2 7 0)).vm.halted = false :=
  (div_mod_by_zero (operandState OP_DIV 2 7 0) OP_DIV 1 2 (by decide) (by decide) (by decide)
    (by decide) (by decide) (by decide) (by decide)).1 (Or.inl rfl) (by decide)

/-- C6: `SHL`/`SHR dst,imm8` with `dst < 8`, the instruction inside memory:
with `imm8 >= 64` the step leaves `regs[dst]` unchanged; with `imm8 < 64` it
sets `regs[dst]` to `(regs[dst] * 2^imm8) mod 2^64` for `SHL` and to
`floor(regs[dst] / 2^imm8)` for `SHR`. -/
theorem shl_shr_amount (s : Sys) (op dst imm : Nat)
    (hh : s.vm.halted = false) (hpc : s.vm.pc + 2 < 2 ^ 16)
    (hop : s.vm.ram s.vm.pc = op) (hdst : s.vm.ram (s.vm.pc + 1) = dst)
    (himm : s.vm.ram (s.vm.pc + 2) = imm) (hd : dst < 8) :
    (op = OP_SHL ∨ op = OP_SHR → 64 ≤ imm →
      (vm_execute_one s).vm.regs dst = s.vm.regs dst) ∧
    (op = OP_SHL → imm < 64 →
      (vm_execute_one s).vm.regs dst = (s.vm.regs dst * 2 ^ imm) % 2 ^ 64) ∧
    (op = OP_SHR → imm < 64 →
      (vm_execute_one s).vm.regs dst = s.vm.regs dst / 2 ^ imm) := by
  have hshl := step_regImm8 s OP_SHL _ (fun _ => rfl) hh hpc
  have hshr := step_regImm8 s OP_SHR _ (fun _ => rfl) hh hpc
  refine ⟨?_, ?_, ?_⟩
  · rintro (h | h) hbig <;> subst h
    · rw [hshl hop, hdst, himm, if_neg (fun hc => absurd hc.2 (Nat.not_lt.mpr hbig))]
      rfl
    · rw [hshr hop, hdst, himm, if_neg (fun hc => absurd hc.2 (Nat.not_lt.mpr hbig))]
      rfl
  · intro h hsmall; subst h
    rw [hshl hop, hdst, himm, if_pos ⟨hd, hsmall⟩]
    simp only [VM.setReg, VM.fetch, setAt, if_true, Nat.shiftLeft_eq]
  · intro h hsmall; subst h
    rw [hshr hop, hdst, himm, if_pos ⟨hd, hsmall⟩]
    simp only [VM.setReg, VM.fetch, setAt, if_true, Nat.shiftRight_eq_div_pow]

/-- C6 at `SHL r1, 63` with `r1 = 3`: the top bit is shifted out. -/
theorem shl_shr_amount_witness :
    (vm_execute_one (operandState OP_SHL 63 3 0)).vm.regs 1 = (3 * 2 ^ 63) % 2 ^ 64 :=
  (shl_shr_amount (operandState OP_SHL 63 3 0) OP_SHL 1 63 (by decide) (by decide) (by decide)
    (by decide) (by decide) (by decide)).2.1 rfl (by decide)

/-- C7: `CMP dst,src` with `dst, src < 8`, the instruction inside memory, sets
`regs[dst]` to 0 when the prior `regs[dst]` equals `regs[src]` and to 1
otherwise, and changes no other register. -/
theorem cmp_polarity (s : Sys) (dst src : Nat)
    (hh : s.vm.halted = false) (hpc : s.vm.pc + 2 < 2 ^ 16)
    (hop : s.vm.ram s.vm.pc = OP_CMP) (hdst : s.vm.ram (s.vm.pc + 1) = dst)
    (hsrc : s.vm.ram (s.vm.pc + 2) = src) (hd : dst < 8) (hs : src < 8) :
    (vm_execute_one s).vm.regs dst = (if s.vm.regs dst = s.vm.regs src then 0 else 1) ∧
    (∀ r, r ≠ dst → (vm_execute_one s).vm.regs r = s.vm.regs r) := by
  have hd' : s.vm.ram (s.vm.pc + 1) < 8 := by rw [hdst]; exact hd
  have hs' : s.vm.ram (s.vm.pc + 2) < 8 := by rw [hsrc]; exact hs
  rw [step_twoRegs s OP_CMP _ (fun _ => rfl) hh hpc hop hd' hs', hdst, hsrc]
  refine ⟨?_, fun r hr => by simp only [VM.setReg, VM.fetch, setAt, if_neg hr]⟩
  simp only [VM.setReg, VM.fetch, setAt, if_true, ne_eq, ite_not]

/-- C7 at `CMP r1, r2` with equal registers: the result is 0. -/
theorem cmp_polarity_witness :
    (vm_execute_one (operandState OP_CMP 2 9 9)).vm.regs 1 = 0 ∧
      (vm_execute_one (operandState OP_CMP 2 9 9)).vm.regs 2 = 9 := by
  have h := cmp_polarity (operandState OP_CMP 2 9 9) 1 2 (by decide) (by decide) (by decide)
    (by decide) (by decide) (by decide) (by decide)
  exact ⟨h.1.trans (by decide), (h.2 2 (by decide)).trans (by decide)⟩

/-- C8 (amended): for every 16-bit address `A` and every non-halted state with
`SP > 1` whose memory holds `CALL A` at `PC = p` (all three bytes inside
memory) and a `RET` opcode at `A`, where `A` is neither of the two stack bytes
`SP-2`, `SP-1` that the call overwrites, the two steps `CALL`, `RET` leave
`PC = (p + 3) mod 2^16`, `SP` at its value before the call and all registers
unchanged. -/
theorem call_ret_round_trip (s : Sys) (A : Nat) (hA : A < 2 ^ 16)
    (hh : s.vm.halted = false) (hsp : 1 < s.vm.sp) (hsp16 : s.vm.sp < 2 ^ 16)
    (hpc : s.vm.pc + 2 < 2 ^ 16)
    (h0 : s.vm.ram s.vm.pc = OP_CALL) (h1 : s.vm.ram (s.vm.pc + 1) = A / 256)
    (h2 : s.vm.ram (s.vm.pc + 2) = A % 256) (hret : s.vm.ram A = OP_RET)
    (hslot : A ≠ s.vm.sp - 2 ∧ A ≠ s.vm.sp - 1) :
    (vm_execute_one (vm_execute_one s)).vm.pc = (s.vm.pc + 3) % 2 ^ 16 ∧
    (vm_execute_one (vm_execute_one s)).vm.sp = s.vm.sp ∧
    (vm_execute_one (vm_execute_one s)).vm.regs = s.vm.regs := by
  have hcall := step_CALL s hh hpc h0 hsp
  have htarget : be16 s.vm.ram (s.vm.pc + 1) = A := be16_bytes s.vm.ram (s.vm.pc + 1) A hA h1 h2
  rw [htarget] at hcall
  have hsp1 : s.vm.sp - 2 + 1 = s.vm.sp - 1 := by omega
  have hramA : (vm_execute_one s).vm.ram A = OP_RET := by
    rw [hcall]
    simp only [setAt, hsp1, if_neg hslot.1, if_neg hslot.2]
    exact hret
  have hret2 := step_RET (vm_execute_one s) (by rw [hcall]; exact hh) (by rw [hcall]; exact hA)
    (by rw [hcall] at hramA ⊢; exact hramA) (by rw [hcall]; show s.vm.sp - 2 + 1 < 2 ^ 16; omega)
  have hback : be16 (vm_execute_one s).vm.ram (vm_execute_one s).vm.sp = (s.vm.pc + 3) % 2 ^ 16 := by
    apply be16_pushed _ _ _ (Nat.mod_lt _ (by decide))
    · rw [hcall]
      have hne : s.vm.sp - 2 ≠ s.vm.sp - 2 + 1 := by omega
      simp only [setAt, if_neg hne, if_true]
    · rw [hcall]
      simp only [setAt, if_true]
  rw [hret2, hback]
  refine ⟨rfl, ?_, ?_⟩
  · rw [hcall]
    show (s.vm.sp - 2 + 2) % 2 ^ 16 = s.vm.sp
    rw [Nat.sub_add_cancel hsp]
    exact Nat.mod_eq_of_lt hsp16
  · rw [hcall]

/-- C8 as stated fails twice.  When the `RET` at `A` lies in the stack slot
the call writes (`A = SP-2`), the pushed return address overwrites it: in a
fresh VM with `CALL 0xFFFD` at 0 the second step executes a `HALT` and PC ends
at 0xFFFE, not 3.  When the call occupies the last three bytes of memory the
return address wraps: PC ends at 0, not at `p + 3 = 0x10000`. -/
theorem call_ret_counterexample :
    (callIntoStack.vm.halted = false ∧ 1 < callIntoStack.vm.sp ∧
      callIntoStack.vm.ram callIntoStack.vm.pc = OP_CALL ∧
      callIntoStack.vm.ram (callIntoStack.vm.pc + 1) = 0xFFFD / 256 ∧
      callIntoStack.vm.ram (callIntoStack.vm.pc + 2) = 0xFFFD % 256 ∧
      callIntoStack.vm.ram 0xFFFD = OP_RET ∧
      (vm_execute_one (vm_execute_one callIntoStack)).vm.pc = 0xFFFE ∧
      (vm_execute_one (vm_execute_one callIntoStack)).vm.pc ≠ callIntoStack.vm.pc + 3 ∧
      (vm_execute_one (vm_execute_one callIntoStack)).vm.halted = true) ∧
    (callAtTop.vm.halted = false ∧ 1 < callAtTop.vm.sp ∧
      callAtTop.vm.ram callAtTop.vm.pc = OP_CALL ∧
      callAtTop.vm.ram (callAtTop.vm.pc + 1) = 0x10 / 256 ∧
      callAtTop.vm.ram (callAtTop.vm.pc + 2) = 0x10 % 256 ∧
      callAtTop.vm.ram 0x10 = OP_RET ∧
      (vm_execute_one (vm_execute_one callAtTop)).vm.pc = 0 ∧
      (vm_execute_one (vm_execute_one callAtTop)).vm.pc ≠ callAtTop.vm.pc + 3) := by
  decide

/-- C8 (amended) on `CALL 0x0010` at address 0 of a fresh VM with `RET` at
0x0010: execution resumes at 3 with the stack pointer back at 0xFFFF. -/
theorem call_ret_round_trip_witness :
    (vm_execute_one (vm_execute_one callRet)).vm.pc = 3 ∧
    (vm_execute_one (vm_execute_one callRet)).vm.sp = 0xFFFF ∧
    (vm_execute_one (vm_execute_one callRet)).vm.regs = callRet.vm.regs :=
  call_ret_round_trip callRet 0x10 (by decide) (by decide) (by decide) (by decide) (by decide)
    (by decide) (by decide) (by decide) (by decide) (by decide)

/-- C9: if the loop of `vm_run` is left at a breakpoint, the final PC is in the
breakpoint list, and the final VM state is the `k`-fold `vm_execute_one` image
of the start state for the least `k` at which the state is not halted and its
PC is in the breakpoint list, so the instruction at that PC has not been
executed (stdout holds what those `k` steps wrote, then the breakpoint
report); and `vm_execute_one` never consults the breakpoint list: its result
on registers, memory, PC, SP, halt flag and cycle count is the same for any
breakpoint table. -/
theorem run_stops_at_first_breakpoint (fuel : Nat) (s s' : Sys)
    (h : vm_run_loop fuel s = some (s', RunExit.breakpoint_hit)) :
    s'.vm.pc ∈ s'.vm.breakpointList ∧
    (∃ k, k ≤ fuel ∧ s'.vm = (vm_execute_one^[k] s).vm ∧
      s'.stdout = (vm_execute_one^[k] s).stdout ++ breakpointReport (vm_execute_one^[k] s).vm ∧
      ((vm_execute_one^[k] s).vm.halted = false ∧
        (vm_execute_one^[k] s).vm.pc ∈ (vm_execute_one^[k] s).vm.breakpointList) ∧
      ∀ j, j < k → ¬ ((vm_execute_one^[j] s).vm.halted = false ∧
        (vm_execute_one^[j] s).vm.pc ∈ (vm_execute_one^[j] s).vm.breakpointList)) ∧
    (∀ (t : Sys) (bps : Nat → Nat) (n : Nat),
      (vm_execute_one
          { t with vm := { t.vm with breakpoints := bps, breakpoint_count := n } }).vm.regs =
        (vm_execute_one t).vm.regs ∧
      (vm_execute_one
          { t with vm := { t.vm with breakpoints := bps, breakpoint_count := n } }).vm.ram =
        (vm_execute_one t).vm.ram ∧
      (vm_execute_one
          { t with vm := { t.vm with breakpoints := bps, breakpoint_count := n } }).vm.pc =
        (vm_execute_one t).vm.pc ∧
      (vm_execute_one
          { t with vm := { t.vm with breakpoints := bps, breakpoint_count := n } }).vm.sp =
        (vm_execute_one t).vm.sp ∧
      (vm_execute_one
          { t with vm := { t.vm with breakpoints := bps, breakpoint_count := n } }).vm.halted =
        (vm_execute_one t).vm.halted ∧
      (vm_execute_one
          { t with vm := { t.vm with breakpoints := bps, breakpoint_count := n } }).vm.cycle_count =
        (vm_execute_one t).vm.cycle_count) := by
  obtain ⟨k, hk, hs', hhalt, hbp, hmin⟩ := run_breakpoint_spec fuel s s' h
  have hvm : s'.vm = (vm_execute_one^[k] s).vm := by rw [hs']
  have hout : s'.stdout =
      (vm_execute_one^[k] s).stdout ++ breakpointReport (vm_execute_one^[k] s).vm := by rw [hs']
  refine ⟨?_, ⟨k, hk, hvm, hout, ⟨hhalt, (vm_at_breakpoint_iff _).mp hbp⟩, ?_⟩, ?_⟩
  · rw [hvm]
    exact (vm_at_breakpoint_iff _).mp hbp
  · intro j hj hc
    exact hmin j hj ⟨hc.1, (vm_at_breakpoint_iff _).mpr hc.2⟩
  · intro t bps n
    rw [exec_breakpoints]
    exact ⟨rfl, rfl, rfl, rfl, rfl, rfl⟩

/-- C9 on Scenario 1 with a breakpoint on the `OUT` at address 6: the run stops
there after one instruction, before the `OUT` has written anything. -/
theorem run_stops_at_first_breakpoint_witness :
    vm_run_loop 5 scenario1Break = some (scenario1Stop, RunExit.breakpoint_hit) ∧
    scenario1Stop.vm.pc ∈ scenario1Stop.vm.breakpointList ∧
    scenario1Stop.vm.pc = 6 ∧ scenario1Stop.vm.cycle_count = 1 := by
  have hrun : vm_run_loop 5 scenario1Break = some (scenario1Stop, RunExit.breakpoint_hit) := by
    rw [vm_run_loop_succ, if_pos (by decide), if_neg (by decide), vm_run_loop_succ,
      if_pos (by decide), if_pos (by decide)]
    rfl
  exact ⟨hrun, (run_stops_at_first_breakpoint 5 scenario1Break scenario1Stop hrun).1,
    by decide, by decide⟩

/-- C10: `vm_add_breakpoint(addr)` on a table holding at most 16 entries: with
fewer than 16 stored, the breakpoint list becomes the old list with `addr`
appended (count + 1) and `vm_at_breakpoint` is true in every state with that
table and `PC = addr`; with 16 stored the whole VM state is unchanged; in both
cases the count does not exceed 16. -/
theorem add_breakpoint_bounded (vm : VM) (addr : Nat) (hcap : vm.breakpoint_count ≤ 16) :
    (vm.breakpoint_count < 16 →
      (vm_add_breakpoint vm addr).breakpointList = vm.breakpointList ++ [addr] ∧
      (vm_add_breakpoint vm addr).breakpoint_count = vm.breakpoint_count + 1 ∧
      ∀ vm' : VM, vm'.breakpoints = (vm_add_breakpoint vm addr).breakpoints →
        vm'.breakpoint_count = (vm_add_breakpoint vm addr).breakpoint_count →
        vm'.pc = addr → vm_at_breakpoint vm' = true) ∧
    (vm.breakpoint_count = 16 → vm_add_breakpoint vm addr = vm) ∧
    (vm_add_breakpoint vm addr).breakpoint_count ≤ 16 := by
  refine ⟨?_, ?_, ?_⟩
  · intro hlt
    have hn : ¬ (vm.breakpoint_count ≥ VM_MAX_BREAKPOINTS) := by
      unfold VM_MAX_BREAKPOINTS; omega
    have hlist : (vm_add_breakpoint vm addr).breakpointList = vm.breakpointList ++ [addr] := by
      simp only [vm_add_breakpoint, if_neg hn, VM.breakpointList, List.range_succ,
        List.map_append, List.map_cons, List.map_nil, setAt, if_true]
      congr 1
      apply List.map_congr_left
      intro j hj
      have hne : j ≠ vm.breakpoint_count := Nat.ne_of_lt (List.mem_range.mp hj)
      simp only [setAt, if_neg hne]
    refine ⟨hlist, by simp only [vm_add_breakpoint, if_neg hn], ?_⟩
    intro vm' hb hc hp
    rw [vm_at_breakpoint_iff]
    have hl : vm'.breakpointList = (vm_add_breakpoint vm addr).breakpointList := by
      simp only [VM.breakpointList, hb, hc]
    rw [hl, hlist, hp]
    exact List.mem_append_right _ (List.mem_singleton.mpr rfl)
  · intro h16
    have hge : vm.breakpoint_count ≥ VM_MAX_BREAKPOINTS := by
      unfold VM_MAX_BREAKPOINTS; omega
    simp only [vm_add_breakpoint, if_pos hge]
  · simp only [vm_add_breakpoint, VM_MAX_BREAKPOINTS]
    split_ifs with h
    · exact hcap
    · show vm.breakpoint_count + 1 ≤ 16
      omega

/-- C10 on the empty table of a fresh VM: adding 6 gives the list `[6]`. -/
theorem add_breakpoint_bounded_witness :
    (vm_add_breakpoint vm_create 6).breakpointList = vm_create.breakpointList ++ [6] ∧
    (vm_add_breakpoint vm_create 6).breakpoint_count = 1 ∧
    (vm_add_breakpoint vm_create 6).breakpoint_count ≤ 16 := by
  have h := add_breakpoint_bounded vm_create 6 (by decide)
  exact ⟨(h.1 (by decide)).1, (h.1 (by decide)).2.1, h.2.2⟩

end VM8
namespace VM8

/-! ## Removing a breakpoint -/

theorem shiftDown_apply :
    ∀ (n : Nat) (bps : Nat → Nat) (j k : Nat),
      shiftDown bps j n k = if j ≤ k ∧ k < j + n then bps (k + 1) else bps k := by
  intro n
  induction n with
  | zero =>
    intro bps j k
    have h : ¬ (j ≤ k ∧ k < j + 0) := by omega
    simp only [shiftDown, if_neg h]
  | succ n ih =>
    intro bps j k
    simp only [shiftDown]
    rw [ih]
    by_cases h1 : j + 1 ≤ k ∧ k < j + 1 + n
    · have h2 : j ≤ k ∧ k < j + (n + 1) := by omega
      have h3 : k + 1 ≠ j := by omega
      simp only [if_pos h1, if_pos h2, setAt, if_neg h3]
    · rw [if_neg h1]
      by_cases h4 : k = j
      · subst h4
        have h2 : k ≤ k ∧ k < k + (n + 1) := by omega
        simp only [if_pos h2, setAt, if_true]
      · have h2 : ¬ (j ≤ k ∧ k < j + (n + 1)) := by omega
        simp only [if_neg h2, setAt, if_neg h4]

/-- The loop of `vm_remove_breakpoint` started at index `i` erases the first
entry equal to `addr` among `breakpoints[i .. count)` and keeps the entries
below `i`. -/
theorem remove_breakpoint_from_spec (vm : VM) (addr : Nat) :
    ∀ (n i : Nat), i + n = vm.breakpoint_count →
      ((List.range' i ((remove_breakpoint_from vm addr i n).breakpoint_count - i)).map
          (remove_breakpoint_from vm addr i n).breakpoints =
        ((List.range' i n).map vm.breakpoints).erase addr) ∧
      (∀ j, j < i → (remove_breakpoint_from vm addr i n).breakpoints j = vm.breakpoints j) ∧
      ((remove_breakpoint_from vm addr i n).breakpoint_count = vm.breakpoint_count ∨
        ((remove_breakpoint_from vm addr i n).breakpoint_count + 1 = vm.breakpoint_count ∧
          0 < n)) := by
  intro n
  induction n with
  | zero =>
    intro i hi
    have h0 : vm.breakpoint_count - i = 0 := by omega
    simp only [remove_breakpoint_from, h0, List.range'_zero, List.map_nil, List.erase_nil,
      implies_true, true_or, and_self]
  | succ n ih =>
    intro i hi
    simp only [remove_breakpoint_from]
    by_cases hfound : vm.breakpoints i = addr
    · simp only [if_pos hfound]
      have hc : vm.breakpoint_count - 1 - i = n := by omega
      refine ⟨?_, ?_, Or.inr ⟨by omega, Nat.succ_pos n⟩⟩
      · rw [hc, List.range'_succ, List.map_cons, hfound, List.erase_cons_head]
        have hr : List.range' (i + 1) n = (List.range' i n).map (1 + ·) := by
          rw [List.map_add_range', Nat.add_comm]
        rw [hr, List.map_map]
        apply List.map_congr_left
        intro k hk
        have hk' := List.mem_range'_1.mp hk
        rw [shiftDown_apply, if_pos ⟨hk'.1, hk'.2⟩, Function.comp_apply, Nat.add_comm]
      · intro j hj
        rw [hc, shiftDown_apply]
        have h : ¬ (i ≤ j ∧ j < i + n) := by omega
        rw [if_neg h]
    · simp only [if_neg hfound]
      obtain ⟨h1, h2, h3⟩ := ih (i + 1) (by omega)
      refine ⟨?_, fun j hj => h2 j (by omega), ?_⟩
      · have hcnt : (remove_breakpoint_from vm addr (i + 1) n).breakpoint_count - i =
            ((remove_breakpoint_from vm addr (i + 1) n).breakpoint_count - (i + 1)) + 1 := by
          omega
        rw [hcnt, List.range'_succ, List.map_cons, h1, h2 i (Nat.lt_succ_self i),
          List.range'_succ, List.map_cons, List.erase_cons_tail]
        simpa using hfound
      · rcases h3 with h3 | ⟨h3, h4⟩
        · exact Or.inl h3
        · exact Or.inr ⟨h3, Nat.succ_pos n⟩

end VM8

namespace VM8

theorem filter_erase_ne (a : Nat) :
    ∀ l : List Nat,
      (l.erase a).filter (fun b => decide (b ≠ a)) = l.filter (fun b => decide (b ≠ a)) := by
  intro l
  induction l with
  | nil => rfl
  | cons b t ih =>
    by_cases hb : b = a
    · subst hb
      rw [List.erase_cons_head, List.filter_cons_of_neg (by simp)]
    · rw [List.erase_cons_tail (by simpa using hb), List.filter_cons_of_pos (by simpa using hb),
        List.filter_cons_of_pos (by simpa using hb), ih]

/-- C11 (amended): `vm_remove_breakpoint(addr)` erases the first stored entry
equal to `addr` and nothing else: the entries different from `addr` are all
still present in their original relative order, and when `addr` was stored at
most once no stored breakpoint equals `addr` afterwards, so that
`vm_at_breakpoint` is false in every state with that table and `PC = addr`. -/
theorem remove_breakpoint_first (vm : VM) (addr : Nat) :
    (vm_remove_breakpoint vm addr).breakpointList = vm.breakpointList.erase addr ∧
    (vm_remove_breakpoint vm addr).breakpointList.filter (fun b => decide (b ≠ addr)) =
      vm.breakpointList.filter (fun b => decide (b ≠ addr)) ∧
    (vm.breakpointList.count addr ≤ 1 →
      addr ∉ (vm_remove_breakpoint vm addr).breakpointList ∧
      ∀ vm' : VM, vm'.breakpoints = (vm_remove_breakpoint vm addr).breakpoints →
        vm'.breakpoint_count = (vm_remove_breakpoint vm addr).breakpoint_count →
        vm'.pc = addr → vm_at_breakpoint vm' = false) := by
  have hlist : (vm_remove_breakpoint vm addr).breakpointList = vm.breakpointList.erase addr := by
    have h := (remove_breakpoint_from_spec vm addr vm.breakpoint_count 0 (Nat.zero_add _)).1
    simpa only [VM.breakpointList, vm_remove_breakpoint, List.range_eq_range', Nat.sub_zero]
      using h
  refine ⟨hlist, ?_, ?_⟩
  · rw [hlist, filter_erase_ne]
  · intro hcount
    have hnot : addr ∉ (vm_remove_breakpoint vm addr).breakpointList := by
      rw [hlist]
      apply List.count_eq_zero.mp
      rw [List.count_erase_self]
      omega
    refine ⟨hnot, ?_⟩
    intro vm' hb hc hp
    have hl : vm'.breakpointList = (vm_remove_breakpoint vm addr).breakpointList := by
      simp only [VM.breakpointList, hb, hc]
    cases hat : vm_at_breakpoint vm' with
    | false => rfl
    | true =>
      have hmem := (vm_at_breakpoint_iff vm').mp hat
      rw [hl, hp] at hmem
      exact absurd hmem hnot

/-- C11 as stated fails on a list with a duplicate, which `vm_add_breakpoint`
allows: after adding 5 twice to a fresh VM and removing 5 once, 5 is still
stored and `vm_at_breakpoint` is true at `PC = 5`. -/
theorem remove_breakpoint_duplicate_counterexample :
    (vm_add_breakpoint (vm_add_breakpoint vm_create 5) 5).breakpointList = [5, 5] ∧
    (vm_remove_breakpoint (vm_add_breakpoint (vm_add_breakpoint vm_create 5) 5) 5).breakpointList
      = [5] ∧
    vm_at_breakpoint
      { vm_remove_breakpoint (vm_add_breakpoint (vm_add_breakpoint vm_create 5) 5) 5 with
        pc := 5 } = true := by
  decide

/-- C11 (amended) on the list `[5, 7, 9]`: removing 7 leaves `[5, 9]` and no
entry equal to 7. -/
theorem remove_breakpoint_first_witness :
    (vm_remove_breakpoint
        (vm_add_breakpoint (vm_add_breakpoint (vm_add_breakpoint vm_create 5) 7) 9) 7).breakpointList
      = [5, 9] ∧
    7 ∉ (vm_remove_breakpoint
        (vm_add_breakpoint (vm_add_breakpoint (vm_add_breakpoint vm_create 5) 7) 9) 7).breakpointList := by
  have h := remove_breakpoint_first
    (vm_add_breakpoint (vm_add_breakpoint (vm_add_breakpoint vm_create 5) 7) 9) 7
  exact ⟨h.1.trans (by decide), (h.2.2 (by decide)).1⟩

/-- C12: Scenario 2. `vm_load_image` on an existing, empty file returns -1 and
leaves the VM struct (memory, registers, PC, SP, halt flag, cycle count, debug
mode, breakpoints) and the stdio output exactly as they were, apart from the
diagnostic on stderr; in particular a VM in the reset state stays in it. -/
theorem load_empty_file (s : Sys) (filename : List Nat) :
    (vm_load_image s filename (some [])).2 = -1 ∧
    (vm_load_image s filename (some [])).1.vm = s.vm ∧
    (vm_load_image s filename (some [])).1.stdout = s.stdout ∧
    (∀ vm0 : VM,
      (vm_load_image { s with vm := vm_reset vm0 } filename (some [])).1.vm = vm_reset vm0) := by
  have hvm : ∀ t : Sys, (vm_load_image t filename (some [])).1.vm = t.vm := by
    intro t
    have hram : memcpy_ram t.vm.ram [] 0 = t.vm.ram := by
      funext a
      simp only [memcpy_ram, Nat.not_lt_zero, if_false]
    simp only [vm_load_image, List.length_nil, Nat.zero_min, if_true, hram]
  refine ⟨?_, hvm s, ?_, fun vm0 => hvm _⟩
  · simp only [vm_load_image, List.length_nil, Nat.zero_min, if_true]
  · simp only [vm_load_image, List.length_nil, Nat.zero_min, if_true]

end VM8

/-! ## The claims about the 64-bit machine -/

namespace X64

open VM8 (setAt text fmtHex fmtDec)

theorem storeAt_inside (ram : Nat → Nat) (base : Nat) (data : List Nat) (i : Nat)
    (hi : i < data.length) : storeAt ram base data (base + i) = data.getD i 0 := by
  have h : base ≤ base + i ∧ base + i < base + data.length := by omega
  simp only [storeAt, if_pos h, Nat.add_sub_cancel_left]

theorem storeAt_outside (ram : Nat → Nat) (base : Nat) (data : List Nat) (a : Nat)
    (ha : a < base ∨ base + data.length ≤ a) : storeAt ram base data a = ram a := by
  have h : ¬ (base ≤ a ∧ a < base + data.length) := by omega
  simp only [storeAt, if_neg h]

/-- C13: for every byte sequence (of a length `ftell` can report) and every
base address with `base >= 8 MiB` or `base + len(bytes) > 8 MiB`,
`vm64_load_image` returns -1 and leaves the whole VM struct, memory image and
RIP included, unchanged; nothing is printed on stdout and no host call is
logged. -/
theorem load64_failure_atomic (s : Sys64) (filename bytes : List Nat) (base : Nat)
    (hlen : bytes.length < 2 ^ 63)
    (hrange : base ≥ VM64_RAM_SIZE ∨ base + bytes.length > VM64_RAM_SIZE) :
    (vm64_load_image s filename (some bytes) base).2 = -1 ∧
    (vm64_load_image s filename (some bytes) base).1.vm = s.vm ∧
    (vm64_load_image s filename (some bytes) base).1.stdout = s.stdout ∧
    (vm64_load_image s filename (some bytes) base).1.calls = s.calls := by
  by_cases hb : base ≥ VM64_RAM_SIZE
  · simp only [vm64_load_image, if_pos hb, and_self]
  · have hsum : bytes.length ≤ 0 ∨ (base + bytes.length) % 2 ^ 64 > VM64_RAM_SIZE := by
      right
      have hb' : base < VM64_RAM_SIZE := Nat.lt_of_not_le hb
      have hlarge : base + bytes.length > VM64_RAM_SIZE := by
        rcases hrange with h | h
        · exact absurd h hb
        · exact h
      unfold VM64_RAM_SIZE at hb' hlarge ⊢
      omega
    simp only [vm64_load_image, if_neg hb, if_pos hsum, and_self]

/-- C13 on a fresh VM64: three bytes at base 8 MiB - 2 do not fit. -/
theorem load64_failure_atomic_witness :
    (vm64_load_image (boot64 vm64_create) (text "a.bin") (some [1, 2, 3])
        (VM64_RAM_SIZE - 2)).2 = -1 ∧
    (vm64_load_image (boot64 vm64_create) (text "a.bin") (some [1, 2, 3])
        (VM64_RAM_SIZE - 2)).1.vm = vm64_create := by
  have h := load64_failure_atomic (boot64 vm64_create) (text "a.bin") [1, 2, 3]
    (VM64_RAM_SIZE - 2) (by decide) (by decide)
  exact ⟨h.1, h.2.1⟩

/-- C14: for every non-empty byte sequence and base with
`base + len(bytes) <= 8 MiB`, `vm64_load_image` returns 0; afterwards
`ram[base + i] = bytes[i]` for all `i < len(bytes)`, every memory byte outside
`[base, base + len)` is unchanged, and `RIP = base`. -/
theorem load64_success (s : Sys64) (filename bytes : List Nat) (base : Nat)
    (hne : bytes ≠ []) (hfit : base + bytes.length ≤ VM64_RAM_SIZE) :
    (vm64_load_image s filename (some bytes) base).2 = 0 ∧
    (∀ i, i < bytes.length →
      (vm64_load_image s filename (some bytes) base).1.vm.ram (base + i) = bytes.getD i 0) ∧
    (∀ a, a < base ∨ base + bytes.length ≤ a →
      (vm64_load_image s filename (some bytes) base).1.vm.ram a = s.vm.ram a) ∧
    (vm64_load_image s filename (some bytes) base).1.vm.rip = base := by
  have hpos : 0 < bytes.length := List.length_pos.mpr hne
  have hb : ¬ (base ≥ VM64_RAM_SIZE) := by omega
  have hsum : ¬ (bytes.length ≤ 0 ∨ (base + bytes.length) % 2 ^ 64 > VM64_RAM_SIZE) := by
    unfold VM64_RAM_SIZE at hfit ⊢
    omega
  simp only [vm64_load_image, if_neg hb, if_neg hsum, List.take_length, ne_eq,
    not_true_eq_false, if_false, true_and]
  exact ⟨fun i hi => storeAt_inside _ _ _ _ hi, fun a ha => storeAt_outside _ _ _ _ ha, trivial⟩

/-- C14 on a fresh VM64: three bytes loaded at the default base 0x400000. -/
theorem load64_success_witness :
    (vm64_load_image (boot64 vm64_create) (text "a.bin") (some [1, 2, 3]) 0x400000).2 = 0 ∧
    (vm64_load_image (boot64 vm64_create) (text "a.bin") (some [1, 2, 3]) 0x400000).1.vm.rip =
      0x400000 := by
  have h := load64_success (boot64 vm64_create) (text "a.bin") [1, 2, 3] 0x400000 (by decide)
    (by decide)
  exact ⟨h.1, h.2.2.2⟩

end X64

namespace X64

open VM8 (setAt text fmtHex fmtDec)

/-! ## Stepping lemmas of the 64-bit machine -/

theorem exec64_running (n : SyscallNumbers) (host : Host) (s : Sys64)
    (hh : s.vm.halted = false) (hrip : s.vm.rip < VM64_RAM_SIZE) :
    vm64_execute_one n host s =
      dispatch n host (s.vm.ram s.vm.rip)
        { s with vm := s.vm.fetch
                 stdout := s.stdout ++ debugLine s.vm.fetch (s.vm.ram s.vm.rip) } := by
  have h : ¬ (s.vm.halted = true ∨ s.vm.rip ≥ VM64_RAM_SIZE) := by
    rintro (h | h)
    · rw [hh] at h; exact Bool.noConfusion h
    · exact absurd hrip (Nat.not_lt.mpr h)
  simp only [vm64_execute_one, if_neg h]

theorem exec64_stopped (n : SyscallNumbers) (host : Host) (s : Sys64)
    (h : s.vm.halted = true ∨ s.vm.rip ≥ VM64_RAM_SIZE) :
    vm64_execute_one n host s = s.onVM VM64.halt := by
  simp only [vm64_execute_one, if_pos h]

theorem dispatch_SYSCALL (n : SyscallNumbers) (host : Host) (s : Sys64) :
    dispatch n host X64_SYSCALL s = vm64_syscall_handler n host s := rfl

theorem fetch_rip (vm : VM64) (h : vm.rip < VM64_RAM_SIZE) : vm.fetch.rip = vm.rip + 1 := by
  unfold VM64_RAM_SIZE at h
  show (vm.rip + 1) % 2 ^ 64 = vm.rip + 1
  omega

/-- One step over the `SYSCALL` opcode hands the fetched state to the shim. -/
theorem step_SYSCALL (n : SyscallNumbers) (host : Host) (s : Sys64)
    (hh : s.vm.halted = false) (hrip : s.vm.rip < VM64_RAM_SIZE)
    (hop : s.vm.ram s.vm.rip = X64_SYSCALL) :
    vm64_execute_one n host s =
      vm64_syscall_handler n host
        { s with vm := s.vm.fetch, stdout := s.stdout ++ debugLine s.vm.fetch X64_SYSCALL } := by
  rw [exec64_running n host s hh hrip, hop, dispatch_SYSCALL]

theorem toU64_neg_one : toU64 (-1) = 2 ^ 64 - 1 := by decide

theorem toU64_two : toU64 2 = 2 := by decide

theorem toInt32_one : toInt32 1 = 1 := by decide

/-- C15: Scenario 3. In a non-halted state with the `SYSCALL` opcode at RIP,
RAX = the write syscall number, RDI = 1, RSI = an address `a` with
`ram[a..a+1] = "HI"` inside memory and RDX = 2, on a host whose `write` to
descriptor 1 accepts all bytes, one step makes exactly the host call
`write(1, "HI")`, so that "HI" is appended to what descriptor 1 received (stdio
prints nothing but the debug line of debug mode), sets RAX = 2, leaves the halt
flag clear and advances RIP by exactly 1. -/
theorem scenario3_write (n : SyscallNumbers) (host : Host) (s : Sys64) (a : Nat)
    (hh : s.vm.halted = false) (hrip : s.vm.rip < VM64_RAM_SIZE)
    (hop : s.vm.ram s.vm.rip = X64_SYSCALL)
    (hrax : s.vm.regs RAX = n.SYS_write) (hrdi : s.vm.regs RDI = 1)
    (hrsi : s.vm.regs RSI = a) (hrdx : s.vm.regs RDX = 2)
    (ha : a + 2 ≤ VM64_RAM_SIZE) (hH : s.vm.ram a = 0x48) (hI : s.vm.ram (a + 1) = 0x49)
    (hhost : ∀ (log : List HostCall) (data : List Nat), host.write log 1 data = data.length) :
    (vm64_execute_one n host s).calls = s.calls ++ [HostCall.write 1 a [0x48, 0x49] 2] ∧
    (vm64_execute_one n host s).fdWritten 1 = s.fdWritten 1 ++ [0x48, 0x49] ∧
    (vm64_execute_one n host s).stdout = s.stdout ++ debugLine s.vm.fetch X64_SYSCALL ∧
    (vm64_execute_one n host s).vm.regs RAX = 2 ∧
    (vm64_execute_one n host s).vm.halted = false ∧
    (vm64_execute_one n host s).vm.rip = s.vm.rip + 1 := by
  have hsum : ¬ ((a + 2) % 2 ^ 64 > VM64_RAM_SIZE) := by
    unfold VM64_RAM_SIZE at ha ⊢
    omega
  have e0 : (a + 0) % 2 ^ 64 = a := by
    unfold VM64_RAM_SIZE at ha
    omega
  have e1 : (a + 1) % 2 ^ 64 = a + 1 := by
    unfold VM64_RAM_SIZE at ha
    omega
  have hdata : bytesAt s.vm.ram a 2 = [0x48, 0x49] := by
    show [s.vm.ram ((a + 0) % 2 ^ 64), s.vm.ram ((a + 1) % 2 ^ 64)] = [0x48, 0x49]
    rw [e0, e1, hH, hI]
  have hstep : vm64_execute_one n host s =
      { s with
        vm := s.vm.fetch.setReg RAX 2
        stdout := s.stdout ++ debugLine s.vm.fetch X64_SYSCALL
        calls := s.calls ++ [HostCall.write 1 a [0x48, 0x49] 2] } := by
    rw [step_SYSCALL n host s hh hrip hop]
    have hrax' : s.vm.fetch.regs RAX = n.SYS_write := hrax
    simp only [vm64_syscall_handler, hrax', if_true, sys_write]
    have hrdi' : s.vm.fetch.regs RDI = 1 := hrdi
    have hrsi' : s.vm.fetch.regs RSI = a := hrsi
    have hrdx' : s.vm.fetch.regs RDX = 2 := hrdx
    have hram : s.vm.fetch.ram = s.vm.ram := rfl
    simp only [hrdi', hrsi', hrdx', hram, if_neg hsum, hdata, toInt32_one, hhost,
      List.length_cons, List.length_nil]
    rfl
  rw [hstep]
  refine ⟨rfl, ?_, rfl, ?_, hh, fetch_rip s.vm hrip⟩
  · simp only [Sys64.fdWritten, List.map_append, List.flatten_append, List.map_cons,
      List.map_nil, List.flatten_cons, List.flatten_nil, List.append_nil]
    rfl
  · simp only [VM64.setReg, setAt, if_true]

/-- C15 on Scenario 3 itself, with Linux numbers and the accepting host. -/
theorem scenario3_write_witness :
    (vm64_execute_one linux_x86_64 acceptingHost scenario3).fdWritten 1 = [0x48, 0x49] ∧
    (vm64_execute_one linux_x86_64 acceptingHost scenario3).vm.regs RAX = 2 ∧
    (vm64_execute_one linux_x86_64 acceptingHost scenario3).vm.halted = false ∧
    (vm64_execute_one linux_x86_64 acceptingHost scenario3).vm.rip = 1 := by
  have h := scenario3_write linux_x86_64 acceptingHost scenario3 0x100 (by decide) (by decide)
    (by decide) (by decide) (by decide) (by decide) (by decide) (by decide) (by decide)
    (by decide) (fun _ _ => rfl)
  exact ⟨h.2.1, h.2.2.2.1, h.2.2.2.2.1, h.2.2.2.2.2⟩

end X64

namespace X64

open VM8 (setAt text fmtHex fmtDec)

/-- C16: the range checks of the shim miss two kinds of arguments, shown on a
fresh VM64 with Linux numbers.  With `RSI = 2^64 - 1`, `RDX = 1` the byte range
is far outside the 8 MiB image, but `buf_addr + count` wraps to 0 in
`uint64_t`: `write` and `read` reach the host with that address and RAX gets
the host's answer, not -1.  With `RDI = 8 MiB - 1` pointing at a non-NUL last
byte the file name is not terminated inside the image, but only its start is
checked: `open` reaches the host and RAX gets its descriptor. -/
theorem syscall_range_check_gaps :
    ((vm64_execute_one linux_x86_64 acceptingHost
        (syscallState linux_x86_64.SYS_write 1 (2 ^ 64 - 1) 1 [])).calls =
        [HostCall.write 1 (2 ^ 64 - 1) [0] 1] ∧
      (vm64_execute_one linux_x86_64 acceptingHost
        (syscallState linux_x86_64.SYS_write 1 (2 ^ 64 - 1) 1 [])).vm.regs RAX = 1) ∧
    ((vm64_execute_one linux_x86_64 acceptingHost
        (syscallState linux_x86_64.SYS_read 0 (2 ^ 64 - 1) 1 [])).calls =
        [HostCall.read 0 (2 ^ 64 - 1) 1 0] ∧
      (vm64_execute_one linux_x86_64 acceptingHost
        (syscallState linux_x86_64.SYS_read 0 (2 ^ 64 - 1) 1 [])).vm.regs RAX = 0) ∧
    (terminated
        (syscallState linux_x86_64.SYS_open (VM64_RAM_SIZE - 1) 0 0
          [(VM64_RAM_SIZE - 1, 0x61)]).vm.ram (VM64_RAM_SIZE - 1) 1 = false ∧
      (vm64_execute_one linux_x86_64 openingHost
        (syscallState linux_x86_64.SYS_open (VM64_RAM_SIZE - 1) 0 0
          [(VM64_RAM_SIZE - 1, 0x61)])).calls = [HostCall.openFile (VM64_RAM_SIZE - 1) 0 3] ∧
      (vm64_execute_one linux_x86_64 openingHost
        (syscallState linux_x86_64.SYS_open (VM64_RAM_SIZE - 1) 0 0
          [(VM64_RAM_SIZE - 1, 0x61)])).vm.regs RAX = 3) := by
  decide

/-! ## Frame of the syscall shim -/

theorem sys_write_frame (host : Host) (s : Sys64) :
    (sys_write host s).vm.halted = s.vm.halted ∧ (sys_write host s).vm.ram = s.vm.ram ∧
    (sys_write host s).vm.rip = s.vm.rip ∧
    ∀ r, r ≠ RAX → (sys_write host s).vm.regs r = s.vm.regs r := by
  simp only [sys_write]
  split_ifs <;>
    exact ⟨rfl, rfl, rfl, fun r hr => by simp only [Sys64.onVM, VM64.setReg, setAt, if_neg hr]⟩

/-- With all bytes inside the image the host's store is the store of the
bytes at `&ram[buf_addr]` and nothing else. -/
theorem hostStore_inside (host : Host) (data : List Nat) :
    ∀ (vm : VM64) (buf_addr : Nat), buf_addr + data.length ≤ VM64_RAM_SIZE →
      hostStore host vm buf_addr data = { vm with ram := storeAt vm.ram buf_addr data } := by
  induction data with
  | nil =>
    intro vm buf_addr _
    have e : storeAt vm.ram buf_addr [] = vm.ram := by
      funext a
      have h : ¬ (buf_addr ≤ a ∧ a < buf_addr + ([] : List Nat).length) := by
        simp only [List.length_nil]
        omega
      simp only [storeAt, if_neg h]
    rw [e]
    rfl
  | cons b rest ih =>
    intro vm buf_addr h
    simp only [List.length_cons] at h
    unfold VM64_RAM_SIZE at h
    have hin : buf_addr % 2 ^ 64 < VM64_RAM_SIZE := by
      unfold VM64_RAM_SIZE
      omega
    have hmod : buf_addr % 2 ^ 64 = buf_addr := Nat.mod_eq_of_lt (by omega)
    have e : storeAt (setAt vm.ram buf_addr b) (buf_addr + 1) rest =
        storeAt vm.ram buf_addr (b :: rest) := by
      funext a
      simp only [storeAt, setAt, List.length_cons]
      by_cases h1 : a = buf_addr
      · subst h1
        have h2 : ¬ (a + 1 ≤ a ∧ a < a + 1 + rest.length) := by omega
        have h3 : a ≤ a ∧ a < a + (rest.length + 1) := by omega
        simp only [if_neg h2, if_pos h3, if_true, Nat.sub_self, List.getD_cons_zero]
      · by_cases h2 : buf_addr + 1 ≤ a ∧ a < buf_addr + 1 + rest.length
        · have h3 : buf_addr ≤ a ∧ a < buf_addr + (rest.length + 1) := by omega
          have h4 : a - buf_addr = (a - (buf_addr + 1)) + 1 := by omega
          simp only [if_pos h2, if_pos h3, h4, List.getD_cons_succ]
        · have h3 : ¬ (buf_addr ≤ a ∧ a < buf_addr + (rest.length + 1)) := by omega
          simp only [if_neg h2, if_neg h3, if_neg h1]
    show hostStore host (hostStoreByte host vm (buf_addr % 2 ^ 64) b) (buf_addr + 1) rest = _
    unfold hostStoreByte
    rw [if_pos hin, hmod, ih _ _ (by unfold VM64_RAM_SIZE; omega)]
    show ({ vm with ram := storeAt (setAt vm.ram buf_addr b) (buf_addr + 1) rest } : VM64) = _
    rw [e]

/-- Three bytes stored from index `2^64 - 1` on: the first lands outside the
image, where the host has that address, the other two wrap to `ram[0]` and
`ram[1]`. -/
theorem hostStore_wraps (host : Host) (vm : VM64) (b0 b1 b2 : Nat) :
    hostStore host vm (2 ^ 64 - 1) [b0, b1, b2] =
      { host.stray (2 ^ 64 - 1) b0 vm with
        ram := setAt (setAt (host.stray (2 ^ 64 - 1) b0 vm).ram 0 b1) 1 b2 } := by
  rfl

/-- A field of the struct that a store into the image leaves alone keeps its
value through the host's store, when all bytes stay inside the image or when
the host's stores outside the image leave that field alone too. -/
theorem hostStore_keeps {α : Type} (f : VM64 → α) (host : Host)
    (hset : ∀ (vm : VM64) (a b : Nat), f { vm with ram := setAt vm.ram a b } = f vm)
    (data : List Nat) :
    ∀ (vm : VM64) (buf_addr : Nat),
      (buf_addr + data.length ≤ VM64_RAM_SIZE ∨ ∀ a b vm, f (host.stray a b vm) = f vm) →
      f (hostStore host vm buf_addr data) = f vm := by
  induction data with
  | nil => intro vm buf_addr _; rfl
  | cons b rest ih =>
    intro vm buf_addr h
    show f (hostStore host (hostStoreByte host vm (buf_addr % 2 ^ 64) b) (buf_addr + 1) rest) = _
    have hrest : buf_addr + 1 + rest.length ≤ VM64_RAM_SIZE ∨
        ∀ a b vm, f (host.stray a b vm) = f vm := by
      rcases h with h | h
      · exact Or.inl (by simp only [List.length_cons] at h; omega)
      · exact Or.inr h
    rw [ih _ _ hrest]
    unfold hostStoreByte
    split_ifs with hin
    · exact hset vm _ b
    · rcases h with h | h
      · simp only [List.length_cons] at h
        unfold VM64_RAM_SIZE at h hin
        omega
      · exact h _ b vm

/-- A field of the struct other than `ram` and `regs[RAX]` keeps its value
through the case `SYS_read`, when `buf_addr + count` does not wrap in 64 bits
(the range check then lets only a buffer inside the image pass) or when the
host's stores outside the image leave that field alone. -/
theorem sys_read_keeps {α : Type} (f : VM64 → α) (host : Host) (s : Sys64)
    (hset : ∀ (vm : VM64) (a b : Nat), f { vm with ram := setAt vm.ram a b } = f vm)
    (hreg : ∀ (vm : VM64) (v : Nat), f (vm.setReg RAX v) = f vm)
    (hsafe : s.vm.regs RSI + s.vm.regs RDX < 2 ^ 64 ∨
      ∀ a b vm, f (host.stray a b vm) = f vm) :
    f (sys_read host s).vm = f s.vm := by
  unfold sys_read
  simp only
  split_ifs with hchk
  · exact hreg s.vm _
  · cases host.read s.calls (toInt32 (s.vm.regs RDI)) (s.vm.regs RDX) with
    | none => exact hreg s.vm _
    | some data =>
      show f ((hostStore host s.vm (s.vm.regs RSI) (data.take (s.vm.regs RDX))).setReg RAX _) = _
      rw [hreg]
      refine hostStore_keeps f host hset _ s.vm _ ?_
      rcases hsafe with h | h
      · refine Or.inl ?_
        have hl : (data.take (s.vm.regs RDX)).length ≤ s.vm.regs RDX := by
          rw [List.length_take]
          exact Nat.min_le_left _ _
        rw [Nat.mod_eq_of_lt h] at hchk
        omega
      · exact Or.inr h

theorem sys_open_frame (host : Host) (s : Sys64) :
    (sys_open host s).vm.halted = s.vm.halted ∧ (sys_open host s).vm.ram = s.vm.ram ∧
    (sys_open host s).vm.rip = s.vm.rip ∧
    ∀ r, r ≠ RAX → (sys_open host s).vm.regs r = s.vm.regs r := by
  simp only [sys_open]
  split_ifs <;>
    exact ⟨rfl, rfl, rfl, fun r hr => by simp only [Sys64.onVM, VM64.setReg, setAt, if_neg hr]⟩

/-- Outside `exit` and `exit_group` the shim leaves the halt flag as it was,
when `buf_addr + count` of a `read` does not wrap in 64 bits or the host's
stores outside the image leave the flag alone. -/
theorem handler_halted_of_not_exit (n : SyscallNumbers) (host : Host) (s : Sys64)
    (h1 : s.vm.regs RAX ≠ n.SYS_exit) (h2 : s.vm.regs RAX ≠ n.SYS_exit_group)
    (hsafe : s.vm.regs RAX = n.SYS_read →
      s.vm.regs RSI + s.vm.regs RDX < 2 ^ 64 ∨
        ∀ a b vm, (host.stray a b vm).halted = vm.halted) :
    (vm64_syscall_handler n host s).vm.halted = s.vm.halted := by
  simp only [vm64_syscall_handler, if_neg h1, if_neg h2]
  split_ifs with hw hr
  · exact (sys_write_frame host s).1
  · exact sys_read_keeps (fun vm => vm.halted) host s (fun _ _ _ => rfl) (fun _ _ => rfl)
      (hsafe hr)
  · exact (sys_open_frame host s).1
  all_goals rfl

/-- With RAX = `exit` or `exit_group` the shim only sets the halt flag. -/
theorem handler_exit (n : SyscallNumbers) (host : Host) (s : Sys64) (hd : n.Distinct)
    (h : s.vm.regs RAX = n.SYS_exit ∨ s.vm.regs RAX = n.SYS_exit_group) :
    vm64_syscall_handler n host s = s.onVM VM64.halt := by
  simp only [SyscallNumbers.Distinct, SyscallNumbers.labels, List.nodup_cons, List.mem_cons,
    List.mem_singleton, not_or, List.not_mem_nil, not_false_eq_true, List.nodup_nil,
    and_true] at hd
  obtain ⟨⟨_, hwe, hwg, _⟩, ⟨hre, hrg, _⟩, _⟩ := hd
  rcases h with h | h
  · have a1 : ¬ (s.vm.regs RAX = n.SYS_write) := fun e => hwe (e.symm.trans h)
    have a2 : ¬ (s.vm.regs RAX = n.SYS_read) := fun e => hre (e.symm.trans h)
    simp only [vm64_syscall_handler, if_neg a1, if_neg a2, if_pos h]
  · have a1 : ¬ (s.vm.regs RAX = n.SYS_write) := fun e => hwg (e.symm.trans h)
    have a2 : ¬ (s.vm.regs RAX = n.SYS_read) := fun e => hrg (e.symm.trans h)
    simp only [vm64_syscall_handler, if_neg a1, if_neg a2, if_pos h, ite_self]

/-- With RAX outside the nine labels the shim takes its `default` case. -/
theorem handler_default (n : SyscallNumbers) (host : Host) (s : Sys64)
    (h : s.vm.regs RAX ∉ n.labels) :
    vm64_syscall_handler n host s = sys_default (s.vm.regs RAX) s := by
  simp only [SyscallNumbers.labels, List.mem_cons, List.not_mem_nil, or_false, not_or] at h
  obtain ⟨h1, h2, h3, h4, h5, h6, h7, h8, h9⟩ := h
  simp only [vm64_syscall_handler, if_neg h1, if_neg h2, if_neg h3, if_neg h4, if_neg h5,
    if_neg h6, if_neg h7, if_neg h8, if_neg h9]

end X64

namespace X64

open VM8 (setAt text fmtHex fmtDec)

/-- C17: in a non-halted state with the `SYSCALL` opcode at RIP and RAX not
one of the nine supported numbers, one step sets RAX to `2^64 - 1`, leaves
every other register and all memory unchanged, makes no host call, does not set
the halt flag and moves RIP to the next instruction. -/
theorem unknown_syscall (n : SyscallNumbers) (host : Host) (s : Sys64)
    (hh : s.vm.halted = false) (hrip : s.vm.rip < VM64_RAM_SIZE)
    (hop : s.vm.ram s.vm.rip = X64_SYSCALL) (hunk : s.vm.regs RAX ∉ n.labels) :
    (vm64_execute_one n host s).vm.regs RAX = 2 ^ 64 - 1 ∧
    (∀ r, r ≠ RAX → (vm64_execute_one n host s).vm.regs r = s.vm.regs r) ∧
    (vm64_execute_one n host s).vm.ram = s.vm.ram ∧
    (vm64_execute_one n host s).calls = s.calls ∧
    (vm64_execute_one n host s).vm.halted = false ∧
    (vm64_execute_one n host s).vm.rip = s.vm.rip + 1 := by
  obtain ⟨s1, hstep, hvm, hcalls⟩ : ∃ s1 : Sys64,
      vm64_execute_one n host s = vm64_syscall_handler n host s1 ∧ s1.vm = s.vm.fetch ∧
        s1.calls = s.calls := ⟨_, step_SYSCALL n host s hh hrip hop, rfl, rfl⟩
  have hunk1 : s1.vm.regs RAX ∉ n.labels := by rw [hvm]; exact hunk
  rw [hstep, handler_default n host s1 hunk1]
  refine ⟨?_, fun r hr => ?_, ?_, hcalls, ?_, ?_⟩
  · simp only [sys_default, VM64.setReg, setAt, if_true, toU64_neg_one]
  · simp only [sys_default, VM64.setReg, setAt, if_neg hr, hvm]
    rfl
  · simp only [sys_default, VM64.setReg, hvm]
    rfl
  · simp only [sys_default, VM64.setReg, hvm]
    exact hh
  · simp only [sys_default, VM64.setReg, hvm]
    exact fetch_rip s.vm hrip

/-- C17 with Linux numbers and RAX = 999. -/
theorem unknown_syscall_witness :
    (vm64_execute_one linux_x86_64 acceptingHost (syscallState 999 1 0 1 [])).vm.regs RAX =
      2 ^ 64 - 1 ∧
    (vm64_execute_one linux_x86_64 acceptingHost (syscallState 999 1 0 1 [])).vm.halted =
      false := by
  have h := unknown_syscall linux_x86_64 acceptingHost (syscallState 999 1 0 1 []) (by decide)
    (by decide) (by decide) (by decide)
  exact ⟨h.1, h.2.2.2.2.1⟩

/-- C18: the halt flag after a `SYSCALL` step.  The claim fails on a `read`
whose range check wraps: with Linux numbers, RAX = `read`, RSI = `2^64 - 0x1000
+ 156` and RDX = `0x1000 - 156` the sum is 0 in `uint64_t`, the check passes,
and on a host that has the struct 0x1000 bytes before the image and delivers
one byte 0xFF the byte lands on `vm->halted`: the step ends halted with RAX = 1,
though RAX was neither `exit` nor `exit_group`.  What holds for every host,
every table of pairwise different numbers and every non-halted state with the
`SYSCALL` opcode at RIP: with RAX = `exit` or `exit_group` the step sets the
halt flag and changes no register and no memory byte; and when `buf_addr +
count` of a `read` does not wrap in 64 bits (or the host's stores outside the
image leave the flag alone), the step sets the halt flag if and only if RAX is
the `exit` or the `exit_group` number. -/
theorem syscall_halts_iff_exit :
    ((readOntoHalted.vm.halted = false ∧
        readOntoHalted.vm.ram readOntoHalted.vm.rip = X64_SYSCALL ∧
        readOntoHalted.vm.regs RAX = linux_x86_64.SYS_read ∧
        readOntoHalted.vm.regs RAX ≠ linux_x86_64.SYS_exit ∧
        readOntoHalted.vm.regs RAX ≠ linux_x86_64.SYS_exit_group ∧
        (readOntoHalted.vm.regs RSI + readOntoHalted.vm.regs RDX) % 2 ^ 64 = 0) ∧
      (vm64_execute_one linux_x86_64 (strayHost 0x1000) readOntoHalted).vm.halted = true ∧
      (vm64_execute_one linux_x86_64 (strayHost 0x1000) readOntoHalted).calls =
        [HostCall.read 0 (2 ^ 64 - 0x1000 + 156) (0x1000 - 156) 1] ∧
      (vm64_execute_one linux_x86_64 (strayHost 0x1000) readOntoHalted).vm.regs RAX = 1) ∧
    (∀ (n : SyscallNumbers) (host : Host) (s : Sys64), n.Distinct → s.vm.halted = false →
      s.vm.rip < VM64_RAM_SIZE → s.vm.ram s.vm.rip = X64_SYSCALL →
      (s.vm.regs RAX = n.SYS_exit ∨ s.vm.regs RAX = n.SYS_exit_group →
        (vm64_execute_one n host s).vm.halted = true ∧
        (vm64_execute_one n host s).vm.regs = s.vm.regs ∧
        (vm64_execute_one n host s).vm.ram = s.vm.ram) ∧
      ((s.vm.regs RAX = n.SYS_read →
          s.vm.regs RSI + s.vm.regs RDX < 2 ^ 64 ∨
            ∀ a b vm, (host.stray a b vm).halted = vm.halted) →
        ((vm64_execute_one n host s).vm.halted = true ↔
          s.vm.regs RAX = n.SYS_exit ∨ s.vm.regs RAX = n.SYS_exit_group))) := by
  refine ⟨by decide, fun n host s hd hh hrip hop => ?_⟩
  obtain ⟨s1, hstep, hvm⟩ : ∃ s1 : Sys64,
      vm64_execute_one n host s = vm64_syscall_handler n host s1 ∧ s1.vm = s.vm.fetch :=
    ⟨_, step_SYSCALL n host s hh hrip hop, rfl⟩
  have hregs : s1.vm.regs = s.vm.regs := by rw [hvm]; rfl
  have hram : s1.vm.ram = s.vm.ram := by rw [hvm]; rfl
  have hh1 : s1.vm.halted = false := by rw [hvm]; exact hh
  rw [hstep]
  have hexit : s.vm.regs RAX = n.SYS_exit ∨ s.vm.regs RAX = n.SYS_exit_group →
      (vm64_syscall_handler n host s1).vm.halted = true ∧
      (vm64_syscall_handler n host s1).vm.regs = s.vm.regs ∧
      (vm64_syscall_handler n host s1).vm.ram = s.vm.ram := by
    intro he
    rw [handler_exit n host s1 hd (by rw [hregs]; exact he)]
    exact ⟨rfl, hregs, hram⟩
  refine ⟨hexit, fun hsafe => ⟨fun hhalt => ?_, fun he => (hexit he).1⟩⟩
  by_cases h1 : s.vm.regs RAX = n.SYS_exit
  · exact Or.inl h1
  · by_cases h2 : s.vm.regs RAX = n.SYS_exit_group
    · exact Or.inr h2
    · rw [handler_halted_of_not_exit n host s1 (by rw [hregs]; exact h1)
        (by rw [hregs]; exact h2) (by rw [hregs]; exact hsafe), hh1] at hhalt
      exact Bool.noConfusion hhalt

/-- C18 with Linux numbers on the accepting host: with RAX = 60 (`exit`) the
step halts and keeps the registers; with RAX = 0 (`read`), RSI = 0x100 and
RDX = 2 it does not halt. -/
theorem syscall_halts_iff_exit_witness :
    (vm64_execute_one linux_x86_64 acceptingHost (syscallState 60 1 0 1 [])).vm.halted = true ∧
    (vm64_execute_one linux_x86_64 acceptingHost (syscallState 60 1 0 1 [])).vm.regs =
      (syscallState 60 1 0 1 []).vm.regs ∧
    ¬ (vm64_execute_one linux_x86_64 acceptingHost (syscallState 0 0 0x100 2 [])).vm.halted =
      true := by
  have h := syscall_halts_iff_exit.2 linux_x86_64 acceptingHost (syscallState 60 1 0 1 [])
    (by show linux_x86_64.labels.Nodup; decide) (by decide) (by decide) (by decide)
  have h0 := syscall_halts_iff_exit.2 linux_x86_64 acceptingHost (syscallState 0 0 0x100 2 [])
    (by show linux_x86_64.labels.Nodup; decide) (by decide) (by decide) (by decide)
  exact ⟨(h.1 (Or.inl (by decide))).1, (h.1 (Or.inl (by decide))).2.1,
    fun hhalt => absurd ((h0.2 (fun _ => Or.inl (by decide))).mp hhalt) (by decide)⟩

end X64

namespace X64

open VM8 (setAt text fmtHex fmtDec)

/-- An opcode byte without a `case` reaches the `default` case. -/
theorem dispatch64_default (n : SyscallNumbers) (host : Host) (op : Nat) (s : Sys64)
    (h : op ∉ handled) : dispatch n host op s = case_default op s := by
  simp only [handled, List.mem_cons, List.not_mem_nil, or_false, not_or] at h
  obtain ⟨h1, h2, h3, h4, h5, h6, h7, h8, h9, h10, h11, h12⟩ := h
  unfold dispatch
  rw [if_neg h1, if_neg h2, if_neg h3, if_neg h4, if_neg h5, if_neg h6, if_neg h7, if_neg h8,
    if_neg h9, if_neg h10, if_neg h11, if_neg h12]

/-- C19: on the 8-bit machine a step whose opcode byte is outside the 27
defined opcodes, and on the 64-bit machine a step whose opcode byte has no
handler, sets the halt flag and leaves registers, memory and stack pointer
unchanged (on the 64-bit machine without any host call); the fifteen reserved
opcodes of `X64Opcode` (MUL 0x13 ... RET 0x54) are among those without a
handler. -/
theorem unknown_opcode_halts (s : VM8.Sys) (n : SyscallNumbers) (host : Host) (t : Sys64)
    (h8 : s.vm.ram s.vm.pc ∉ VM8.opcodes) (h64 : t.vm.ram t.vm.rip ∉ handled) :
    ((VM8.vm_execute_one s).vm.halted = true ∧ (VM8.vm_execute_one s).vm.regs = s.vm.regs ∧
      (VM8.vm_execute_one s).vm.ram = s.vm.ram ∧ (VM8.vm_execute_one s).vm.sp = s.vm.sp) ∧
    ((vm64_execute_one n host t).vm.halted = true ∧
      (vm64_execute_one n host t).vm.regs = t.vm.regs ∧
      (vm64_execute_one n host t).vm.ram = t.vm.ram ∧
      (vm64_execute_one n host t).vm.rsp = t.vm.rsp ∧
      (vm64_execute_one n host t).calls = t.calls) ∧
    (∀ op, op ∈ reserved → op ∉ handled) ∧
    reserved = [0x13, 0x14, 0x15, 0x20, 0x21, 0x22, 0x23, 0x24, 0x25, 0x32, 0x41, 0x51, 0x52,
      0x53, 0x54] := by
  refine ⟨?_, ?_, by decide, rfl⟩
  · by_cases hstop : s.vm.halted = true ∨ s.vm.pc ≥ VM8.VM_RAM_SIZE
    · simp only [VM8.vm_execute_one, if_pos hstop]
      exact ⟨rfl, rfl, rfl, rfl⟩
    · simp only [VM8.vm_execute_one, if_neg hstop]
      rw [VM8.dispatch_default _ _ h8]
      exact ⟨rfl, rfl, rfl, rfl⟩
  · by_cases hstop : t.vm.halted = true ∨ t.vm.rip ≥ VM64_RAM_SIZE
    · rw [exec64_stopped n host t hstop]
      exact ⟨rfl, rfl, rfl, rfl, rfl⟩
    · simp only [vm64_execute_one, if_neg hstop]
      rw [dispatch64_default n host _ _ h64]
      exact ⟨rfl, rfl, rfl, rfl, rfl⟩

/-- C19 on the byte 0xFF at PC 0 of a fresh 8-bit VM and on the reserved
opcode MUL (0x13) at RIP 0 of a fresh VM64. -/
theorem unknown_opcode_halts_witness :
    (VM8.vm_execute_one (VM8.boot { VM8.vm_create with ram := VM8.imageOf [0xFF] } [])).vm.halted
      = true ∧
    (vm64_execute_one linux_x86_64 acceptingHost
      (boot64 { vm64_create with ram := fun _ => X64_MUL })).vm.halted = true := by
  have h := unknown_opcode_halts (VM8.boot { VM8.vm_create with ram := VM8.imageOf [0xFF] } [])
    linux_x86_64 acceptingHost (boot64 { vm64_create with ram := fun _ => X64_MUL })
    (by decide) (by decide)
  exact ⟨h.1.1, h.2.1.1⟩

theorem onVM_halt_of_halted8 (s : VM8.Sys) (hs : s.vm.halted = true) :
    s.onVM VM8.VM.halt = s := by
  cases s with
  | mk vm stdin stdout stderr =>
    cases vm with
    | mk ram regs pc sp halted cycle_count debug_mode breakpoints breakpoint_count =>
      simp only at hs
      subst hs
      rfl

theorem onVM_halt_of_halted64 (t : Sys64) (ht : t.vm.halted = true) :
    t.onVM VM64.halt = t := by
  cases t with
  | mk vm stdout stderr calls =>
    cases vm with
    | mk ram regs rip rsp eflags halted cycle_count instruction_count debug_mode =>
      simp only at ht
      subst ht
      rfl

/-- C20: on both machines a step from a state with the halt flag set returns
that state, identical in every field (memory, registers, PC/RIP, SP, counters,
halt flag) and with nothing printed and no host call; hence any number of
further steps changes nothing, the 8-bit `vm_run` returns the state as it is,
and `vm64_run` leaves the VM struct, stderr and the host-call log as they are
(it prints its banner and totals on stdout). -/
theorem halted_is_terminal (s : VM8.Sys) (n : SyscallNumbers) (host : Host) (t : Sys64)
    (hs : s.vm.halted = true) (ht : t.vm.halted = true) :
    VM8.vm_execute_one s = s ∧
    (∀ k, VM8.vm_execute_one^[k] s = s) ∧
    (∀ fuel, VM8.vm_run fuel s = some s) ∧
    vm64_execute_one n host t = t ∧
    (∀ k, (vm64_execute_one n host)^[k] t = t) ∧
    (∀ fuel, ∃ r, vm64_run n host fuel t = some r ∧ r.vm = t.vm ∧ r.stderr = t.stderr ∧
      r.calls = t.calls) := by
  have h8 : VM8.vm_execute_one s = s := by
    rw [VM8.exec_halted s hs]
    exact onVM_halt_of_halted8 s hs
  have h64 : vm64_execute_one n host t = t := by
    rw [exec64_stopped n host t (Or.inl ht)]
    exact onVM_halt_of_halted64 t ht
  refine ⟨h8, fun k => Function.iterate_fixed h8 k, fun fuel => ?_, h64,
    fun k => Function.iterate_fixed h64 k, fun fuel => ?_⟩
  · have hc : ¬ (s.vm.halted = false ∧ s.vm.pc < VM8.VM_RAM_SIZE) := by
      rw [hs]
      exact fun h => Bool.noConfusion h.1
    cases fuel with
    | zero => simp only [VM8.vm_run, VM8.vm_run_loop_zero, if_neg hc, Option.map_some']
    | succ f => simp only [VM8.vm_run, VM8.vm_run_loop_succ, if_neg hc, Option.map_some']
  · have hc : ¬ (t.vm.halted = false ∧ t.vm.rip < VM64_RAM_SIZE) := by
      rw [ht]
      exact fun h => Bool.noConfusion h.1
    have hloop : ∀ u : Sys64, ¬ (u.vm.halted = false ∧ u.vm.rip < VM64_RAM_SIZE) →
        vm64_run_loop n host fuel u = some u := by
      intro u hu
      cases fuel with
      | zero => rw [vm64_run_loop, if_neg hu]
      | succ f => rw [vm64_run_loop, if_neg hu]
    unfold vm64_run
    rw [hloop _ (by exact hc)]
    exact ⟨_, rfl, rfl, rfl, rfl⟩

/-- C20 on a fresh 8-bit VM and a fresh VM64 after their halt flags were set. -/
theorem halted_is_terminal_witness :
    VM8.vm_execute_one (VM8.boot { VM8.vm_create with halted := true } []) =
      VM8.boot { VM8.vm_create with halted := true } [] ∧
    vm64_execute_one linux_x86_64 acceptingHost (boot64 { vm64_create with halted := true }) =
      boot64 { vm64_create with halted := true } := by
  have h := halted_is_terminal (VM8.boot { VM8.vm_create with halted := true } [])
    linux_x86_64 acceptingHost (boot64 { vm64_create with halted := true }) rfl rfl
  exact ⟨h.1, h.2.2.2.1⟩

end X64

namespace VM8

/-! ## Reset and load of the 8-bit machine -/

/-- Claim C25, the part that holds: `vm_reset` gives the state of `vm_create`
in memory, registers, PC, SP, halt flag and cycle count, and keeps
`debug_mode`, the breakpoint table and the breakpoint count of the state it
resets; after `vm_set_debug_mode(vm, 1)` and `vm_add_breakpoint(vm, 6)` on a
fresh VM the reset state is therefore not the state of `vm_create`: debug mode
is still on and the breakpoint at 6 is still stored. -/
theorem reset_keeps_debug_state :
    (∀ vm : VM, vm_reset vm =
      { vm_create with
        debug_mode := vm.debug_mode
        breakpoints := vm.breakpoints
        breakpoint_count := vm.breakpoint_count }) ∧
    vm_reset (vm_add_breakpoint (vm_set_debug_mode vm_create 1) 6) ≠ vm_create ∧
    (vm_reset (vm_add_breakpoint (vm_set_debug_mode vm_create 1) 6)).debug_mode = 1 ∧
    (vm_reset (vm_add_breakpoint (vm_set_debug_mode vm_create 1) 6)).breakpointList = [6] ∧
    vm_create.debug_mode = 0 ∧ vm_create.breakpointList = [] := by
  refine ⟨fun vm => rfl, ?_, rfl, by decide, rfl, by decide⟩
  intro h
  have h1 := congrArg VM.debug_mode h
  exact absurd h1 (by decide)

/-- Claim C29: loading a non-empty byte sequence `b` succeeds: `vm_load_image`
returns 0, sets PC to 0, and memory holds `b[i]` at every address
`i < min(len(b), 65536)`; what lies beyond 65536 bytes is dropped without any
failure, and memory above the loaded bytes, the registers, SP and the streams
are untouched. -/
theorem load_image_nonempty (s : Sys) (filename b : List Nat) (hb : b ≠ []) :
    (vm_load_image s filename (some b)).2 = 0 ∧
    (vm_load_image s filename (some b)).1.vm.pc = 0 ∧
    (∀ i, i < min b.length 65536 →
      some ((vm_load_image s filename (some b)).1.vm.ram i) = b[i]?) ∧
    (∀ i, min b.length 65536 ≤ i →
      (vm_load_image s filename (some b)).1.vm.ram i = s.vm.ram i) ∧
    (vm_load_image s filename (some b)).1.vm.regs = s.vm.regs ∧
    (vm_load_image s filename (some b)).1.vm.sp = s.vm.sp ∧
    (vm_load_image s filename (some b)).1.stderr = s.stderr ∧
    (vm_load_image s filename (some b)).1.stdout = s.stdout := by
  have hlen : 0 < b.length := List.length_pos.mpr hb
  have hne : ¬ min b.length VM_RAM_SIZE = 0 := by unfold VM_RAM_SIZE; omega
  simp only [vm_load_image, if_neg hne]
  refine ⟨trivial, trivial, ?_, ?_, trivial, trivial, trivial, trivial⟩
  · intro i hi
    have hi1 : i < min b.length VM_RAM_SIZE := by unfold VM_RAM_SIZE; omega
    have hi2 : i < b.length := by omega
    simp only [memcpy_ram, if_pos hi1]
    rw [List.getD_eq_getElem _ _ hi2, List.getElem?_eq_getElem hi2]
  · intro i hi
    have hi1 : ¬ i < min b.length VM_RAM_SIZE := by unfold VM_RAM_SIZE; omega
    simp only [memcpy_ram, if_neg hi1]

/-- The two-byte file `41 00` loads into a fresh VM with return value 0. -/
theorem load_image_nonempty_witness :
    [0x41, 0x00] ≠ [] ∧
    (vm_load_image (boot vm_create []) (text "a.bin") (some [0x41, 0x00])).2 = 0 ∧
    (vm_load_image (boot vm_create []) (text "a.bin") (some [0x41, 0x00])).1.vm.pc = 0 :=
  ⟨by decide,
    (load_image_nonempty (boot vm_create []) (text "a.bin") [0x41, 0x00] (by decide)).1,
    (load_image_nonempty (boot vm_create []) (text "a.bin") [0x41, 0x00] (by decide)).2.1⟩

end VM8

namespace X64

open VM8 (setAt text fmtHex fmtDec)

/-! ## Reset of the 64-bit machine -/

/-- Claim C26, the part that holds: `vm64_reset` gives the state of
`vm64_create` in memory, registers, RIP, EFLAGS, halt flag and both counters,
but puts RSP at `VM64_RAM_SIZE - 1` where `vm64_create` puts it at
`VM64_RAM_SIZE - 8`, and keeps `debug_mode`; already the reset of a fresh VM is
not the state of `vm64_create`. -/
theorem reset64_differs_from_create :
    (∀ vm : VM64, vm64_reset vm =
      { vm64_create with rsp := VM64_RAM_SIZE - 1, debug_mode := vm.debug_mode }) ∧
    vm64_reset vm64_create ≠ vm64_create ∧
    (vm64_reset vm64_create).rsp = 0x7FFFFF ∧ vm64_create.rsp = 0x7FFFF8 ∧
    (vm64_reset (vm64_set_debug vm64_create 1)).debug_mode = 1 ∧ vm64_create.debug_mode = 0 := by
  refine ⟨fun vm => rfl, ?_, by decide, by decide, rfl, rfl⟩
  intro h
  have h1 := congrArg VM64.rsp h
  exact absurd h1 (by decide)

end X64

namespace VM8

/-! ## The stack slots of `PUSH` and `POP` -/

theorem range_eight : List.range 8 = [0, 1, 2, 3, 4, 5, 6, 7] := by decide

/-- The byte that the loop of `PUSH` leaves at offset `i` of the slot. -/
theorem pushBytes_inside (ram : Nat → Nat) (sp val i : Nat) (hi : i < 8) :
    pushBytes ram sp val (sp + i) = val / 2 ^ (56 - i * 8) % 256 := by
  unfold pushBytes
  rw [range_eight]
  simp only [List.foldl, and_FF, Nat.shiftRight_eq_div_pow]
  interval_cases i <;> simp [setAt]

/-- The loop of `PUSH` writes nothing outside the eight bytes of the slot. -/
theorem pushBytes_outside (ram : Nat → Nat) (sp val a : Nat) (h : a < sp ∨ sp + 8 ≤ a) :
    pushBytes ram sp val a = ram a := by
  unfold pushBytes
  rw [range_eight]
  have h0 : ¬ a = sp + 0 := by omega
  have h1 : ¬ a = sp + 1 := by omega
  have h2 : ¬ a = sp + 2 := by omega
  have h3 : ¬ a = sp + 3 := by omega
  have h4 : ¬ a = sp + 4 := by omega
  have h5 : ¬ a = sp + 5 := by omega
  have h6 : ¬ a = sp + 6 := by omega
  have h7 : ¬ a = sp + 7 := by omega
  simp only [List.foldl, setAt, if_neg h0, if_neg h1, if_neg h2, if_neg h3, if_neg h4, if_neg h5,
    if_neg h6, if_neg h7]

theorem shl8_mod_or (acc b : Nat) (hb : b < 256) :
    ((acc <<< 8) % 2 ^ 64) ||| b = (acc * 256) % 2 ^ 64 + b := by
  have e : (acc <<< 8) % 2 ^ 64 = 2 ^ 8 * (acc % 2 ^ 56) := by
    rw [Nat.shiftLeft_eq]; omega
  rw [e, or_eq_add 8 _ b (by omega)]
  omega

/-- Eight bytes, most significant first, decode to the 64-bit value they
encode: the loop of `POP` inverts the loop of `PUSH`. -/
theorem popBytes_bytes (ram : Nat → Nat) (sp val : Nat) (hval : val < 2 ^ 64)
    (h : ∀ i, i < 8 → ram (sp + i) = val / 2 ^ (56 - i * 8) % 256) :
    popBytes ram sp = val := by
  unfold popBytes
  rw [range_eight]
  have b0 := h 0 (by omega)
  have b1 := h 1 (by omega)
  have b2 := h 2 (by omega)
  have b3 := h 3 (by omega)
  have b4 := h 4 (by omega)
  have b5 := h 5 (by omega)
  have b6 := h 6 (by omega)
  have b7 := h 7 (by omega)
  norm_num at b0 b1 b2 b3 b4 b5 b6 b7
  simp only [List.foldl, Nat.add_zero, b0, b1, b2, b3, b4, b5, b6, b7]
  rw [shl8_mod_or _ _ (Nat.mod_lt _ (by decide)), shl8_mod_or _ _ (Nat.mod_lt _ (by decide)),
    shl8_mod_or _ _ (Nat.mod_lt _ (by decide)), shl8_mod_or _ _ (Nat.mod_lt _ (by decide)),
    shl8_mod_or _ _ (Nat.mod_lt _ (by decide)), shl8_mod_or _ _ (Nat.mod_lt _ (by decide)),
    shl8_mod_or _ _ (Nat.mod_lt _ (by decide)), shl8_mod_or _ _ (Nat.mod_lt _ (by decide))]
  omega

theorem popBytes_pushBytes (ram : Nat → Nat) (sp val : Nat) (hval : val < 2 ^ 64) :
    popBytes (pushBytes ram sp val) sp = val :=
  popBytes_bytes _ sp val hval fun i hi => pushBytes_inside ram sp val i hi

end VM8

namespace VM8

/-- One step over a `PUSH reg` that lies inside memory. -/
theorem step_PUSH (s : Sys) (hh : s.vm.halted = false) (hpc : s.vm.pc + 1 < 2 ^ 16)
    (hop : s.vm.ram s.vm.pc = OP_PUSH) :
    vm_execute_one s =
      { s with
        stdout := s.stdout ++ debugLine s.vm OP_PUSH
        vm := if s.vm.ram (s.vm.pc + 1) < 8 ∧ 7 < s.vm.sp then
                { s.vm with
                  pc := (s.vm.pc + 2) % 2 ^ 16
                  cycle_count := (s.vm.cycle_count + 1) % 2 ^ 64
                  sp := s.vm.sp - 8
                  ram := pushBytes s.vm.ram (s.vm.sp - 8) (s.vm.regs (s.vm.ram (s.vm.pc + 1))) }
              else
                { s.vm with
                  pc := (s.vm.pc + 2) % 2 ^ 16
                  cycle_count := (s.vm.cycle_count + 1) % 2 ^ 64 } } := by
  have h1 : ¬ (s.vm.pc + 1 ≥ VM_RAM_SIZE) := by unfold VM_RAM_SIZE; omega
  have e1 : (s.vm.pc + 1) % 2 ^ 16 = s.vm.pc + 1 := Nat.mod_eq_of_lt (by omega)
  have e2 : s.vm.pc + 1 + 1 = s.vm.pc + 2 := rfl
  rw [exec_running s hh (by omega), hop, dispatch_PUSH]
  simp only [Sys.onVM, case_PUSH, VM.fetch, VM.advance, e1, e2, if_neg h1, VM_REG_COUNT,
    gt_iff_lt]

/-- One step over a `POP reg` that lies inside memory. -/
theorem step_POP (s : Sys) (hh : s.vm.halted = false) (hpc : s.vm.pc + 1 < 2 ^ 16)
    (hop : s.vm.ram s.vm.pc = OP_POP) :
    vm_execute_one s =
      { s with
        stdout := s.stdout ++ debugLine s.vm OP_POP
        vm := if s.vm.ram (s.vm.pc + 1) < 8 ∧ s.vm.sp + 8 ≤ VM_RAM_SIZE then
                { s.vm with
                  pc := (s.vm.pc + 2) % 2 ^ 16
                  cycle_count := (s.vm.cycle_count + 1) % 2 ^ 64
                  regs := setAt s.vm.regs (s.vm.ram (s.vm.pc + 1)) (popBytes s.vm.ram s.vm.sp)
                  sp := (s.vm.sp + 8) % 2 ^ 16 }
              else
                { s.vm with
                  pc := (s.vm.pc + 2) % 2 ^ 16
                  cycle_count := (s.vm.cycle_count + 1) % 2 ^ 64 } } := by
  have h1 : ¬ (s.vm.pc + 1 ≥ VM_RAM_SIZE) := by unfold VM_RAM_SIZE; omega
  have e1 : (s.vm.pc + 1) % 2 ^ 16 = s.vm.pc + 1 := Nat.mod_eq_of_lt (by omega)
  have e2 : s.vm.pc + 1 + 1 = s.vm.pc + 2 := rfl
  rw [exec_running s hh (by omega), hop, dispatch_POP]
  simp only [Sys.onVM, case_POP, VM.fetch, VM.advance, e1, e2, if_neg h1, VM_REG_COUNT]

/-- One step over a `CALL addr16` that lies inside memory, whatever `sp` is. -/
theorem step_CALL_guard (s : Sys) (hh : s.vm.halted = false) (hpc : s.vm.pc + 2 < 2 ^ 16)
    (hop : s.vm.ram s.vm.pc = OP_CALL) :
    vm_execute_one s =
      { s with
        stdout := s.stdout ++ debugLine s.vm OP_CALL
        vm := if 1 < s.vm.sp then
                { s.vm with
                  cycle_count := (s.vm.cycle_count + 1) % 2 ^ 64
                  sp := s.vm.sp - 2
                  ram := setAt (setAt s.vm.ram (s.vm.sp - 2)
                      ((((s.vm.pc + 3) % 2 ^ 16) >>> 8) &&& 0xFF))
                    (s.vm.sp - 2 + 1) (((s.vm.pc + 3) % 2 ^ 16) &&& 0xFF)
                  pc := be16 s.vm.ram (s.vm.pc + 1) }
              else
                { s.vm with
                  pc := (s.vm.pc + 3) % 2 ^ 16
                  cycle_count := (s.vm.cycle_count + 1) % 2 ^ 64 } } := by
  have h1 : ¬ (s.vm.pc + 1 + 1 ≥ VM_RAM_SIZE) := by unfold VM_RAM_SIZE; omega
  have e1 : (s.vm.pc + 1) % 2 ^ 16 = s.vm.pc + 1 := Nat.mod_eq_of_lt (by omega)
  have e2 : s.vm.pc + 1 + 2 = s.vm.pc + 3 := rfl
  rw [exec_running s hh (by omega), hop, dispatch_CALL]
  simp only [Sys.onVM, case_CALL, VM.fetch, VM.advance, e1, e2, if_neg h1, gt_iff_lt]

end VM8

namespace VM8

/-! ## Claims about the stack of the 8-bit machine -/

/-- Claim C27 (amended): a `PUSH reg` that takes effect (non-halted state, both
instruction bytes inside memory, `reg < 8`, `SP > 7`) stores the full 64-bit
register value big-endian into the eight bytes below the old stack pointer:
the new SP is the old SP minus 8, `ram[SP + i]` is byte `i` of the value
counted from the most significant one, these eight bytes decode back to the
value, and no other memory byte and no register changes.  Nothing makes the
slot 8-byte aligned. -/
theorem push_slot (s : Sys) (hh : s.vm.halted = false) (hpc : s.vm.pc + 1 < 2 ^ 16)
    (hop : s.vm.ram s.vm.pc = OP_PUSH) (hr : s.vm.ram (s.vm.pc + 1) < 8) (hsp : 7 < s.vm.sp)
    (hv : s.vm.regs (s.vm.ram (s.vm.pc + 1)) < 2 ^ 64) :
    (vm_execute_one s).vm.sp = s.vm.sp - 8 ∧
    (∀ i, i < 8 →
      (vm_execute_one s).vm.ram ((vm_execute_one s).vm.sp + i) =
        s.vm.regs (s.vm.ram (s.vm.pc + 1)) / 2 ^ (56 - i * 8) % 256) ∧
    popBytes (vm_execute_one s).vm.ram (vm_execute_one s).vm.sp =
      s.vm.regs (s.vm.ram (s.vm.pc + 1)) ∧
    (∀ a, a < s.vm.sp - 8 ∨ s.vm.sp ≤ a → (vm_execute_one s).vm.ram a = s.vm.ram a) ∧
    (vm_execute_one s).vm.regs = s.vm.regs := by
  rw [step_PUSH s hh hpc hop, if_pos ⟨hr, hsp⟩]
  refine ⟨rfl, fun i hi => pushBytes_inside _ _ _ i hi, popBytes_pushBytes _ _ _ hv, ?_, rfl⟩
  intro a ha
  exact pushBytes_outside _ _ _ a (by omega)

/-- The first `PUSH` of a fresh VM satisfies the hypotheses of `push_slot`. -/
theorem push_slot_witness :
    pushFresh.vm.halted = false ∧ pushFresh.vm.pc + 1 < 2 ^ 16 ∧
    pushFresh.vm.ram pushFresh.vm.pc = OP_PUSH ∧ 7 < pushFresh.vm.sp ∧
    (vm_execute_one pushFresh).vm.sp = pushFresh.vm.sp - 8 :=
  ⟨rfl, by decide, by decide, by decide,
    (push_slot pushFresh rfl (by decide) (by decide) (by decide) (by decide) (by decide)).1⟩

/-- Claim C27 as stated fails: the first `PUSH r0` of a freshly created VM
takes effect and leaves SP = 0xFFF7, which is not a multiple of 8. -/
theorem push_slot_unaligned_counterexample :
    pushFresh.vm = { vm_create with ram := imageOf [0x80, 0x00] } ∧
    (vm_execute_one pushFresh).vm.sp = 0xFFF7 ∧
    (vm_execute_one pushFresh).vm.sp % 8 ≠ 0 ∧
    (vm_execute_one pushFresh).vm.halted = false := by
  refine ⟨rfl, by decide, by decide, by decide⟩

end VM8

namespace VM8

/-- Claim C28 (amended): the stack guards of `CALL`, `PUSH` and `POP`, for an
instruction inside memory in a non-halted state.  When the guard fails (`CALL`
with `SP <= 1`, `PUSH` with `SP <= 7`, `POP` with `SP + 8 > 65536`) the step
changes no register, no memory byte and not SP, does not halt, prints no
diagnostic, and leaves PC after the operand bytes (modulo 2^16), so a `CALL`
does not jump.  When the guard holds, `CALL` lowers SP by exactly 2, `PUSH`
of a valid register lowers it by exactly 8, and `POP` of a valid register
raises it by 8 modulo 2^16: by exactly 8 unless SP is 0xFFF8, where it wraps
to 0. -/
theorem stack_guards (s : Sys) (hh : s.vm.halted = false) (hsp : s.vm.sp < 2 ^ 16) :
    (s.vm.ram s.vm.pc = OP_CALL → s.vm.pc + 2 < 2 ^ 16 →
      (s.vm.sp ≤ 1 →
        (vm_execute_one s).vm.regs = s.vm.regs ∧ (vm_execute_one s).vm.ram = s.vm.ram ∧
        (vm_execute_one s).vm.sp = s.vm.sp ∧ (vm_execute_one s).vm.halted = false ∧
        (vm_execute_one s).stderr = s.stderr ∧
        (vm_execute_one s).vm.pc = (s.vm.pc + 3) % 2 ^ 16) ∧
      (1 < s.vm.sp → (vm_execute_one s).vm.sp + 2 = s.vm.sp)) ∧
    (s.vm.ram s.vm.pc = OP_PUSH → s.vm.pc + 1 < 2 ^ 16 →
      (s.vm.sp ≤ 7 →
        (vm_execute_one s).vm.regs = s.vm.regs ∧ (vm_execute_one s).vm.ram = s.vm.ram ∧
        (vm_execute_one s).vm.sp = s.vm.sp ∧ (vm_execute_one s).vm.halted = false ∧
        (vm_execute_one s).stderr = s.stderr ∧
        (vm_execute_one s).vm.pc = (s.vm.pc + 2) % 2 ^ 16) ∧
      (7 < s.vm.sp → s.vm.ram (s.vm.pc + 1) < 8 → (vm_execute_one s).vm.sp + 8 = s.vm.sp)) ∧
    (s.vm.ram s.vm.pc = OP_POP → s.vm.pc + 1 < 2 ^ 16 →
      (s.vm.sp + 8 > 65536 →
        (vm_execute_one s).vm.regs = s.vm.regs ∧ (vm_execute_one s).vm.ram = s.vm.ram ∧
        (vm_execute_one s).vm.sp = s.vm.sp ∧ (vm_execute_one s).vm.halted = false ∧
        (vm_execute_one s).stderr = s.stderr ∧
        (vm_execute_one s).vm.pc = (s.vm.pc + 2) % 2 ^ 16) ∧
      (s.vm.sp + 8 ≤ 65536 → s.vm.ram (s.vm.pc + 1) < 8 →
        (vm_execute_one s).vm.sp = (s.vm.sp + 8) % 2 ^ 16 ∧
        (s.vm.sp ≠ 0xFFF8 → (vm_execute_one s).vm.sp = s.vm.sp + 8) ∧
        (s.vm.sp = 0xFFF8 → (vm_execute_one s).vm.sp = 0))) := by
  refine ⟨fun hop hpc => ?_, fun hop hpc => ?_, fun hop hpc => ?_⟩
  · rw [step_CALL_guard s hh hpc hop]
    refine ⟨fun hg => ?_, fun hg => ?_⟩
    · rw [if_neg (by omega)]
      exact ⟨rfl, rfl, rfl, hh, rfl, rfl⟩
    · rw [if_pos hg]
      show s.vm.sp - 2 + 2 = s.vm.sp
      omega
  · rw [step_PUSH s hh hpc hop]
    refine ⟨fun hg => ?_, fun hg hr => ?_⟩
    · rw [if_neg (by omega)]
      exact ⟨rfl, rfl, rfl, hh, rfl, rfl⟩
    · rw [if_pos ⟨hr, hg⟩]
      show s.vm.sp - 8 + 8 = s.vm.sp
      omega
  · rw [step_POP s hh hpc hop]
    refine ⟨fun hg => ?_, fun hg hr => ?_⟩
    · rw [if_neg (by unfold VM_RAM_SIZE; omega)]
      exact ⟨rfl, rfl, rfl, hh, rfl, rfl⟩
    · rw [if_pos ⟨hr, by unfold VM_RAM_SIZE; omega⟩]
      refine ⟨rfl, fun hne => ?_, fun he => ?_⟩
      · show (s.vm.sp + 8) % 2 ^ 16 = s.vm.sp + 8
        omega
      · show (s.vm.sp + 8) % 2 ^ 16 = 0
        omega

/-- The first `PUSH` of a fresh VM passes its guard and lowers SP by 8. -/
theorem stack_guards_witness :
    pushFresh.vm.halted = false ∧ pushFresh.vm.sp < 2 ^ 16 ∧
    (vm_execute_one pushFresh).vm.sp + 8 = pushFresh.vm.sp :=
  ⟨rfl, by decide,
    (stack_guards pushFresh rfl (by decide)).2.1 (by decide) (by decide) |>.2 (by decide)
      (by decide)⟩

/-- Claim C28 as stated fails on two inputs whose guard holds.  `POP r0` with
SP = 0xFFF8 passes the guard `SP + 8 <= 65536` and leaves SP = 0, not
SP + 8 = 0x10000; `PUSH 8` in a fresh VM passes the guard `SP > 7` and leaves
SP where it was, because 8 is no register index. -/
theorem stack_guards_counterexample :
    popAtTop.vm.halted = false ∧ popAtTop.vm.ram popAtTop.vm.pc = OP_POP ∧
    popAtTop.vm.sp + 8 ≤ 65536 ∧
    (vm_execute_one popAtTop).vm.sp = 0 ∧
    (vm_execute_one popAtTop).vm.sp ≠ popAtTop.vm.sp + 8 ∧
    pushInvalid.vm.halted = false ∧ pushInvalid.vm.ram pushInvalid.vm.pc = OP_PUSH ∧
    7 < pushInvalid.vm.sp ∧
    (vm_execute_one pushInvalid).vm.sp = pushInvalid.vm.sp ∧
    (vm_execute_one pushInvalid).vm.sp + 8 ≠ pushInvalid.vm.sp := by
  refine ⟨rfl, by decide, by decide, by decide, by decide, rfl, by decide, by decide, by decide,
    by decide⟩

end VM8

namespace VM8

/-- Claim C30: `PUSH r; POP r'` round trip.  For registers `r, r' < 8` and a
non-halted state with `SP > 7` whose memory holds `PUSH r` immediately followed
by `POP r'` at PC, the four instruction bytes inside memory and outside the
written slot `[SP-8, SP)`, two steps leave `regs[r']` equal to the prior value
of `regs[r]` (all 64 bits), SP equal to its prior value and every other
register unchanged. -/
theorem push_pop_round_trip (s : Sys) (r r' : Nat) (hr : r < 8) (hr' : r' < 8)
    (hh : s.vm.halted = false) (hsp : 7 < s.vm.sp) (hsp16 : s.vm.sp < 2 ^ 16)
    (hpc : s.vm.pc + 3 < 2 ^ 16)
    (h0 : s.vm.ram s.vm.pc = OP_PUSH) (h1 : s.vm.ram (s.vm.pc + 1) = r)
    (h2 : s.vm.ram (s.vm.pc + 2) = OP_POP) (h3 : s.vm.ram (s.vm.pc + 3) = r')
    (hout : ∀ i, i < 4 → s.vm.pc + i < s.vm.sp - 8 ∨ s.vm.sp ≤ s.vm.pc + i)
    (hv : s.vm.regs r < 2 ^ 64) :
    (vm_execute_one (vm_execute_one s)).vm.regs r' = s.vm.regs r ∧
    (vm_execute_one (vm_execute_one s)).vm.sp = s.vm.sp ∧
    (∀ q, q ≠ r' → (vm_execute_one (vm_execute_one s)).vm.regs q = s.vm.regs q) := by
  have e1 : (s.vm.pc + 2) % 2 ^ 16 = s.vm.pc + 2 := Nat.mod_eq_of_lt (by omega)
  obtain ⟨s1, hs1, hhalt, hpc1, hsp1, hregs1, hram1⟩ :
      ∃ s1, vm_execute_one s = s1 ∧ s1.vm.halted = false ∧ s1.vm.pc = s.vm.pc + 2 ∧
        s1.vm.sp = s.vm.sp - 8 ∧ s1.vm.regs = s.vm.regs ∧
        s1.vm.ram = pushBytes s.vm.ram (s.vm.sp - 8) (s.vm.regs r) := by
    refine ⟨_, rfl, ?_⟩
    rw [step_PUSH s hh (by omega) h0, if_pos ⟨by rw [h1]; exact hr, hsp⟩, h1]
    exact ⟨hh, e1, rfl, rfl, rfl⟩
  rw [hs1]
  have hop1 : s1.vm.ram s1.vm.pc = OP_POP := by
    have ho := hout 2 (by omega)
    rw [hram1, hpc1, pushBytes_outside _ _ _ _ (by omega), h2]
  have hreg1 : s1.vm.ram (s1.vm.pc + 1) = r' := by
    have ho := hout 3 (by omega)
    rw [hram1, hpc1, pushBytes_outside _ _ _ _ (by omega), h3]
  have hc : s1.vm.ram (s1.vm.pc + 1) < 8 ∧ s1.vm.sp + 8 ≤ VM_RAM_SIZE := by
    rw [hreg1, hsp1]
    exact ⟨hr', by unfold VM_RAM_SIZE; omega⟩
  rw [step_POP s1 hhalt (by omega) hop1, if_pos hc, hreg1]
  have hpop : popBytes s1.vm.ram s1.vm.sp = s.vm.regs r := by
    rw [hram1, hsp1]
    exact popBytes_pushBytes _ _ _ hv
  refine ⟨?_, ?_, fun q hq => ?_⟩
  · show setAt s1.vm.regs r' (popBytes s1.vm.ram s1.vm.sp) r' = s.vm.regs r
    rw [hpop]
    simp only [setAt, if_true]
  · show (s1.vm.sp + 8) % 2 ^ 16 = s.vm.sp
    rw [hsp1]
    omega
  · show setAt s1.vm.regs r' (popBytes s1.vm.ram s1.vm.sp) q = s.vm.regs q
    rw [hregs1]
    simp only [setAt, if_neg hq]

/-- `PUSH r1; POP r2` in a fresh VM satisfies the hypotheses of
`push_pop_round_trip`, and register 2 receives the 64-bit pattern. -/
theorem push_pop_round_trip_witness :
    pushPop.vm.halted = false ∧ 7 < pushPop.vm.sp ∧
    pushPop.vm.ram pushPop.vm.pc = OP_PUSH ∧ pushPop.vm.ram (pushPop.vm.pc + 2) = OP_POP ∧
    (vm_execute_one (vm_execute_one pushPop)).vm.regs 2 = 0x1122334455667788 :=
  ⟨rfl, by decide, by decide, by decide,
    (push_pop_round_trip pushPop 1 2 (by decide) (by decide) rfl (by decide) (by decide)
      (by decide) (by decide) (by decide) (by decide) (by decide)
      (fun i hi => Or.inl (by
        show 0 + i < 65535 - 8
        omega)) (by decide)).1⟩

end VM8

namespace VM8

/-! ## Operand bounds checks -/

theorem case_MOVI_halt (vm : VM) (h : vm.pc + 4 ≥ VM_RAM_SIZE) : case_MOVI vm = vm.halt := by
  simp only [case_MOVI, if_pos h]

theorem twoRegs_halt (vm : VM) (upd : VM → Nat → Nat → VM) (h : vm.pc + 1 ≥ VM_RAM_SIZE) :
    twoRegs vm upd = vm.halt := by
  simp only [twoRegs, if_pos h]

theorem regImm8_halt (vm : VM) (upd : VM → Nat → Nat → VM) (h : vm.pc + 1 ≥ VM_RAM_SIZE) :
    regImm8 vm upd = vm.halt := by
  simp only [regImm8, if_pos h]

theorem regAddr16_halt (vm : VM) (k : VM → Nat → Nat → VM) (h : vm.pc + 2 ≥ VM_RAM_SIZE) :
    regAddr16 vm k = vm.halt := by
  simp only [regAddr16, if_pos h]

theorem case_JMP_halt (vm : VM) (h : vm.pc + 1 ≥ VM_RAM_SIZE) : case_JMP vm = vm.halt := by
  simp only [case_JMP, if_pos h]

theorem case_CALL_halt (vm : VM) (h : vm.pc + 1 ≥ VM_RAM_SIZE) : case_CALL vm = vm.halt := by
  simp only [case_CALL, if_pos h]

/-- What a step leaves when the case of its opcode only sets `halted`. -/
theorem onVM_halt_frame (s : Sys) (op : Nat) (f : VM → VM)
    (hf : f s.vm.fetch = s.vm.fetch.halt) :
    (Sys.onVM { s with stdout := s.stdout ++ debugLine s.vm op, vm := s.vm.fetch } f).vm.halted
      = true ∧
    (Sys.onVM { s with stdout := s.stdout ++ debugLine s.vm op, vm := s.vm.fetch } f).vm.regs
      = s.vm.regs ∧
    (Sys.onVM { s with stdout := s.stdout ++ debugLine s.vm op, vm := s.vm.fetch } f).vm.ram
      = s.vm.ram ∧
    (Sys.onVM { s with stdout := s.stdout ++ debugLine s.vm op, vm := s.vm.fetch } f).vm.sp
      = s.vm.sp ∧
    (Sys.onVM { s with stdout := s.stdout ++ debugLine s.vm op, vm := s.vm.fetch } f).stdout
      = s.stdout ++ debugLine s.vm op ∧
    (Sys.onVM { s with stdout := s.stdout ++ debugLine s.vm op, vm := s.vm.fetch } f).stderr
      = s.stderr ∧
    (Sys.onVM { s with stdout := s.stdout ++ debugLine s.vm op, vm := s.vm.fetch } f).stdin
      = s.stdin := by
  have h : (Sys.onVM { s with stdout := s.stdout ++ debugLine s.vm op, vm := s.vm.fetch } f).vm
      = s.vm.fetch.halt := hf
  exact ⟨by rw [h]; rfl, by rw [h]; rfl, by rw [h]; rfl, by rw [h]; rfl, rfl, rfl, rfl⟩

theorem operandBytes_pos (op : Nat) (h : 0 < operandBytes op) :
    op = OP_MOVI ∨
    (op ∈ [OP_LOAD, OP_STORE, OP_JNZ, OP_JZ, OP_JLT, OP_JGT] ∧ operandBytes op = 3) ∨
    (op ∈ [OP_ADD, OP_SUB, OP_MUL, OP_DIV, OP_MOD, OP_AND, OP_OR, OP_XOR, OP_SHL, OP_SHR,
      OP_JMP, OP_CMP, OP_CALL] ∧ operandBytes op = 2) ∨
    operandBytes op = 1 := by
  unfold operandBytes at h ⊢
  split_ifs at h ⊢ with h1 h2 h3 h4
  · exact Or.inl h1
  · exact Or.inr (Or.inl ⟨h2, rfl⟩)
  · exact Or.inr (Or.inr (Or.inl ⟨h3, rfl⟩))
  · exact Or.inr (Or.inr (Or.inr rfl))
  · omega

/-- Claim C21 (amended): operand bounds of the 8-bit machine.  In a non-halted
state whose opcode at address `p < 0xFFFF` takes `k >= 1` operand bytes with
`p + k > 0xFFFF`, the step sets `halted` and leaves all registers, all memory
bytes and SP unchanged, reads no input and prints no diagnostic; stdout
receives nothing but the debug line of the instruction, which is empty when
debug mode is off. -/
theorem operand_bounds_halt (s : Sys) (hh : s.vm.halted = false) (hp : s.vm.pc < 0xFFFF)
    (hend : s.vm.pc + operandBytes (s.vm.ram s.vm.pc) > 0xFFFF) :
    (vm_execute_one s).vm.halted = true ∧
    (vm_execute_one s).vm.regs = s.vm.regs ∧
    (vm_execute_one s).vm.ram = s.vm.ram ∧
    (vm_execute_one s).vm.sp = s.vm.sp ∧
    (vm_execute_one s).stdout = s.stdout ++ debugLine s.vm (s.vm.ram s.vm.pc) ∧
    (vm_execute_one s).stderr = s.stderr ∧
    (vm_execute_one s).stdin = s.stdin := by
  have e1 : s.vm.fetch.pc = s.vm.pc + 1 := by
    show (s.vm.pc + 1) % 2 ^ 16 = s.vm.pc + 1
    omega
  rw [exec_running s hh (by omega)]
  generalize s.vm.ram s.vm.pc = op at hend ⊢
  rcases operandBytes_pos op (by omega) with rfl | ⟨hm, hk⟩ | ⟨hm, hk⟩ | hk
  · have hk : operandBytes OP_MOVI = 5 := by decide
    rw [hk] at hend
    rw [dispatch_MOVI]
    exact onVM_halt_frame s _ _ (case_MOVI_halt _ (by rw [e1]; unfold VM_RAM_SIZE; omega))
  · rw [hk] at hend
    have hc : s.vm.fetch.pc + 2 ≥ VM_RAM_SIZE := by rw [e1]; unfold VM_RAM_SIZE; omega
    simp only [List.mem_cons, List.mem_singleton, List.not_mem_nil, or_false] at hm
    rcases hm with rfl | rfl | rfl | rfl | rfl | rfl
    · rw [dispatch_LOAD]; exact onVM_halt_frame s _ _ (regAddr16_halt _ _ hc)
    · rw [dispatch_STORE]; exact onVM_halt_frame s _ _ (regAddr16_halt _ _ hc)
    · rw [dispatch_JNZ]; exact onVM_halt_frame s _ _ (regAddr16_halt _ _ hc)
    · rw [dispatch_JZ]; exact onVM_halt_frame s _ _ (regAddr16_halt _ _ hc)
    · rw [dispatch_JLT]; exact onVM_halt_frame s _ _ (regAddr16_halt _ _ hc)
    · rw [dispatch_JGT]; exact onVM_halt_frame s _ _ (regAddr16_halt _ _ hc)
  · rw [hk] at hend
    have hc : s.vm.fetch.pc + 1 ≥ VM_RAM_SIZE := by rw [e1]; unfold VM_RAM_SIZE; omega
    simp only [List.mem_cons, List.mem_singleton, List.not_mem_nil, or_false] at hm
    rcases hm with rfl | rfl | rfl | rfl | rfl | rfl | rfl | rfl | rfl | rfl | rfl | rfl | rfl
    · rw [dispatch_ADD]; exact onVM_halt_frame s _ _ (twoRegs_halt _ _ hc)
    · rw [dispatch_SUB]; exact onVM_halt_frame s _ _ (twoRegs_halt _ _ hc)
    · rw [dispatch_MUL]; exact onVM_halt_frame s _ _ (twoRegs_halt _ _ hc)
    · rw [dispatch_DIV]; exact onVM_halt_frame s _ _ (twoRegs_halt _ _ hc)
    · rw [dispatch_MOD]; exact onVM_halt_frame s _ _ (twoRegs_halt _ _ hc)
    · rw [dispatch_AND]; exact onVM_halt_frame s _ _ (twoRegs_halt _ _ hc)
    · rw [dispatch_OR]; exact onVM_halt_frame s _ _ (twoRegs_halt _ _ hc)
    · rw [dispatch_XOR]; exact onVM_halt_frame s _ _ (twoRegs_halt _ _ hc)
    · rw [dispatch_SHL]; exact onVM_halt_frame s _ _ (regImm8_halt _ _ hc)
    · rw [dispatch_SHR]; exact onVM_halt_frame s _ _ (regImm8_halt _ _ hc)
    · rw [dispatch_JMP]; exact onVM_halt_frame s _ _ (case_JMP_halt _ hc)
    · rw [dispatch_CMP]; exact onVM_halt_frame s _ _ (twoRegs_halt _ _ hc)
    · rw [dispatch_CALL]; exact onVM_halt_frame s _ _ (case_CALL_halt _ hc)
  · omega

/-- `ADD` in the last but one byte of memory satisfies the hypotheses of
`operand_bounds_halt`: the step halts. -/
theorem operand_bounds_halt_witness :
    addAtTop.vm.halted = false ∧ addAtTop.vm.pc < 0xFFFF ∧
    addAtTop.vm.pc + operandBytes (addAtTop.vm.ram addAtTop.vm.pc) > 0xFFFF ∧
    (vm_execute_one addAtTop).vm.halted = true :=
  ⟨rfl, by decide, by decide, (operand_bounds_halt addAtTop rfl (by decide) (by decide)).1⟩

/-- Claim C21 as stated fails on two inputs.  With `NOT` in the last byte of
memory (`p = 0xFFFF`, `k = 1`, `p + k > 0xFFFF`) the step does not halt: PC
wraps to 0, the operand byte is read from address 0 and register 0 is
complemented.  With `ADD` at `0xFFFE` in debug mode the step halts as
claimed but prints the debug line of the instruction to stdout. -/
theorem operand_bounds_counterexample :
    notAtTop.vm.halted = false ∧
    notAtTop.vm.pc + operandBytes (notAtTop.vm.ram notAtTop.vm.pc) > 0xFFFF ∧
    (vm_execute_one notAtTop).vm.halted = false ∧
    (vm_execute_one notAtTop).vm.pc = 1 ∧
    notAtTop.vm.regs 0 = 0 ∧ (vm_execute_one notAtTop).vm.regs 0 = 2 ^ 64 - 1 ∧
    addAtTopDebug.vm.halted = false ∧
    addAtTopDebug.vm.pc + operandBytes (addAtTopDebug.vm.ram addAtTopDebug.vm.pc) > 0xFFFF ∧
    (vm_execute_one addAtTopDebug).vm.halted = true ∧
    (vm_execute_one addAtTopDebug).stdout = text "[PC: 0xFFFE] Opcode: 0x20\n" ∧
    (vm_execute_one addAtTopDebug).stdout ≠ addAtTopDebug.stdout := by
  refine ⟨rfl, by decide, by decide, by decide, rfl, by decide, rfl, by decide, by decide,
    by decide, by decide⟩

end VM8

namespace VM8

/-! ## Register operands out of range -/

theorem case_MOVI_invalid (vm : VM) (h : vm.pc + 5 < 2 ^ 16) (hr : vm.ram (vm.pc + 1) ≥ 8) :
    case_MOVI vm.fetch = { vm.fetch with pc := (vm.pc + 1 + 5) % 2 ^ 16 } := by
  have h1 : ¬ (vm.pc + 1 + 4 ≥ VM_RAM_SIZE) := by unfold VM_RAM_SIZE; omega
  have e1 : (vm.pc + 1) % 2 ^ 16 = vm.pc + 1 := Nat.mod_eq_of_lt (by omega)
  have e2 : (vm.pc + 1 + 1) % 2 ^ 16 = vm.pc + 2 := Nat.mod_eq_of_lt (by omega)
  have hr1 : ¬ vm.ram (vm.pc + 1) < 8 := by omega
  simp only [case_MOVI, VM.fetch, VM.advance, e1, e2, if_neg h1, VM_REG_COUNT, hr1, if_false]

theorem twoRegs_invalid (vm : VM) (upd : VM → Nat → Nat → VM) (h : vm.pc + 2 < 2 ^ 16)
    (hr : vm.ram (vm.pc + 1) ≥ 8 ∨ vm.ram (vm.pc + 2) ≥ 8) :
    twoRegs vm.fetch upd = { vm.fetch with pc := (vm.pc + 1 + 2) % 2 ^ 16 } := by
  have h1 : ¬ (vm.pc + 1 + 1 ≥ VM_RAM_SIZE) := by unfold VM_RAM_SIZE; omega
  have e1 : (vm.pc + 1) % 2 ^ 16 = vm.pc + 1 := Nat.mod_eq_of_lt (by omega)
  have e2 : (vm.pc + 1 + 1) % 2 ^ 16 = vm.pc + 2 := Nat.mod_eq_of_lt (by omega)
  have hr1 : ¬ (vm.ram (vm.pc + 1) < 8 ∧ vm.ram (vm.pc + 2) < 8) := by omega
  simp only [twoRegs, VM.fetch, VM.advance, e1, e2, if_neg h1, VM_REG_COUNT, if_neg hr1]

theorem regImm8_invalid (vm : VM) (upd : VM → Nat → Nat → VM) (h : vm.pc + 2 < 2 ^ 16)
    (hr : vm.ram (vm.pc + 1) ≥ 8) :
    regImm8 vm.fetch upd = { vm.fetch with pc := (vm.pc + 1 + 2) % 2 ^ 16 } := by
  have hr1 : ¬ (vm.ram (vm.pc + 1) < 8 ∧ vm.ram (vm.pc + 2) < 64) := by omega
  rw [regImm8_fetch vm upd h, if_neg hr1]

theorem case_NOT_invalid (vm : VM) (h : vm.pc + 1 < 2 ^ 16) (hr : vm.ram (vm.pc + 1) ≥ 8) :
    case_NOT vm.fetch = { vm.fetch with pc := (vm.pc + 1 + 1) % 2 ^ 16 } := by
  have h1 : ¬ (vm.pc + 1 ≥ VM_RAM_SIZE) := by unfold VM_RAM_SIZE; omega
  have e1 : (vm.pc + 1) % 2 ^ 16 = vm.pc + 1 := Nat.mod_eq_of_lt (by omega)
  have hr1 : ¬ vm.ram (vm.pc + 1) < 8 := by omega
  simp only [case_NOT, VM.fetch, VM.advance, e1, if_neg h1, VM_REG_COUNT, hr1, if_false]

theorem case_PUSH_invalid (vm : VM) (h : vm.pc + 1 < 2 ^ 16) (hr : vm.ram (vm.pc + 1) ≥ 8) :
    case_PUSH vm.fetch = { vm.fetch with pc := (vm.pc + 1 + 1) % 2 ^ 16 } := by
  have h1 : ¬ (vm.pc + 1 ≥ VM_RAM_SIZE) := by unfold VM_RAM_SIZE; omega
  have e1 : (vm.pc + 1) % 2 ^ 16 = vm.pc + 1 := Nat.mod_eq_of_lt (by omega)
  have hr1 : ¬ vm.ram (vm.pc + 1) < 8 := by omega
  simp only [case_PUSH, VM.fetch, VM.advance, e1, if_neg h1, VM_REG_COUNT, hr1, false_and,
    if_false]

theorem case_POP_invalid (vm : VM) (h : vm.pc + 1 < 2 ^ 16) (hr : vm.ram (vm.pc + 1) ≥ 8) :
    case_POP vm.fetch = { vm.fetch with pc := (vm.pc + 1 + 1) % 2 ^ 16 } := by
  have h1 : ¬ (vm.pc + 1 ≥ VM_RAM_SIZE) := by unfold VM_RAM_SIZE; omega
  have e1 : (vm.pc + 1) % 2 ^ 16 = vm.pc + 1 := Nat.mod_eq_of_lt (by omega)
  have hr1 : ¬ vm.ram (vm.pc + 1) < 8 := by omega
  simp only [case_POP, VM.fetch, VM.advance, e1, if_neg h1, VM_REG_COUNT, hr1, false_and,
    if_false]

/-- The shape `reg, addr16` when the continuation ignores an invalid `reg`. -/
theorem regAddr16_invalid (vm : VM) (k : VM → Nat → Nat → VM) (h : vm.pc + 3 < 2 ^ 16)
    (hr : vm.ram (vm.pc + 1) ≥ 8) (hk : ∀ v reg addr, reg ≥ 8 → k v reg addr = v) :
    regAddr16 vm.fetch k = { vm.fetch with pc := (vm.pc + 1 + 3) % 2 ^ 16 } := by
  have h1 : ¬ (vm.pc + 1 + 2 ≥ VM_RAM_SIZE) := by unfold VM_RAM_SIZE; omega
  have e1 : (vm.pc + 1) % 2 ^ 16 = vm.pc + 1 := Nat.mod_eq_of_lt (by omega)
  have e2 : (vm.pc + 1 + 1) % 2 ^ 16 = vm.pc + 2 := Nat.mod_eq_of_lt (by omega)
  simp only [regAddr16, VM.fetch, VM.advance, e1, e2, if_neg h1]
  rw [hk _ _ _ hr]

theorem case_LOAD_invalid (v : VM) (reg addr : Nat) (h : reg ≥ 8) :
    (if reg < VM_REG_COUNT ∧ addr < VM_RAM_SIZE then v.setReg reg (v.ram addr) else v) = v := by
  have hr1 : ¬ (reg < VM_REG_COUNT ∧ addr < VM_RAM_SIZE) := by unfold VM_REG_COUNT; omega
  rw [if_neg hr1]

theorem case_STORE_invalid (v : VM) (reg addr : Nat) (h : reg ≥ 8) :
    (if reg < VM_REG_COUNT ∧ addr < VM_RAM_SIZE then
      { v with ram := setAt v.ram addr ((v.regs reg &&& 0xFF) % 2 ^ 8) } else v) = v := by
  have hr1 : ¬ (reg < VM_REG_COUNT ∧ addr < VM_RAM_SIZE) := by unfold VM_REG_COUNT; omega
  rw [if_neg hr1]

theorem jump_invalid (v : VM) (reg addr : Nat) (c : Prop) [Decidable c] (h : reg ≥ 8) :
    (if reg < VM_REG_COUNT ∧ c then { v with pc := addr } else v) = v := by
  have hr1 : ¬ (reg < VM_REG_COUNT ∧ c) := by unfold VM_REG_COUNT; omega
  rw [if_neg hr1]

end VM8

namespace VM8

theorem case_OUT_invalid (s : Sys) (out : List Nat) (h : s.vm.pc + 1 < 2 ^ 16)
    (hr : s.vm.ram (s.vm.pc + 1) ≥ 8) :
    case_OUT { s with stdout := out, vm := s.vm.fetch } =
      { s with stdout := out, vm := { s.vm.fetch with pc := (s.vm.pc + 1 + 1) % 2 ^ 16 } } := by
  have h1 : ¬ (s.vm.pc + 1 ≥ VM_RAM_SIZE) := by unfold VM_RAM_SIZE; omega
  have e1 : (s.vm.pc + 1) % 2 ^ 16 = s.vm.pc + 1 := Nat.mod_eq_of_lt (by omega)
  have hr1 : ¬ s.vm.ram (s.vm.pc + 1) < 8 := by omega
  simp only [case_OUT, VM.fetch, VM.advance, e1, if_neg h1, VM_REG_COUNT, hr1, if_false]

theorem case_IN_invalid (s : Sys) (out : List Nat) (h : s.vm.pc + 1 < 2 ^ 16)
    (hr : s.vm.ram (s.vm.pc + 1) ≥ 8) :
    case_IN { s with stdout := out, vm := s.vm.fetch } =
      { s with stdout := out, vm := { s.vm.fetch with pc := (s.vm.pc + 1 + 1) % 2 ^ 16 } } := by
  have h1 : ¬ (s.vm.pc + 1 ≥ VM_RAM_SIZE) := by unfold VM_RAM_SIZE; omega
  have e1 : (s.vm.pc + 1) % 2 ^ 16 = s.vm.pc + 1 := Nat.mod_eq_of_lt (by omega)
  have hr1 : ¬ s.vm.ram (s.vm.pc + 1) < 8 := by omega
  simp only [case_IN, VM.fetch, VM.advance, e1, if_neg h1, VM_REG_COUNT, hr1, if_false]

/-- One step over an instruction inside memory that has a register operand
out of range: only PC, the cycle count and the debug line move. -/
theorem invalid_register_step (s : Sys) (hh : s.vm.halted = false)
    (hin : s.vm.pc + operandBytes (s.vm.ram s.vm.pc) < 2 ^ 16) (hinv : invalidRegister s.vm) :
    vm_execute_one s =
      { s with
        stdout := s.stdout ++ debugLine s.vm (s.vm.ram s.vm.pc)
        vm := { s.vm.fetch with
                pc := (s.vm.pc + 1 + operandBytes (s.vm.ram s.vm.pc)) % 2 ^ 16 } } := by
  rw [exec_running s hh (by omega)]
  unfold invalidRegister at hinv
  simp only [VM_REG_COUNT] at hinv
  generalize s.vm.ram s.vm.pc = op at hin hinv ⊢
  rcases hinv with ⟨hm, hr⟩ | ⟨hm, hr⟩
  · simp only [oneRegOpcodes, List.mem_cons, List.mem_singleton, List.not_mem_nil, or_false]
      at hm
    rcases hm with rfl | rfl | rfl | rfl | rfl | rfl | rfl | rfl | rfl | rfl | rfl | rfl | rfl | rfl
    · have hk : operandBytes OP_MOVI = 5 := by decide
      rw [hk] at hin ⊢
      rw [dispatch_MOVI]
      simp only [Sys.onVM]
      rw [case_MOVI_invalid s.vm hin hr]
    · have hk : operandBytes OP_NOT = 1 := by decide
      rw [hk] at hin ⊢
      rw [dispatch_NOT]
      simp only [Sys.onVM]
      rw [case_NOT_invalid s.vm hin hr]
    · have hk : operandBytes OP_SHL = 2 := by decide
      rw [hk] at hin ⊢
      rw [dispatch_SHL]
      simp only [Sys.onVM, case_SHL]
      rw [regImm8_invalid s.vm _ hin hr]
    · have hk : operandBytes OP_SHR = 2 := by decide
      rw [hk] at hin ⊢
      rw [dispatch_SHR]
      simp only [Sys.onVM, case_SHR]
      rw [regImm8_invalid s.vm _ hin hr]
    · have hk : operandBytes OP_LOAD = 3 := by decide
      rw [hk] at hin ⊢
      rw [dispatch_LOAD]
      simp only [Sys.onVM, case_LOAD]
      rw [regAddr16_invalid s.vm _ hin hr fun v reg addr h => case_LOAD_invalid v reg addr h]
    · have hk : operandBytes OP_STORE = 3 := by decide
      rw [hk] at hin ⊢
      rw [dispatch_STORE]
      simp only [Sys.onVM, case_STORE]
      rw [regAddr16_invalid s.vm _ hin hr fun v reg addr h => case_STORE_invalid v reg addr h]
    · have hk : operandBytes OP_OUT = 1 := by decide
      rw [hk] at hin ⊢
      rw [dispatch_OUT, case_OUT_invalid s _ hin hr]
    · have hk : operandBytes OP_IN = 1 := by decide
      rw [hk] at hin ⊢
      rw [dispatch_IN, case_IN_invalid s _ hin hr]
    · have hk : operandBytes OP_JNZ = 3 := by decide
      rw [hk] at hin ⊢
      rw [dispatch_JNZ]
      simp only [Sys.onVM, case_JNZ]
      rw [regAddr16_invalid s.vm _ hin hr fun v reg addr h => jump_invalid v reg addr _ h]
    · have hk : operandBytes OP_JZ = 3 := by decide
      rw [hk] at hin ⊢
      rw [dispatch_JZ]
      simp only [Sys.onVM, case_JZ]
      rw [regAddr16_invalid s.vm _ hin hr fun v reg addr h => jump_invalid v reg addr _ h]
    · have hk : operandBytes OP_JLT = 3 := by decide
      rw [hk] at hin ⊢
      rw [dispatch_JLT]
      simp only [Sys.onVM, case_JLT]
      rw [regAddr16_invalid s.vm _ hin hr fun v reg addr h => jump_invalid v reg addr _ h]
    · have hk : operandBytes OP_JGT = 3 := by decide
      rw [hk] at hin ⊢
      rw [dispatch_JGT]
      simp only [Sys.onVM, case_JGT]
      rw [regAddr16_invalid s.vm _ hin hr fun v reg addr h => jump_invalid v reg addr _ h]
    · have hk : operandBytes OP_PUSH = 1 := by decide
      rw [hk] at hin ⊢
      rw [dispatch_PUSH]
      simp only [Sys.onVM]
      rw [case_PUSH_invalid s.vm hin hr]
    · have hk : operandBytes OP_POP = 1 := by decide
      rw [hk] at hin ⊢
      rw [dispatch_POP]
      simp only [Sys.onVM]
      rw [case_POP_invalid s.vm hin hr]
  · simp only [twoRegOpcodes, List.mem_cons, List.mem_singleton, List.not_mem_nil, or_false]
      at hm
    rcases hm with rfl | rfl | rfl | rfl | rfl | rfl | rfl | rfl | rfl
    · have hk : operandBytes OP_ADD = 2 := by decide
      rw [hk] at hin ⊢
      rw [dispatch_ADD]
      simp only [Sys.onVM, case_ADD]
      rw [twoRegs_invalid s.vm _ hin hr]
    · have hk : operandBytes OP_SUB = 2 := by decide
      rw [hk] at hin ⊢
      rw [dispatch_SUB]
      simp only [Sys.onVM, case_SUB]
      rw [twoRegs_invalid s.vm _ hin hr]
    · have hk : operandBytes OP_MUL = 2 := by decide
      rw [hk] at hin ⊢
      rw [dispatch_MUL]
      simp only [Sys.onVM, case_MUL]
      rw [twoRegs_invalid s.vm _ hin hr]
    · have hk : operandBytes OP_DIV = 2 := by decide
      rw [hk] at hin ⊢
      rw [dispatch_DIV]
      simp only [Sys.onVM, case_DIV]
      rw [twoRegs_invalid s.vm _ hin hr]
    · have hk : operandBytes OP_MOD = 2 := by decide
      rw [hk] at hin ⊢
      rw [dispatch_MOD]
      simp only [Sys.onVM, case_MOD]
      rw [twoRegs_invalid s.vm _ hin hr]
    · have hk : operandBytes OP_AND = 2 := by decide
      rw [hk] at hin ⊢
      rw [dispatch_AND]
      simp only [Sys.onVM, case_AND]
      rw [twoRegs_invalid s.vm _ hin hr]
    · have hk : operandBytes OP_OR = 2 := by decide
      rw [hk] at hin ⊢
      rw [dispatch_OR]
      simp only [Sys.onVM, case_OR]
      rw [twoRegs_invalid s.vm _ hin hr]
    · have hk : operandBytes OP_XOR = 2 := by decide
      rw [hk] at hin ⊢
      rw [dispatch_XOR]
      simp only [Sys.onVM, case_XOR]
      rw [twoRegs_invalid s.vm _ hin hr]
    · have hk : operandBytes OP_CMP = 2 := by decide
      rw [hk] at hin ⊢
      rw [dispatch_CMP]
      simp only [Sys.onVM, case_CMP]
      rw [twoRegs_invalid s.vm _ hin hr]

end VM8

namespace X64

open VM8 (setAt text fmtHex fmtDec)

/-! ## Register operands out of range on the 64-bit machine -/

theorem dispatch_MOVI64 (n : SyscallNumbers) (host : Host) (s : Sys64) :
    dispatch n host X64_MOVI s = s.onVM case_MOVI := rfl
theorem dispatch_ADD64 (n : SyscallNumbers) (host : Host) (s : Sys64) :
    dispatch n host X64_ADD s = s.onVM case_ADD := rfl
theorem dispatch_SUB64 (n : SyscallNumbers) (host : Host) (s : Sys64) :
    dispatch n host X64_SUB s = s.onVM case_SUB := rfl
theorem dispatch_LOAD64 (n : SyscallNumbers) (host : Host) (s : Sys64) :
    dispatch n host X64_LOAD s = s.onVM case_LOAD := rfl
theorem dispatch_STORE64 (n : SyscallNumbers) (host : Host) (s : Sys64) :
    dispatch n host X64_STORE s = s.onVM case_STORE := rfl
theorem dispatch_OUT64 (n : SyscallNumbers) (host : Host) (s : Sys64) :
    dispatch n host X64_OUT s = case_OUT s := rfl
theorem dispatch_PUSH64 (n : SyscallNumbers) (host : Host) (s : Sys64) :
    dispatch n host X64_PUSH s = s.onVM case_PUSH := rfl
theorem dispatch_POP64 (n : SyscallNumbers) (host : Host) (s : Sys64) :
    dispatch n host X64_POP s = s.onVM case_POP := rfl

theorem case_MOVI_invalid64 (vm : VM64) (h : vm.rip + 10 < VM64_RAM_SIZE)
    (hr : vm.ram (vm.rip + 1) ≥ 16) :
    case_MOVI vm.fetch = { vm.fetch with rip := vm.rip + 1 + 9 } := by
  unfold VM64_RAM_SIZE at h
  have e1 : (vm.rip + 1) % 2 ^ 64 = vm.rip + 1 := Nat.mod_eq_of_lt (by omega)
  have e2 : (vm.rip + 1 + 1) % 2 ^ 64 = vm.rip + 2 := Nat.mod_eq_of_lt (by omega)
  have e3 : (vm.rip + 2 + 8) % 2 ^ 64 = vm.rip + 1 + 9 := by omega
  have e4 : (vm.rip + 1 + 9) % 2 ^ 64 = vm.rip + 10 := by omega
  have h1 : ¬ (vm.rip + 10 ≥ VM64_RAM_SIZE) := by unfold VM64_RAM_SIZE; omega
  have hr1 : ¬ vm.ram (vm.rip + 1) < 16 := by omega
  simp only [case_MOVI, VM64.fetch, VM64.advance, e1, e2, e3, e4, if_neg h1, VM64_REG_COUNT, hr1,
    if_false]

theorem twoRegs_invalid64 (vm : VM64) (upd : VM64 → Nat → Nat → VM64)
    (h : vm.rip + 2 < VM64_RAM_SIZE)
    (hr : vm.ram (vm.rip + 1) ≥ 16 ∨ vm.ram (vm.rip + 2) ≥ 16) :
    twoRegs vm.fetch upd = { vm.fetch with rip := vm.rip + 1 + 2 } := by
  unfold VM64_RAM_SIZE at h
  have e1 : (vm.rip + 1) % 2 ^ 64 = vm.rip + 1 := Nat.mod_eq_of_lt (by omega)
  have e2 : (vm.rip + 1 + 1) % 2 ^ 64 = vm.rip + 2 := Nat.mod_eq_of_lt (by omega)
  have e3 : (vm.rip + 2 + 1) % 2 ^ 64 = vm.rip + 1 + 2 := by omega
  have h1 : ¬ (vm.rip + 2 ≥ VM64_RAM_SIZE) := by unfold VM64_RAM_SIZE; omega
  have hr1 : ¬ (vm.ram (vm.rip + 1) < 16 ∧ vm.ram (vm.rip + 2) < 16) := by omega
  simp only [twoRegs, VM64.fetch, VM64.advance, e1, e2, e3, if_neg h1, VM64_REG_COUNT,
    if_neg hr1]

theorem regAddr64_invalid (vm : VM64) (k : VM64 → Nat → Nat → VM64)
    (h : vm.rip + 9 < VM64_RAM_SIZE) (hr : vm.ram (vm.rip + 1) ≥ 16)
    (hk : ∀ v reg addr, reg ≥ 16 → k v reg addr = v) :
    regAddr64 vm.fetch k = { vm.fetch with rip := vm.rip + 1 + 9 } := by
  unfold VM64_RAM_SIZE at h
  have e1 : (vm.rip + 1) % 2 ^ 64 = vm.rip + 1 := Nat.mod_eq_of_lt (by omega)
  have e2 : (vm.rip + 1 + 1) % 2 ^ 64 = vm.rip + 2 := Nat.mod_eq_of_lt (by omega)
  have e3 : (vm.rip + 2 + 8) % 2 ^ 64 = vm.rip + 1 + 9 := by omega
  have e4 : (vm.rip + 1 + 2) % 2 ^ 64 = vm.rip + 3 := by omega
  have h1 : ¬ (vm.rip + 3 ≥ VM64_RAM_SIZE) := by unfold VM64_RAM_SIZE; omega
  simp only [regAddr64, VM64.fetch, VM64.advance, e1, e2, e3, e4, if_neg h1]
  rw [hk _ _ _ hr]

theorem case_LOAD_invalid64 (v : VM64) (reg addr : Nat) (h : reg ≥ 16) :
    (if reg < VM64_REG_COUNT ∧ addr < VM64_RAM_SIZE then v.setReg reg (v.ram addr) else v)
      = v := by
  have hr1 : ¬ (reg < VM64_REG_COUNT ∧ addr < VM64_RAM_SIZE) := by unfold VM64_REG_COUNT; omega
  rw [if_neg hr1]

theorem case_STORE_invalid64 (v : VM64) (reg addr : Nat) (h : reg ≥ 16) :
    (if reg < VM64_REG_COUNT ∧ addr < VM64_RAM_SIZE then
      { v with ram := setAt v.ram addr ((v.regs reg &&& 0xFF) % 2 ^ 8) } else v) = v := by
  have hr1 : ¬ (reg < VM64_REG_COUNT ∧ addr < VM64_RAM_SIZE) := by unfold VM64_REG_COUNT; omega
  rw [if_neg hr1]

theorem case_OUT_invalid64 (s : Sys64) (out : List Nat) (h : s.vm.rip + 1 < VM64_RAM_SIZE)
    (hr : s.vm.ram (s.vm.rip + 1) ≥ 16) :
    case_OUT { s with vm := s.vm.fetch, stdout := out } =
      { s with vm := { s.vm.fetch with rip := s.vm.rip + 1 + 1 }, stdout := out } := by
  have h0 := h
  unfold VM64_RAM_SIZE at h0
  have e1 : (s.vm.rip + 1) % 2 ^ 64 = s.vm.rip + 1 := Nat.mod_eq_of_lt (by omega)
  have e2 : (s.vm.rip + 1 + 1) % 2 ^ 64 = s.vm.rip + 1 + 1 := Nat.mod_eq_of_lt (by omega)
  have h1 : ¬ (s.vm.rip + 1 ≥ VM64_RAM_SIZE) := by omega
  have hr1 : ¬ s.vm.ram (s.vm.rip + 1) < 16 := by omega
  simp only [case_OUT, VM64.fetch, VM64.advance, e1, e2, if_neg h1, VM64_REG_COUNT, hr1,
    if_false]

theorem case_PUSH_invalid64 (vm : VM64) (h : vm.rip + 1 < VM64_RAM_SIZE)
    (hr : vm.ram (vm.rip + 1) ≥ 16) :
    case_PUSH vm.fetch = { vm.fetch with rip := vm.rip + 1 + 1 } := by
  have h0 := h
  unfold VM64_RAM_SIZE at h0
  have e1 : (vm.rip + 1) % 2 ^ 64 = vm.rip + 1 := Nat.mod_eq_of_lt (by omega)
  have e2 : (vm.rip + 1 + 1) % 2 ^ 64 = vm.rip + 1 + 1 := Nat.mod_eq_of_lt (by omega)
  have h1 : ¬ (vm.rip + 1 ≥ VM64_RAM_SIZE) := by omega
  have hr1 : ¬ vm.ram (vm.rip + 1) < 16 := by omega
  simp only [case_PUSH, VM64.fetch, VM64.advance, e1, e2, if_neg h1, VM64_REG_COUNT, hr1,
    false_and, if_false]

theorem case_POP_invalid64 (vm : VM64) (h : vm.rip + 1 < VM64_RAM_SIZE)
    (hr : vm.ram (vm.rip + 1) ≥ 16) :
    case_POP vm.fetch = { vm.fetch with rip := vm.rip + 1 + 1 } := by
  have h0 := h
  unfold VM64_RAM_SIZE at h0
  have e1 : (vm.rip + 1) % 2 ^ 64 = vm.rip + 1 := Nat.mod_eq_of_lt (by omega)
  have e2 : (vm.rip + 1 + 1) % 2 ^ 64 = vm.rip + 1 + 1 := Nat.mod_eq_of_lt (by omega)
  have h1 : ¬ (vm.rip + 1 ≥ VM64_RAM_SIZE) := by omega
  have hr1 : ¬ vm.ram (vm.rip + 1) < 16 := by omega
  simp only [case_POP, VM64.fetch, VM64.advance, e1, e2, if_neg h1, VM64_REG_COUNT, hr1,
    false_and, if_false]

/-- One step of the 64-bit machine over an instruction inside memory (a `MOVI`
ending before the last byte of memory) that has a register operand out of
range: only RIP, the counters and the debug line move. -/
theorem invalid_register_step64 (n : SyscallNumbers) (host : Host) (s : Sys64)
    (hh : s.vm.halted = false)
    (hin : s.vm.rip + operandBytes (s.vm.ram s.vm.rip) < VM64_RAM_SIZE)
    (hmovi : s.vm.ram s.vm.rip = X64_MOVI → s.vm.rip + 10 < VM64_RAM_SIZE)
    (hinv : invalidRegister s.vm) :
    vm64_execute_one n host s =
      { s with
        vm := { s.vm.fetch with rip := s.vm.rip + 1 + operandBytes (s.vm.ram s.vm.rip) }
        stdout := s.stdout ++ debugLine s.vm.fetch (s.vm.ram s.vm.rip) } := by
  rw [exec64_running n host s hh (by omega)]
  unfold invalidRegister at hinv
  simp only [VM64_REG_COUNT] at hinv
  generalize s.vm.ram s.vm.rip = op at hin hmovi hinv ⊢
  rcases hinv with ⟨hm, hr⟩ | ⟨hm, hr⟩
  · simp only [oneRegOpcodes, List.mem_cons, List.mem_singleton, List.not_mem_nil, or_false]
      at hm
    rcases hm with rfl | rfl | rfl | rfl | rfl | rfl
    · have hk : operandBytes X64_MOVI = 9 := by decide
      rw [hk]
      rw [dispatch_MOVI64]
      simp only [Sys64.onVM]
      rw [case_MOVI_invalid64 s.vm (hmovi rfl) hr]
    · have hk : operandBytes X64_LOAD = 9 := by decide
      rw [hk] at hin ⊢
      rw [dispatch_LOAD64]
      simp only [Sys64.onVM, case_LOAD]
      rw [regAddr64_invalid s.vm _ hin hr fun v reg addr h => case_LOAD_invalid64 v reg addr h]
    · have hk : operandBytes X64_STORE = 9 := by decide
      rw [hk] at hin ⊢
      rw [dispatch_STORE64]
      simp only [Sys64.onVM, case_STORE]
      rw [regAddr64_invalid s.vm _ hin hr fun v reg addr h => case_STORE_invalid64 v reg addr h]
    · have hk : operandBytes X64_OUT = 1 := by decide
      rw [hk] at hin ⊢
      rw [dispatch_OUT64, case_OUT_invalid64 s _ hin hr]
    · have hk : operandBytes X64_PUSH = 1 := by decide
      rw [hk] at hin ⊢
      rw [dispatch_PUSH64]
      simp only [Sys64.onVM]
      rw [case_PUSH_invalid64 s.vm hin hr]
    · have hk : operandBytes X64_POP = 1 := by decide
      rw [hk] at hin ⊢
      rw [dispatch_POP64]
      simp only [Sys64.onVM]
      rw [case_POP_invalid64 s.vm hin hr]
  · simp only [twoRegOpcodes, List.mem_cons, List.mem_singleton, List.not_mem_nil, or_false]
      at hm
    rcases hm with rfl | rfl
    · have hk : operandBytes X64_ADD = 2 := by decide
      rw [hk] at hin ⊢
      rw [dispatch_ADD64]
      simp only [Sys64.onVM, case_ADD]
      rw [twoRegs_invalid64 s.vm _ hin hr]
    · have hk : operandBytes X64_SUB = 2 := by decide
      rw [hk] at hin ⊢
      rw [dispatch_SUB64]
      simp only [Sys64.onVM, case_SUB]
      rw [twoRegs_invalid64 s.vm _ hin hr]

end X64

namespace X64

open VM8 (setAt text fmtHex fmtDec)

/-- Claim C22 (amended): an invalid register index makes the instruction a
no-op on both machines.  For a non-halted state whose instruction at PC/RIP
lies inside memory (on the 64-bit machine a `MOVI` ending before the last byte
of memory) and has a register operand byte `>= N` (`N = 8`, resp. `16`; for a
two-register instruction `dst` or `src`), the step leaves every register,
every memory byte, the stack pointer and the halt flag unchanged, reads no
input, prints no diagnostic, makes no host call, takes no jump and leaves
PC/RIP after the full encoding (modulo 2^16 on the 8-bit machine).  Stdout
receives nothing but the debug line of the instruction, which is empty when
debug mode is off. -/
theorem invalid_register_noop (s : VM8.Sys) (n : SyscallNumbers) (host : Host) (t : Sys64)
    (hh8 : s.vm.halted = false)
    (hin8 : s.vm.pc + VM8.operandBytes (s.vm.ram s.vm.pc) < 2 ^ 16)
    (hinv8 : VM8.invalidRegister s.vm)
    (hh64 : t.vm.halted = false)
    (hin64 : t.vm.rip + operandBytes (t.vm.ram t.vm.rip) < VM64_RAM_SIZE)
    (hmovi : t.vm.ram t.vm.rip = X64_MOVI → t.vm.rip + 10 < VM64_RAM_SIZE)
    (hinv64 : invalidRegister t.vm) :
    ((VM8.vm_execute_one s).vm.regs = s.vm.regs ∧
      (VM8.vm_execute_one s).vm.ram = s.vm.ram ∧
      (VM8.vm_execute_one s).vm.sp = s.vm.sp ∧
      (VM8.vm_execute_one s).vm.halted = false ∧
      (VM8.vm_execute_one s).vm.pc =
        (s.vm.pc + 1 + VM8.operandBytes (s.vm.ram s.vm.pc)) % 2 ^ 16 ∧
      (VM8.vm_execute_one s).stdout = s.stdout ++ VM8.debugLine s.vm (s.vm.ram s.vm.pc) ∧
      (s.vm.debug_mode = 0 → (VM8.vm_execute_one s).stdout = s.stdout) ∧
      (VM8.vm_execute_one s).stdin = s.stdin ∧
      (VM8.vm_execute_one s).stderr = s.stderr) ∧
    ((vm64_execute_one n host t).vm.regs = t.vm.regs ∧
      (vm64_execute_one n host t).vm.ram = t.vm.ram ∧
      (vm64_execute_one n host t).vm.rsp = t.vm.rsp ∧
      (vm64_execute_one n host t).vm.halted = false ∧
      (vm64_execute_one n host t).vm.rip = t.vm.rip + 1 + operandBytes (t.vm.ram t.vm.rip) ∧
      (vm64_execute_one n host t).stdout =
        t.stdout ++ debugLine t.vm.fetch (t.vm.ram t.vm.rip) ∧
      (t.vm.debug_mode = 0 → (vm64_execute_one n host t).stdout = t.stdout) ∧
      (vm64_execute_one n host t).stderr = t.stderr ∧
      (vm64_execute_one n host t).calls = t.calls) := by
  rw [VM8.invalid_register_step s hh8 hin8 hinv8,
    invalid_register_step64 n host t hh64 hin64 hmovi hinv64]
  refine ⟨⟨rfl, rfl, rfl, hh8, rfl, rfl, fun hd => ?_, rfl, rfl⟩,
    ⟨rfl, rfl, rfl, hh64, rfl, rfl, fun hd => ?_, rfl, rfl⟩⟩
  · show s.stdout ++ VM8.debugLine s.vm (s.vm.ram s.vm.pc) = s.stdout
    simp only [VM8.debugLine, hd, ne_eq, not_true_eq_false, if_false, List.append_nil]
  · show t.stdout ++ debugLine t.vm.fetch (t.vm.ram t.vm.rip) = t.stdout
    have hd1 : t.vm.fetch.debug_mode = 0 := hd
    simp only [debugLine, hd1, ne_eq, not_true_eq_false, if_false, List.append_nil]

/-- `ADD 1, 9` on the 8-bit machine and `ADD 0, 16` on the 64-bit machine have
a source register out of range and satisfy the hypotheses of
`invalid_register_noop`: the destination registers keep their values. -/
theorem invalid_register_noop_witness :
    VM8.invalidRegister (VM8.operandState 0x20 9 5 7).vm ∧ invalidRegister addInvalid.vm ∧
    (VM8.vm_execute_one (VM8.operandState 0x20 9 5 7)).vm.regs 1 = 5 ∧
    (vm64_execute_one linux_x86_64 acceptingHost addInvalid).vm.regs 0 = 5 := by
  have h := invalid_register_noop (VM8.operandState 0x20 9 5 7) linux_x86_64 acceptingHost
    addInvalid rfl (by decide) (by decide) rfl (by decide) (by decide) (by decide)
  refine ⟨by decide, by decide, ?_, ?_⟩
  · rw [h.1.1]; rfl
  · rw [h.2.1]; rfl

/-- Claim C22 as stated fails on three inputs.  On the 8-bit machine `NOT 8` in
debug mode is a no-op on the machine state but the step prints the debug line
of the instruction to stdout; `MOVI 8, ..` at 0xFFFC has its register byte
inside memory and its immediate past the end of memory, and the step sets the
halt flag.  On the 64-bit machine `MOVI 16, 0` in the last ten bytes of memory
lies inside memory and has an invalid register operand, yet the step sets the
halt flag. -/
theorem invalid_register_counterexample :
    VM8.notInvalidDebug.vm.halted = false ∧ VM8.invalidRegister VM8.notInvalidDebug.vm ∧
    (VM8.vm_execute_one VM8.notInvalidDebug).stdout = text "[PC: 0x0000] Opcode: 0x28\n" ∧
    (VM8.vm_execute_one VM8.notInvalidDebug).stdout ≠ VM8.notInvalidDebug.stdout ∧
    VM8.moviInvalidAtTop.vm.halted = false ∧ VM8.invalidRegister VM8.moviInvalidAtTop.vm ∧
    (VM8.vm_execute_one VM8.moviInvalidAtTop).vm.halted = true ∧
    moviAtEnd.vm.halted = false ∧ invalidRegister moviAtEnd.vm ∧
    moviAtEnd.vm.rip + operandBytes (moviAtEnd.vm.ram moviAtEnd.vm.rip) = VM64_RAM_SIZE - 1 ∧
    (vm64_execute_one linux_x86_64 acceptingHost moviAtEnd).vm.halted = true := by
  refine ⟨rfl, by decide, by decide, by decide, rfl, by decide, by decide, rfl, by decide,
    by decide, by decide⟩

end X64

namespace X64

open VM8 (setAt text fmtHex fmtDec)

/-! ## Memory indices of instruction decoding -/

theorem mem_fetched (a k i : Nat) : i ∈ fetched a k ↔ ∃ j, j < k ∧ (a + j) % 2 ^ 64 = i := by
  simp only [fetched, List.mem_map, List.mem_range]

/-- Apart from `LOAD` and `STORE`, every index used to fetch the opcode and
the operand bytes lies inside memory. -/
theorem fetchReads_in_bounds (s : Sys64) (hl : s.vm.ram s.vm.rip ≠ X64_LOAD)
    (hs : s.vm.ram s.vm.rip ≠ X64_STORE) :
    ∀ i, i ∈ fetchReads s → i < VM64_RAM_SIZE := by
  intro i hi
  unfold fetchReads at hi
  split_ifs at hi with hstop
  · exact absurd hi (List.not_mem_nil i)
  · have hrip : s.vm.rip < VM64_RAM_SIZE := by
      by_contra hc
      exact hstop (Or.inr (Nat.le_of_not_lt hc))
    have hf : s.vm.fetch.rip = s.vm.rip + 1 := fetch_rip s.vm hrip
    simp only [hf] at hi
    rcases List.mem_cons.mp hi with rfl | hi
    · exact hrip
    · unfold VM64_RAM_SIZE at *
      split_ifs at hi with h1 h2 h3 h4 h5 h6 h7 h8 h9 h10
      all_goals first
        | exact absurd hi (List.not_mem_nil i)
        | (obtain ⟨j, hj, rfl⟩ := (mem_fetched _ _ _).mp hi
           omega)

/-- Claim C24 fails for `LOAD` and `STORE`; it holds for the other opcodes.
With `LOAD` four bytes before the end of memory the bounds check
`rip + 2 >= VM64_RAM_SIZE` passes, the step fetches the register byte and all
eight address bytes, six of them at the indices 0x800000 .. 0x800005 past the
end of the 8 MiB memory, and it does not halt.  For every opcode other than
`LOAD` and `STORE` all indices used to fetch opcode and operands lie inside
memory. -/
theorem load_store_decode_out_of_bounds :
    loadAtEnd.vm.halted = false ∧ loadAtEnd.vm.rip = 0x7FFFFC ∧
    loadAtEnd.vm.ram loadAtEnd.vm.rip = X64_LOAD ∧
    fetchReads loadAtEnd =
      [0x7FFFFC, 0x7FFFFD, 0x7FFFFE, 0x7FFFFF, 0x800000, 0x800001, 0x800002, 0x800003,
       0x800004, 0x800005] ∧
    (∃ i, i ∈ fetchReads loadAtEnd ∧ VM64_RAM_SIZE ≤ i) ∧
    (vm64_execute_one linux_x86_64 acceptingHost loadAtEnd).vm.halted = false ∧
    (vm64_execute_one linux_x86_64 acceptingHost loadAtEnd).vm.rip = 0x800006 ∧
    (∀ s : Sys64, s.vm.ram s.vm.rip ≠ X64_LOAD → s.vm.ram s.vm.rip ≠ X64_STORE →
      ∀ i, i ∈ fetchReads s → i < VM64_RAM_SIZE) := by
  refine ⟨by decide, by decide, by decide, by decide, ⟨0x800000, by decide, by decide⟩,
    by decide, by decide, fun s hl hs => fetchReads_in_bounds s hl hs⟩

end X64

namespace VM8

/-! ## Checked indexing never fails -/

theorem readRam_lt (vm : VM) (i : Nat) (h : i < VM_RAM_SIZE) :
    vm.readRam i = some (vm.ram i) := if_pos h

theorem writeRam_lt (vm : VM) (i v : Nat) (h : i < VM_RAM_SIZE) :
    vm.writeRam i v = some { vm with ram := setAt vm.ram i v } := if_pos h

theorem readReg_lt (vm : VM) (r : Nat) (h : r < VM_REG_COUNT) :
    vm.readReg r = some (vm.regs r) := if_pos h

theorem writeReg_lt (vm : VM) (r v : Nat) (h : r < VM_REG_COUNT) :
    vm.writeReg r v = some (vm.setReg r v) := if_pos h

theorem checked_be16_eq (vm : VM) (a : Nat) (h : a + 1 < VM_RAM_SIZE) :
    checked_be16 vm a = some (be16 vm.ram a) := by
  simp [checked_be16, be16, readRam_lt vm a (by omega), readRam_lt vm (a + 1) h]

theorem checked_be32_eq (vm : VM) (a : Nat) (h : a + 3 < VM_RAM_SIZE) :
    checked_be32 vm a = some (be32 vm.ram a) := by
  simp [checked_be32, be32, readRam_lt vm a (by omega), readRam_lt vm (a + 1) (by omega),
    readRam_lt vm (a + 2) (by omega), readRam_lt vm (a + 3) h]

theorem checked_MOVI_eq (vm : VM) (hpc : vm.pc < 2 ^ 16) :
    checked_MOVI vm = some (case_MOVI vm) := by
  unfold checked_MOVI case_MOVI
  by_cases h : vm.pc + 4 ≥ VM_RAM_SIZE
  · rw [if_pos h, if_pos h]
  · rw [if_neg h, if_neg h]
    have h0 := h
    unfold VM_RAM_SIZE at h0
    have e1 : (vm.advance 1).pc = vm.pc + 1 := by
      show (vm.pc + 1) % 2 ^ 16 = vm.pc + 1
      omega
    have hb : checked_be32 (vm.advance 1) (vm.advance 1).pc
        = some (be32 (vm.advance 1).ram (vm.advance 1).pc) :=
      checked_be32_eq _ _ (by rw [e1]; omega)
    rw [readRam_lt vm vm.pc (by omega)]
    simp only [Option.bind_eq_bind, Option.some_bind, hb, Option.pure_def]
    by_cases hr : vm.ram vm.pc < VM_REG_COUNT
    · rw [if_pos hr, if_pos hr, writeReg_lt _ _ _ hr]
    · rw [if_neg hr, if_neg hr]

end VM8

namespace VM8

theorem advance_pc_lt (vm : VM) (k : Nat) : (vm.advance k).pc < VM_RAM_SIZE := by
  show (vm.pc + k) % 2 ^ 16 < VM_RAM_SIZE
  unfold VM_RAM_SIZE
  omega

theorem checked_binop_eq (f : Nat → Nat → Nat) (v : VM) (dst src : Nat)
    (hd : dst < VM_REG_COUNT) (hs : src < VM_REG_COUNT) :
    checked_binop f v dst src = some (v.setReg dst (f (v.regs dst) (v.regs src))) := by
  simp [checked_binop, readReg_lt v dst hd, readReg_lt v src hs, writeReg_lt v dst _ hd]

theorem checked_divop_eq (f : Nat → Nat → Nat) (v : VM) (dst src : Nat)
    (hd : dst < VM_REG_COUNT) (hs : src < VM_REG_COUNT) :
    checked_divop f v dst src =
      some (if v.regs src ≠ 0 then v.setReg dst (f (v.regs dst) (v.regs src)) else v) := by
  by_cases hz : v.regs src ≠ 0
  · simp [checked_divop, readReg_lt v dst hd, readReg_lt v src hs, writeReg_lt v dst _ hd, hz]
  · simp [checked_divop, readReg_lt v src hs, hz]

theorem checked_twoRegs_eq (vm : VM) (upd : VM → Nat → Nat → VM)
    (cupd : VM → Nat → Nat → Option VM)
    (h : ∀ v dst src, dst < VM_REG_COUNT → src < VM_REG_COUNT →
      cupd v dst src = some (upd v dst src)) :
    checked_twoRegs vm cupd = some (twoRegs vm upd) := by
  unfold checked_twoRegs twoRegs
  by_cases hc : vm.pc + 1 ≥ VM_RAM_SIZE
  · rw [if_pos hc, if_pos hc]
  · rw [if_neg hc, if_neg hc]
    rw [readRam_lt vm vm.pc (by omega)]
    simp only [Option.bind_eq_bind, Option.some_bind, Option.pure_def,
      readRam_lt _ _ (advance_pc_lt vm 1)]
    by_cases hr : vm.ram vm.pc < VM_REG_COUNT ∧ (vm.advance 1).ram (vm.advance 1).pc < VM_REG_COUNT
    · rw [if_pos hr, if_pos hr, h _ _ _ hr.1 hr.2]
    · rw [if_neg hr, if_neg hr]

theorem checked_NOT_eq (vm : VM) (hpc : vm.pc < 2 ^ 16) :
    checked_NOT vm = some (case_NOT vm) := by
  unfold checked_NOT case_NOT
  have hc : ¬ vm.pc ≥ VM_RAM_SIZE := by unfold VM_RAM_SIZE; omega
  rw [if_neg hc, if_neg hc, readRam_lt vm vm.pc (by omega)]
  simp only [Option.bind_eq_bind, Option.some_bind, Option.pure_def]
  by_cases hr : vm.ram vm.pc < VM_REG_COUNT
  · rw [if_pos hr, if_pos hr, readReg_lt _ _ hr]
    simp only [Option.some_bind, writeReg_lt _ _ _ hr]
  · rw [if_neg hr, if_neg hr]

theorem checked_regImm8_eq (vm : VM) (f : Nat → Nat → Nat) :
    checked_regImm8 vm f =
      some (regImm8 vm fun v dst imm => v.setReg dst (f (v.regs dst) imm)) := by
  unfold checked_regImm8 regImm8
  by_cases hc : vm.pc + 1 ≥ VM_RAM_SIZE
  · rw [if_pos hc, if_pos hc]
  · rw [if_neg hc, if_neg hc]
    rw [readRam_lt vm vm.pc (by omega)]
    simp only [Option.bind_eq_bind, Option.some_bind, Option.pure_def,
      readRam_lt _ _ (advance_pc_lt vm 1)]
    by_cases hr : vm.ram vm.pc < VM_REG_COUNT ∧ (vm.advance 1).ram (vm.advance 1).pc < 64
    · rw [if_pos hr, if_pos hr, readReg_lt _ _ hr.1]
      simp only [Option.some_bind, writeReg_lt _ _ _ hr.1]
    · rw [if_neg hr, if_neg hr]

theorem checked_regAddr16_eq (vm : VM) (k : VM → Nat → Nat → VM)
    (ck : VM → Nat → Nat → Option VM) (hpc : vm.pc < 2 ^ 16)
    (h : ∀ v reg addr, ck v reg addr = some (k v reg addr)) :
    checked_regAddr16 vm ck = some (regAddr16 vm k) := by
  unfold checked_regAddr16 regAddr16
  by_cases hc : vm.pc + 2 ≥ VM_RAM_SIZE
  · rw [if_pos hc, if_pos hc]
  · rw [if_neg hc, if_neg hc]
    have h0 := hc
    unfold VM_RAM_SIZE at h0
    have e1 : (vm.advance 1).pc = vm.pc + 1 := by
      show (vm.pc + 1) % 2 ^ 16 = vm.pc + 1
      omega
    have hb : checked_be16 (vm.advance 1) (vm.advance 1).pc
        = some (be16 (vm.advance 1).ram (vm.advance 1).pc) :=
      checked_be16_eq _ _ (by rw [e1]; omega)
    rw [readRam_lt vm vm.pc (by omega)]
    simp only [Option.bind_eq_bind, Option.some_bind, hb, h]

theorem checked_LOAD_eq (vm : VM) (hpc : vm.pc < 2 ^ 16) :
    checked_LOAD vm = some (case_LOAD vm) := by
  unfold checked_LOAD case_LOAD
  refine checked_regAddr16_eq vm _ _ hpc fun v reg addr => ?_
  by_cases hr : reg < VM_REG_COUNT ∧ addr < VM_RAM_SIZE
  · simp only [if_pos hr, readRam_lt v addr hr.2, Option.bind_eq_bind, Option.some_bind,
      writeReg_lt v reg _ hr.1]
  · simp only [if_neg hr, Option.pure_def]

theorem checked_STORE_eq (vm : VM) (hpc : vm.pc < 2 ^ 16) :
    checked_STORE vm = some (case_STORE vm) := by
  unfold checked_STORE case_STORE
  refine checked_regAddr16_eq vm _ _ hpc fun v reg addr => ?_
  by_cases hr : reg < VM_REG_COUNT ∧ addr < VM_RAM_SIZE
  · simp only [if_pos hr, readReg_lt v reg hr.1, Option.bind_eq_bind, Option.some_bind,
      writeRam_lt v addr _ hr.2]
  · simp only [if_neg hr, Option.pure_def]

theorem checked_jumpIf_eq (P : Nat → Prop) [DecidablePred P] (vm : VM) (hpc : vm.pc < 2 ^ 16) :
    checked_jumpIf (fun x => decide (P x)) vm =
      some (regAddr16 vm fun v reg addr =>
        if reg < VM_REG_COUNT ∧ P (v.regs reg) then { v with pc := addr } else v) := by
  unfold checked_jumpIf
  refine checked_regAddr16_eq vm _ _ hpc fun v reg addr => ?_
  by_cases hr : reg < VM_REG_COUNT
  · by_cases hp : P (v.regs reg)
    · simp [hr, hp, readReg_lt v reg hr]
    · simp [hr, hp, readReg_lt v reg hr]
  · simp [hr]

end VM8

namespace VM8

theorem checked_OUT_eq (s : Sys) (hpc : s.vm.pc < 2 ^ 16) :
    checked_OUT s = some (case_OUT s) := by
  unfold checked_OUT case_OUT
  have hc : ¬ s.vm.pc ≥ VM_RAM_SIZE := by unfold VM_RAM_SIZE; omega
  rw [if_neg hc, if_neg hc, readRam_lt s.vm s.vm.pc (by omega)]
  simp only [Option.bind_eq_bind, Option.some_bind, Option.pure_def]
  by_cases hr : s.vm.ram s.vm.pc < VM_REG_COUNT
  · rw [if_pos hr, if_pos hr, readReg_lt _ _ hr]
    simp only [Option.some_bind]
  · rw [if_neg hr, if_neg hr]

theorem checked_IN_eq (s : Sys) (hpc : s.vm.pc < 2 ^ 16) :
    checked_IN s = some (case_IN s) := by
  unfold checked_IN case_IN
  have hc : ¬ s.vm.pc ≥ VM_RAM_SIZE := by unfold VM_RAM_SIZE; omega
  rw [if_neg hc, if_neg hc, readRam_lt s.vm s.vm.pc (by omega)]
  simp only [Option.bind_eq_bind, Option.some_bind, Option.pure_def]
  by_cases hr : s.vm.ram s.vm.pc < VM_REG_COUNT
  · rw [if_pos hr, if_pos hr]
    cases s.stdin with
    | nil => simp only [writeReg_lt _ _ _ hr, Option.some_bind]
    | cons ch rest => simp only [writeReg_lt _ _ _ hr, Option.some_bind]
  · rw [if_neg hr, if_neg hr]

theorem checked_JMP_eq (vm : VM) : checked_JMP vm = some (case_JMP vm) := by
  unfold checked_JMP case_JMP
  by_cases hc : vm.pc + 1 ≥ VM_RAM_SIZE
  · rw [if_pos hc, if_pos hc]
  · rw [if_neg hc, if_neg hc, checked_be16_eq vm vm.pc (by omega)]
    simp only [Option.bind_eq_bind, Option.some_bind, Option.pure_def]

theorem checked_CALL_eq (vm : VM) (hsp : vm.sp < 2 ^ 16) :
    checked_CALL vm = some (case_CALL vm) := by
  unfold checked_CALL case_CALL
  by_cases hc : vm.pc + 1 ≥ VM_RAM_SIZE
  · rw [if_pos hc, if_pos hc]
  · rw [if_neg hc, if_neg hc, checked_be16_eq vm vm.pc (by omega)]
    simp only [Option.bind_eq_bind, Option.some_bind, Option.pure_def]
    have esp : (vm.advance 2).sp = vm.sp := rfl
    by_cases hg : (vm.advance 2).sp > 1
    · rw [if_pos hg, if_pos hg]
      rw [esp] at hg
      have h1 : (vm.advance 2).sp - 2 < VM_RAM_SIZE := by rw [esp]; unfold VM_RAM_SIZE; omega
      have h2 : (vm.advance 2).sp - 2 + 1 < VM_RAM_SIZE := by
        rw [esp]; unfold VM_RAM_SIZE; omega
      simp only [writeRam_lt _ _ _ h1, Option.some_bind, writeRam_lt _ _ _ h2]
    · rw [if_neg hg, if_neg hg]

theorem checked_RET_eq (vm : VM) : checked_RET vm = some (case_RET vm) := by
  unfold checked_RET case_RET
  by_cases hg : vm.sp + 1 < VM_RAM_SIZE
  · rw [if_pos hg, if_pos hg, checked_be16_eq vm vm.sp hg]
    simp only [Option.bind_eq_bind, Option.some_bind, Option.pure_def]
  · rw [if_neg hg, if_neg hg]
    rfl

theorem checked_pushBytes_eq (vm : VM) (val : Nat) (h : vm.sp + 8 ≤ VM_RAM_SIZE) :
    checked_pushBytes vm val = some { vm with ram := pushBytes vm.ram vm.sp val } := by
  unfold checked_pushBytes pushBytes
  rw [range_eight]
  have h0 : vm.sp + 0 < VM_RAM_SIZE := by omega
  have h1 : vm.sp + 1 < VM_RAM_SIZE := by omega
  have h2 : vm.sp + 2 < VM_RAM_SIZE := by omega
  have h3 : vm.sp + 3 < VM_RAM_SIZE := by omega
  have h4 : vm.sp + 4 < VM_RAM_SIZE := by omega
  have h5 : vm.sp + 5 < VM_RAM_SIZE := by omega
  have h6 : vm.sp + 6 < VM_RAM_SIZE := by omega
  have h7 : vm.sp + 7 < VM_RAM_SIZE := by omega
  simp only [List.foldlM_cons, List.foldlM_nil, List.foldl, Option.bind_eq_bind,
    Option.pure_def, writeRam_lt _ _ _ h0, writeRam_lt _ _ _ h1, writeRam_lt _ _ _ h2,
    writeRam_lt _ _ _ h3, writeRam_lt _ _ _ h4, writeRam_lt _ _ _ h5, writeRam_lt _ _ _ h6,
    writeRam_lt _ _ _ h7, Option.some_bind]

theorem checked_popBytes_eq (vm : VM) (h : vm.sp + 8 ≤ VM_RAM_SIZE) :
    checked_popBytes vm = some (popBytes vm.ram vm.sp) := by
  unfold checked_popBytes popBytes
  rw [range_eight]
  have h0 : vm.sp + 0 < VM_RAM_SIZE := by omega
  have h1 : vm.sp + 1 < VM_RAM_SIZE := by omega
  have h2 : vm.sp + 2 < VM_RAM_SIZE := by omega
  have h3 : vm.sp + 3 < VM_RAM_SIZE := by omega
  have h4 : vm.sp + 4 < VM_RAM_SIZE := by omega
  have h5 : vm.sp + 5 < VM_RAM_SIZE := by omega
  have h6 : vm.sp + 6 < VM_RAM_SIZE := by omega
  have h7 : vm.sp + 7 < VM_RAM_SIZE := by omega
  simp only [List.foldlM_cons, List.foldlM_nil, List.foldl, Option.bind_eq_bind,
    Option.pure_def, readRam_lt _ _ h0, readRam_lt _ _ h1, readRam_lt _ _ h2,
    readRam_lt _ _ h3, readRam_lt _ _ h4, readRam_lt _ _ h5, readRam_lt _ _ h6,
    readRam_lt _ _ h7, Option.some_bind]

theorem checked_PUSH_eq (vm : VM) (hpc : vm.pc < 2 ^ 16) (hsp : vm.sp < 2 ^ 16) :
    checked_PUSH vm = some (case_PUSH vm) := by
  unfold checked_PUSH case_PUSH
  have hc : ¬ vm.pc ≥ VM_RAM_SIZE := by unfold VM_RAM_SIZE; omega
  rw [if_neg hc, if_neg hc, readRam_lt vm vm.pc (by omega)]
  simp only [Option.bind_eq_bind, Option.some_bind, Option.pure_def]
  have esp : (vm.advance 1).sp = vm.sp := rfl
  by_cases hg : vm.ram vm.pc < VM_REG_COUNT ∧ (vm.advance 1).sp > 7
  · rw [if_pos hg, if_pos hg, readReg_lt _ _ hg.1]
    have hg2 := hg.2
    rw [esp] at hg2
    simp only [Option.some_bind]
    rw [checked_pushBytes_eq _ _ (by
      show (vm.advance 1).sp - 8 + 8 ≤ VM_RAM_SIZE
      rw [esp]; unfold VM_RAM_SIZE; omega)]
  · rw [if_neg hg, if_neg hg]

theorem checked_POP_eq (vm : VM) (hpc : vm.pc < 2 ^ 16) :
    checked_POP vm = some (case_POP vm) := by
  unfold checked_POP case_POP
  have hc : ¬ vm.pc ≥ VM_RAM_SIZE := by unfold VM_RAM_SIZE; omega
  rw [if_neg hc, if_neg hc, readRam_lt vm vm.pc (by omega)]
  simp only [Option.bind_eq_bind, Option.some_bind, Option.pure_def]
  by_cases hg : vm.ram vm.pc < VM_REG_COUNT ∧ (vm.advance 1).sp + 8 ≤ VM_RAM_SIZE
  · rw [if_pos hg, if_pos hg, checked_popBytes_eq _ hg.2]
    simp only [Option.some_bind, writeReg_lt _ _ _ hg.1]
    rfl
  · rw [if_neg hg, if_neg hg]

end VM8

namespace VM8

theorem onVMChecked_eq (s : Sys) (f : VM → VM) (cf : VM → Option VM)
    (h : cf s.vm = some (f s.vm)) : s.onVMChecked cf = some (s.onVM f) := by
  unfold Sys.onVMChecked Sys.onVM
  rw [h]
  rfl

theorem checked_dispatch_default (op : Nat) (s : Sys) (h : op ∉ opcodes) :
    checked_dispatch op s = some (case_default op s) := by
  simp only [opcodes, List.mem_cons, List.not_mem_nil, or_false, not_or] at h
  obtain ⟨h1, h2, h3, h4, h5, h6, h7, h8, h9, h10, h11, h12, h13, h14, h15, h16, h17, h18, h19,
    h20, h21, h22, h23, h24, h25, h26, h27⟩ := h
  unfold checked_dispatch
  rw [if_neg h1, if_neg h2, if_neg h3, if_neg h4, if_neg h5, if_neg h6, if_neg h7, if_neg h8,
    if_neg h9, if_neg h10, if_neg h11, if_neg h12, if_neg h13, if_neg h14, if_neg h15,
    if_neg h16, if_neg h17, if_neg h18, if_neg h19, if_neg h20, if_neg h21, if_neg h22,
    if_neg h23, if_neg h24, if_neg h25, if_neg h26, if_neg h27]

theorem checked_binop_twoRegs (f : Nat → Nat → Nat) (vm : VM) :
    checked_twoRegs vm (checked_binop f) =
      some (twoRegs vm fun v dst src => v.setReg dst (f (v.regs dst) (v.regs src))) :=
  checked_twoRegs_eq vm _ _ fun v d r hd hr => checked_binop_eq f v d r hd hr

theorem checked_divop_twoRegs (f : Nat → Nat → Nat) (vm : VM) :
    checked_twoRegs vm (checked_divop f) =
      some (twoRegs vm fun v dst src =>
        if v.regs src ≠ 0 then v.setReg dst (f (v.regs dst) (v.regs src)) else v) :=
  checked_twoRegs_eq vm _ _ fun v d r hd hr => checked_divop_eq f v d r hd hr

/-- The checked `switch` never fails and agrees with the unchecked one. -/
theorem checked_dispatch_eq (op : Nat) (s : Sys) (hpc : s.vm.pc < 2 ^ 16)
    (hsp : s.vm.sp < 2 ^ 16) : checked_dispatch op s = some (dispatch op s) := by
  by_cases hm : op ∈ opcodes
  · simp only [opcodes, List.mem_cons, List.not_mem_nil, or_false] at hm
    rcases hm with rfl | rfl | rfl | rfl | rfl | rfl | rfl | rfl | rfl | rfl | rfl | rfl | rfl |
      rfl | rfl | rfl | rfl | rfl | rfl | rfl | rfl | rfl | rfl | rfl | rfl | rfl | rfl
    · rfl
    · exact onVMChecked_eq s case_MOVI checked_MOVI (checked_MOVI_eq s.vm hpc)
    · exact onVMChecked_eq s case_ADD (fun vm => checked_twoRegs vm (checked_binop (fun a b => (a + b) % 2 ^ 64)))
        (checked_binop_twoRegs (fun a b => (a + b) % 2 ^ 64) s.vm)
    · exact onVMChecked_eq s case_SUB (fun vm => checked_twoRegs vm (checked_binop (fun a b => (a + 2 ^ 64 - b) % 2 ^ 64)))
        (checked_binop_twoRegs (fun a b => (a + 2 ^ 64 - b) % 2 ^ 64) s.vm)
    · exact onVMChecked_eq s case_MUL (fun vm => checked_twoRegs vm (checked_binop (fun a b => (a * b) % 2 ^ 64)))
        (checked_binop_twoRegs (fun a b => (a * b) % 2 ^ 64) s.vm)
    · exact onVMChecked_eq s case_DIV (fun vm => checked_twoRegs vm (checked_divop (fun a b => a / b)))
        (checked_divop_twoRegs (fun a b => a / b) s.vm)
    · exact onVMChecked_eq s case_MOD (fun vm => checked_twoRegs vm (checked_divop (fun a b => a % b)))
        (checked_divop_twoRegs (fun a b => a % b) s.vm)
    · exact onVMChecked_eq s case_AND (fun vm => checked_twoRegs vm (checked_binop (fun a b => a &&& b)))
        (checked_binop_twoRegs (fun a b => a &&& b) s.vm)
    · exact onVMChecked_eq s case_OR (fun vm => checked_twoRegs vm (checked_binop (fun a b => a ||| b)))
        (checked_binop_twoRegs (fun a b => a ||| b) s.vm)
    · exact onVMChecked_eq s case_XOR (fun vm => checked_twoRegs vm (checked_binop (fun a b => a ^^^ b)))
        (checked_binop_twoRegs (fun a b => a ^^^ b) s.vm)
    · exact onVMChecked_eq s case_NOT checked_NOT (checked_NOT_eq s.vm hpc)
    · exact onVMChecked_eq s case_SHL (fun vm => checked_regImm8 vm fun a imm => (a <<< imm) % 2 ^ 64)
        (checked_regImm8_eq s.vm fun a imm => (a <<< imm) % 2 ^ 64)
    · exact onVMChecked_eq s case_SHR (fun vm => checked_regImm8 vm fun a imm => a >>> imm)
        (checked_regImm8_eq s.vm fun a imm => a >>> imm)
    · exact onVMChecked_eq s case_LOAD checked_LOAD (checked_LOAD_eq s.vm hpc)
    · exact onVMChecked_eq s case_STORE checked_STORE (checked_STORE_eq s.vm hpc)
    · exact checked_OUT_eq s hpc
    · exact checked_IN_eq s hpc
    · exact onVMChecked_eq s case_JMP checked_JMP (checked_JMP_eq s.vm)
    · exact onVMChecked_eq s case_JNZ _ (checked_jumpIf_eq (fun x => x ≠ 0) s.vm hpc)
    · exact onVMChecked_eq s case_JZ _ (checked_jumpIf_eq (fun x => x = 0) s.vm hpc)
    · exact onVMChecked_eq s case_JLT _ (checked_jumpIf_eq (fun x => x ≥ 2 ^ 63) s.vm hpc)
    · exact onVMChecked_eq s case_JGT _
        (checked_jumpIf_eq (fun x => 0 < x ∧ x < 2 ^ 63) s.vm hpc)
    · exact onVMChecked_eq s case_CMP (fun vm => checked_twoRegs vm (checked_binop (fun a b => if a ≠ b then 1 else 0)))
        (checked_binop_twoRegs (fun a b => if a ≠ b then 1 else 0) s.vm)
    · exact onVMChecked_eq s case_CALL checked_CALL (checked_CALL_eq s.vm hsp)
    · exact onVMChecked_eq s case_RET checked_RET (checked_RET_eq s.vm)
    · exact onVMChecked_eq s case_PUSH checked_PUSH (checked_PUSH_eq s.vm hpc hsp)
    · exact onVMChecked_eq s case_POP checked_POP (checked_POP_eq s.vm hpc)
  · rw [checked_dispatch_default op s hm, dispatch_default op s hm]

/-- Claim C23: memory safety of the 8-bit machine.  For every VM state with a
16-bit PC and SP (any memory contents, any registers, halted or not), the step
with checked indexing never takes the out-of-range branch of an access to
`ram` or `regs` (opcode fetch, operand fetch, LOAD/STORE target, CALL/RET and
PUSH/POP stack bytes, register reads and writes): it returns `some` state, and
that state is the one `vm_execute_one` computes. -/
theorem checked_step_never_fails (s : Sys) (hpc : s.vm.pc < 2 ^ 16) (hsp : s.vm.sp < 2 ^ 16) :
    vm_execute_one_checked s ≠ none ∧
    vm_execute_one_checked s = some (vm_execute_one s) := by
  have h : vm_execute_one_checked s = some (vm_execute_one s) := by
    unfold vm_execute_one_checked vm_execute_one
    by_cases hstop : s.vm.halted = true ∨ s.vm.pc ≥ VM_RAM_SIZE
    · rw [if_pos hstop, if_pos hstop]
    · rw [if_neg hstop, if_neg hstop, readRam_lt s.vm s.vm.pc (by unfold VM_RAM_SIZE; omega)]
      simp only [Option.bind_eq_bind, Option.some_bind]
      exact checked_dispatch_eq _ _ (Nat.mod_lt _ (by decide)) hsp
  rw [h]
  exact ⟨Option.some_ne_none _, rfl⟩

/-- The first step of Scenario 1 in a fresh VM, with checked indexing. -/
theorem checked_step_never_fails_witness :
    (scenario1Start []).vm.pc < 2 ^ 16 ∧ (scenario1Start []).vm.sp < 2 ^ 16 ∧
    vm_execute_one_checked (scenario1Start []) = some (vm_execute_one (scenario1Start [])) :=
  ⟨by decide, by decide, (checked_step_never_fails (scenario1Start []) (by decide) (by decide)).2⟩

end VM8

namespace VM8

/-! ## Frame of loading, repeated runs at a breakpoint -/

/-- Claim C38: frame of `vm_load_image`.  A successful load (return value 0)
of a file of `n` bytes changes only `ram[0 .. min(n, 65536))` and PC: all
registers, SP, the halt flag, the cycle counter, debug mode, the breakpoint
table and count, every memory byte at an index `>= n` (indeed `>= min(n,
65536)`) and the three streams keep their values, and PC is 0.  In particular a
VM that was halted before the load is still halted after it. -/
theorem load_image_frame (s : Sys) (filename : List Nat) (file : Option (List Nat))
    (hok : (vm_load_image s filename file).2 = 0) :
    (vm_load_image s filename file).1.vm.regs = s.vm.regs ∧
    (vm_load_image s filename file).1.vm.sp = s.vm.sp ∧
    (vm_load_image s filename file).1.vm.halted = s.vm.halted ∧
    (vm_load_image s filename file).1.vm.cycle_count = s.vm.cycle_count ∧
    (vm_load_image s filename file).1.vm.debug_mode = s.vm.debug_mode ∧
    (vm_load_image s filename file).1.vm.breakpoints = s.vm.breakpoints ∧
    (vm_load_image s filename file).1.vm.breakpoint_count = s.vm.breakpoint_count ∧
    (vm_load_image s filename file).1.vm.breakpointList = s.vm.breakpointList ∧
    (∀ i, min (file.getD []).length 65536 ≤ i →
      (vm_load_image s filename file).1.vm.ram i = s.vm.ram i) ∧
    (∀ i, (file.getD []).length ≤ i →
      (vm_load_image s filename file).1.vm.ram i = s.vm.ram i) ∧
    (vm_load_image s filename file).1.vm.pc = 0 ∧
    (vm_load_image s filename file).1.stdin = s.stdin ∧
    (vm_load_image s filename file).1.stdout = s.stdout ∧
    (vm_load_image s filename file).1.stderr = s.stderr ∧
    (s.vm.halted = true → (vm_load_image s filename file).1.vm.halted = true) := by
  cases file with
  | none => exact absurd hok (by simp [vm_load_image])
  | some b =>
    by_cases hz : min b.length VM_RAM_SIZE = 0
    · exact absurd hok (by simp [vm_load_image, hz])
    · have hram : ∀ i, min b.length 65536 ≤ i →
          (vm_load_image s filename (some b)).1.vm.ram i = s.vm.ram i := by
        intro i hi
        have hi1 : ¬ i < min b.length VM_RAM_SIZE := by unfold VM_RAM_SIZE; omega
        simp only [vm_load_image, if_neg hz, memcpy_ram, if_neg hi1]
      refine ⟨?_, ?_, ?_, ?_, ?_, ?_, ?_, ?_, hram, ?_, ?_, ?_, ?_, ?_, ?_⟩
      · simp only [vm_load_image, if_neg hz]
      · simp only [vm_load_image, if_neg hz]
      · simp only [vm_load_image, if_neg hz]
      · simp only [vm_load_image, if_neg hz]
      · simp only [vm_load_image, if_neg hz]
      · simp only [vm_load_image, if_neg hz]
      · simp only [vm_load_image, if_neg hz]
      · simp only [vm_load_image, if_neg hz, VM.breakpointList]
      · intro i hi
        exact hram i (by
          have : (Option.getD (some b) []).length = b.length := rfl
          omega)
      · simp only [vm_load_image, if_neg hz]
      · simp only [vm_load_image, if_neg hz]
      · simp only [vm_load_image, if_neg hz]
      · simp only [vm_load_image, if_neg hz]
      · intro hh
        simp only [vm_load_image, if_neg hz, hh]

/-- A one-byte file loaded over the halted end state of Scenario 1: the load
succeeds, the VM is still halted and the rest of the old image is still in
memory. -/
theorem load_image_frame_witness :
    (vm_load_image (vm_execute_one^[3] (scenario1Start [])) (text "b.bin") (some [0x40])).2 = 0 ∧
    (vm_execute_one^[3] (scenario1Start [])).vm.halted = true ∧
    (vm_load_image (vm_execute_one^[3] (scenario1Start [])) (text "b.bin")
      (some [0x40])).1.vm.halted = true ∧
    (vm_load_image (vm_execute_one^[3] (scenario1Start [])) (text "b.bin")
      (some [0x40])).1.vm.ram 5 = 0x41 := by
  have h := load_image_frame (vm_execute_one^[3] (scenario1Start [])) (text "b.bin")
    (some [0x40]) (by decide)
  refine ⟨by decide, by decide, ?_, ?_⟩
  · exact h.2.2.2.2.2.2.2.2.2.2.2.2.2.2 (by decide)
  · rw [h.2.2.2.2.2.2.2.2.2.1 5 (by decide)]
    decide

/-- Claim C37: `vm_run` on a non-halted state whose PC is in the breakpoint
list executes no instruction (it returns without any call of
`vm_execute_one`, whatever the fuel) and returns the VM unchanged: memory,
registers, PC, SP, halt flag, cycle count and breakpoints are as before, only
the breakpoint report is appended to stdout.  Hence a second `vm_run`, as the
CLI command `cont` issues it, stops at once in the same VM state again. -/
theorem run_at_breakpoint (fuel fuel2 : Nat) (s : Sys) (hh : s.vm.halted = false)
    (hpc : s.vm.pc < 2 ^ 16) (hbp : s.vm.pc ∈ s.vm.breakpointList) :
    vm_run 0 s = some { s with stdout := s.stdout ++ breakpointReport s.vm } ∧
    vm_run fuel s = some { s with stdout := s.stdout ++ breakpointReport s.vm } ∧
    (∀ r, vm_run fuel s = some r → r.vm = s.vm) ∧
    (vm_run fuel s).bind (vm_run fuel2) =
      some { s with stdout := s.stdout ++ breakpointReport s.vm ++ breakpointReport s.vm } := by
  have hat : vm_at_breakpoint s.vm = true := (vm_at_breakpoint_iff s.vm).mpr hbp
  have hrun : ∀ (f : Nat) (t : Sys), t.vm = s.vm →
      vm_run f t = some { t with stdout := t.stdout ++ breakpointReport t.vm } := by
    intro f t ht
    have hc : t.vm.halted = false ∧ t.vm.pc < VM_RAM_SIZE := by
      rw [ht]; exact ⟨hh, by unfold VM_RAM_SIZE; omega⟩
    have hat1 : vm_at_breakpoint t.vm = true := by rw [ht]; exact hat
    cases f with
    | zero => simp only [vm_run, vm_run_loop_zero, if_pos hc, if_pos hat1, Option.map_some']
    | succ n => simp only [vm_run, vm_run_loop_succ, if_pos hc, if_pos hat1, Option.map_some']
  refine ⟨hrun 0 s rfl, hrun fuel s rfl, ?_, ?_⟩
  · intro r hr
    rw [hrun fuel s rfl] at hr
    injection hr with hr
    rw [← hr]
  · rw [hrun fuel s rfl, Option.some_bind]
    exact hrun fuel2 { s with stdout := s.stdout ++ breakpointReport s.vm } rfl

/-- Scenario 1 with a breakpoint at 6, after its first instruction, is at the
breakpoint: running it returns the same VM. -/
theorem run_at_breakpoint_witness :
    (vm_execute_one scenario1Break).vm.halted = false ∧
    (vm_execute_one scenario1Break).vm.pc ∈ (vm_execute_one scenario1Break).vm.breakpointList ∧
    ∀ r, vm_run 5 (vm_execute_one scenario1Break) = some r →
      r.vm = (vm_execute_one scenario1Break).vm :=
  ⟨by decide, by decide,
    (run_at_breakpoint 5 5 (vm_execute_one scenario1Break) (by decide) (by decide)
      (by decide)).2.2.1⟩

end VM8

namespace VM8

/-! ## Instructions with operands `reg, addr16` -/

theorem be16_lt (ram : Nat → Nat) (a : Nat) : be16 ram a < 2 ^ 16 :=
  Nat.mod_lt _ (by decide)

/-- The operand decoding of an instruction `reg, addr16` whose four bytes lie
inside memory. -/
theorem regAddr16_fetch (vm : VM) (k : VM → Nat → Nat → VM) (h : vm.pc + 3 < 2 ^ 16) :
    regAddr16 vm.fetch k =
      k { vm.fetch with pc := (vm.pc + 4) % 2 ^ 16 } (vm.ram (vm.pc + 1))
        (be16 vm.ram (vm.pc + 2)) := by
  have h1 : ¬ (vm.pc + 1 + 2 ≥ VM_RAM_SIZE) := by unfold VM_RAM_SIZE; omega
  have e1 : (vm.pc + 1) % 2 ^ 16 = vm.pc + 1 := Nat.mod_eq_of_lt (by omega)
  have e2 : (vm.pc + 1 + 1) % 2 ^ 16 = vm.pc + 2 := Nat.mod_eq_of_lt (by omega)
  have e3 : vm.pc + 2 + 2 = vm.pc + 4 := rfl
  simp only [regAddr16, VM.fetch, VM.advance, e1, e2, e3, if_neg h1]

/-- One step over `STORE src, addr16` with a valid register. -/
theorem step_STORE (s : Sys) (hh : s.vm.halted = false) (hpc : s.vm.pc + 3 < 2 ^ 16)
    (hop : s.vm.ram s.vm.pc = OP_STORE) (hr : s.vm.ram (s.vm.pc + 1) < 8) :
    vm_execute_one s =
      { s with
        stdout := s.stdout ++ debugLine s.vm OP_STORE
        vm := { s.vm with
                pc := (s.vm.pc + 4) % 2 ^ 16
                cycle_count := (s.vm.cycle_count + 1) % 2 ^ 64
                ram := setAt s.vm.ram (be16 s.vm.ram (s.vm.pc + 2))
                  (s.vm.regs (s.vm.ram (s.vm.pc + 1)) &&& 0xFF) } } := by
  have hg : s.vm.ram (s.vm.pc + 1) < VM_REG_COUNT ∧ be16 s.vm.ram (s.vm.pc + 2) < VM_RAM_SIZE :=
    ⟨hr, be16_lt _ _⟩
  have hb : ∀ x : Nat, (x &&& 0xFF) % 2 ^ 8 = x &&& 0xFF := by
    intro x
    rw [and_FF]; omega
  rw [exec_running s hh (by omega), hop, dispatch_STORE]
  simp only [Sys.onVM, case_STORE]
  rw [regAddr16_fetch s.vm _ hpc]
  simp only [if_pos hg, hb]
  rfl

/-- One step over `LOAD dst, addr16` with a valid register. -/
theorem step_LOAD (s : Sys) (hh : s.vm.halted = false) (hpc : s.vm.pc + 3 < 2 ^ 16)
    (hop : s.vm.ram s.vm.pc = OP_LOAD) (hr : s.vm.ram (s.vm.pc + 1) < 8) :
    vm_execute_one s =
      { s with
        stdout := s.stdout ++ debugLine s.vm OP_LOAD
        vm := { s.vm with
                pc := (s.vm.pc + 4) % 2 ^ 16
                cycle_count := (s.vm.cycle_count + 1) % 2 ^ 64
                regs := setAt s.vm.regs (s.vm.ram (s.vm.pc + 1))
                  (s.vm.ram (be16 s.vm.ram (s.vm.pc + 2))) } } := by
  have hg : s.vm.ram (s.vm.pc + 1) < VM_REG_COUNT ∧ be16 s.vm.ram (s.vm.pc + 2) < VM_RAM_SIZE :=
    ⟨hr, be16_lt _ _⟩
  rw [exec_running s hh (by omega), hop, dispatch_LOAD]
  simp only [Sys.onVM, case_LOAD]
  rw [regAddr16_fetch s.vm _ hpc]
  simp only [if_pos hg]
  rfl

/-- One step over a conditional jump `reg, addr16` with a valid register,
whose test on the register value is `P`. -/
theorem step_condJump (s : Sys) (op : Nat) (P : Nat → Prop) [DecidablePred P]
    (hdisp : ∀ t : Sys, dispatch op t = t.onVM fun vm => regAddr16 vm fun v reg addr =>
      if reg < VM_REG_COUNT ∧ P (v.regs reg) then { v with pc := addr } else v)
    (hh : s.vm.halted = false) (hpc : s.vm.pc + 3 < 2 ^ 16) (hop : s.vm.ram s.vm.pc = op)
    (hr : s.vm.ram (s.vm.pc + 1) < 8) :
    vm_execute_one s =
      { s with
        stdout := s.stdout ++ debugLine s.vm op
        vm := { s.vm with
                pc := if P (s.vm.regs (s.vm.ram (s.vm.pc + 1))) then be16 s.vm.ram (s.vm.pc + 2)
                      else (s.vm.pc + 4) % 2 ^ 16
                cycle_count := (s.vm.cycle_count + 1) % 2 ^ 64 } } := by
  rw [exec_running s hh (by omega), hop, hdisp]
  simp only [Sys.onVM]
  rw [regAddr16_fetch s.vm _ hpc]
  by_cases hp : P (s.vm.regs (s.vm.ram (s.vm.pc + 1)))
  · have hg : s.vm.ram (s.vm.pc + 1) < VM_REG_COUNT ∧
        P (({ s.vm.fetch with pc := (s.vm.pc + 4) % 2 ^ 16 } : VM).regs
          (s.vm.ram (s.vm.pc + 1))) := ⟨hr, hp⟩
    rw [if_pos hg, if_pos hp]
    rfl
  · have hg : ¬ (s.vm.ram (s.vm.pc + 1) < VM_REG_COUNT ∧
        P (({ s.vm.fetch with pc := (s.vm.pc + 4) % 2 ^ 16 } : VM).regs
          (s.vm.ram (s.vm.pc + 1)))) := fun h => hp h.2
    rw [if_neg hg, if_neg hp]
    rfl

end VM8

namespace VM8

/-- Claim C31: `STORE` and `LOAD` of the 8-bit machine, for an instruction
inside memory in a non-halted state.  `STORE src, addr16` with `src < 8` sets
`ram[addr] = regs[src] & 0xFF`, `addr` being the two operand bytes read
big-endian, changes no other memory byte and no register; `LOAD dst, addr16`
with `dst < 8` sets `regs[dst] = ram[addr]` (a byte, so zero-extended), changes
no other register and no memory.  Hence `STORE r, a` immediately followed by
`LOAD r', a`, the four bytes of the `LOAD` not at address `a`, leaves
`regs[r'] = regs[r] & 0xFF`. -/
theorem store_load (s : Sys) (r r' a : Nat) (hh : s.vm.halted = false) :
    (s.vm.pc + 3 < 2 ^ 16 → s.vm.ram s.vm.pc = OP_STORE → s.vm.ram (s.vm.pc + 1) < 8 →
      (vm_execute_one s).vm.ram (be16 s.vm.ram (s.vm.pc + 2)) =
        s.vm.regs (s.vm.ram (s.vm.pc + 1)) &&& 0xFF ∧
      (∀ i, i ≠ be16 s.vm.ram (s.vm.pc + 2) → (vm_execute_one s).vm.ram i = s.vm.ram i) ∧
      (vm_execute_one s).vm.regs = s.vm.regs) ∧
    (s.vm.pc + 3 < 2 ^ 16 → s.vm.ram s.vm.pc = OP_LOAD → s.vm.ram (s.vm.pc + 1) < 8 →
      (vm_execute_one s).vm.regs (s.vm.ram (s.vm.pc + 1)) =
        s.vm.ram (be16 s.vm.ram (s.vm.pc + 2)) ∧
      (∀ q, q ≠ s.vm.ram (s.vm.pc + 1) → (vm_execute_one s).vm.regs q = s.vm.regs q) ∧
      (vm_execute_one s).vm.ram = s.vm.ram) ∧
    (s.vm.ram (s.vm.pc + 2) < 256 → s.vm.ram (s.vm.pc + 3) < 256 →
      be16 s.vm.ram (s.vm.pc + 2) = s.vm.ram (s.vm.pc + 2) * 256 + s.vm.ram (s.vm.pc + 3)) ∧
    (r < 8 → r' < 8 → s.vm.pc + 7 < 2 ^ 16 →
      s.vm.ram s.vm.pc = OP_STORE → s.vm.ram (s.vm.pc + 1) = r →
      be16 s.vm.ram (s.vm.pc + 2) = a →
      s.vm.ram (s.vm.pc + 4) = OP_LOAD → s.vm.ram (s.vm.pc + 5) = r' →
      be16 s.vm.ram (s.vm.pc + 6) = a →
      (a < s.vm.pc + 4 ∨ s.vm.pc + 7 < a) →
      (vm_execute_one (vm_execute_one s)).vm.regs r' = s.vm.regs r &&& 0xFF) := by
  refine ⟨fun hpc hop hr => ?_, fun hpc hop hr => ?_, fun h2 h3 => ?_, ?_⟩
  · rw [step_STORE s hh hpc hop hr]
    refine ⟨?_, fun i hi => ?_, rfl⟩
    · simp only [setAt, if_true]
    · simp only [setAt, if_neg hi]
  · rw [step_LOAD s hh hpc hop hr]
    refine ⟨?_, fun q hq => ?_, rfl⟩
    · simp only [setAt, if_true]
    · simp only [setAt, if_neg hq]
  · unfold be16
    rw [shl8_or _ _ h3]
    exact Nat.mod_eq_of_lt (by omega)
  · intro hr hr' hpc h0 h1 ha h4 h5 ha' hout
    have e4 : (s.vm.pc + 4) % 2 ^ 16 = s.vm.pc + 4 := Nat.mod_eq_of_lt (by omega)
    obtain ⟨s1, hs1, hhalt, hpc1, hram1, hregs1⟩ :
        ∃ s1, vm_execute_one s = s1 ∧ s1.vm.halted = false ∧ s1.vm.pc = s.vm.pc + 4 ∧
          s1.vm.ram = setAt s.vm.ram a (s.vm.regs r &&& 0xFF) ∧ s1.vm.regs = s.vm.regs := by
      refine ⟨_, rfl, ?_⟩
      rw [step_STORE s hh (by omega) h0 (by rw [h1]; exact hr), ha, h1]
      exact ⟨hh, e4, rfl, rfl⟩
    rw [hs1]
    have hne : ∀ j, 4 ≤ j → j ≤ 7 → s1.vm.ram (s.vm.pc + j) = s.vm.ram (s.vm.pc + j) := by
      intro j hj1 hj2
      have hja : ¬ s.vm.pc + j = a := by omega
      rw [hram1]
      simp only [setAt, if_neg hja]
    have hop1 : s1.vm.ram s1.vm.pc = OP_LOAD := by rw [hpc1, hne 4 (by omega) (by omega), h4]
    have hr1 : s1.vm.ram (s1.vm.pc + 1) = r' := by
      rw [hpc1]
      exact (hne 5 (by omega) (by omega)).trans h5
    have ha1 : be16 s1.vm.ram (s1.vm.pc + 2) = a := by
      rw [hpc1, ← ha']
      unfold be16
      have k6 := hne 6 (by omega) (by omega)
      have k7 := hne 7 (by omega) (by omega)
      rw [show s.vm.pc + 4 + 2 = s.vm.pc + 6 from rfl, show s.vm.pc + 6 + 1 = s.vm.pc + 7 from rfl,
        k6, k7]
    rw [step_LOAD s1 hhalt (by omega) hop1 (by rw [hr1]; exact hr'), hr1, ha1]
    show setAt s1.vm.regs r' (s1.vm.ram a) r' = s.vm.regs r &&& 0xFF
    rw [hram1]
    simp only [setAt, if_true]

/-- `STORE r1, 0x0100; LOAD r2, 0x0100` in a fresh VM with 0x1234 in register
1: register 2 receives 0x34. -/
theorem store_load_witness :
    storeLoad.vm.halted = false ∧
    (vm_execute_one (vm_execute_one storeLoad)).vm.regs 2 = 0x1234 &&& 0xFF ∧
    (vm_execute_one (vm_execute_one storeLoad)).vm.regs 2 = 0x34 := by
  have h := (store_load storeLoad 1 2 0x100 rfl).2.2.2 (by decide) (by decide) (by decide)
    (by decide) (by decide) (by decide) (by decide) (by decide) (by decide) (by decide)
  exact ⟨rfl, h, by decide⟩

end VM8

namespace VM8

/-- Claim C32 (amended): conditional jumps of the 8-bit machine.  For a
non-halted state with a conditional jump at address `p`, its four bytes inside
memory and `reg < 8`, after the step PC is `addr` (the two operand bytes read
big-endian) if the condition holds and `(p + 4) mod 2^16` otherwise, that is
`p + 4` unless the jump occupies the last four bytes of memory, where PC
becomes 0.  The condition is `regs[reg] != 0` for `JNZ`, `regs[reg] = 0` for
`JZ`, `regs[reg] >= 2^63` for `JLT` and `0 < regs[reg] < 2^63` for `JGT`.
Registers, memory and SP are unchanged and the step does not halt. -/
theorem cond_jumps (s : Sys) (hh : s.vm.halted = false) (hpc : s.vm.pc + 3 < 2 ^ 16)
    (hr : s.vm.ram (s.vm.pc + 1) < 8) :
    (s.vm.ram s.vm.pc = OP_JNZ →
      (vm_execute_one s).vm.pc =
        if s.vm.regs (s.vm.ram (s.vm.pc + 1)) ≠ 0 then be16 s.vm.ram (s.vm.pc + 2)
        else (s.vm.pc + 4) % 2 ^ 16) ∧
    (s.vm.ram s.vm.pc = OP_JZ →
      (vm_execute_one s).vm.pc =
        if s.vm.regs (s.vm.ram (s.vm.pc + 1)) = 0 then be16 s.vm.ram (s.vm.pc + 2)
        else (s.vm.pc + 4) % 2 ^ 16) ∧
    (s.vm.ram s.vm.pc = OP_JLT →
      (vm_execute_one s).vm.pc =
        if s.vm.regs (s.vm.ram (s.vm.pc + 1)) ≥ 2 ^ 63 then be16 s.vm.ram (s.vm.pc + 2)
        else (s.vm.pc + 4) % 2 ^ 16) ∧
    (s.vm.ram s.vm.pc = OP_JGT →
      (vm_execute_one s).vm.pc =
        if 0 < s.vm.regs (s.vm.ram (s.vm.pc + 1)) ∧ s.vm.regs (s.vm.ram (s.vm.pc + 1)) < 2 ^ 63
        then be16 s.vm.ram (s.vm.pc + 2)
        else (s.vm.pc + 4) % 2 ^ 16) ∧
    (s.vm.ram s.vm.pc ∈ [OP_JNZ, OP_JZ, OP_JLT, OP_JGT] →
      (vm_execute_one s).vm.regs = s.vm.regs ∧ (vm_execute_one s).vm.ram = s.vm.ram ∧
      (vm_execute_one s).vm.sp = s.vm.sp ∧ (vm_execute_one s).vm.halted = false) ∧
    (s.vm.pc ≠ 0xFFFC → (s.vm.pc + 4) % 2 ^ 16 = s.vm.pc + 4) ∧
    (s.vm.pc = 0xFFFC → (s.vm.pc + 4) % 2 ^ 16 = 0) := by
  have hnz := step_condJump s OP_JNZ (fun x => x ≠ 0) (fun t => rfl) hh hpc
  have hz := step_condJump s OP_JZ (fun x => x = 0) (fun t => rfl) hh hpc
  have hlt := step_condJump s OP_JLT (fun x => x ≥ 2 ^ 63) (fun t => rfl) hh hpc
  have hgt := step_condJump s OP_JGT (fun x => 0 < x ∧ x < 2 ^ 63) (fun t => rfl) hh hpc
  refine ⟨fun hop => ?_, fun hop => ?_, fun hop => ?_, fun hop => ?_, fun hop => ?_,
    fun hne => Nat.mod_eq_of_lt (by omega), fun he => by omega⟩
  · rw [hnz hop hr]
  · rw [hz hop hr]
  · rw [hlt hop hr]
  · rw [hgt hop hr]
  · simp only [List.mem_cons, List.mem_singleton, List.not_mem_nil, or_false] at hop
    rcases hop with hop | hop | hop | hop
    · rw [hnz hop hr]; exact ⟨rfl, rfl, rfl, hh⟩
    · rw [hz hop hr]; exact ⟨rfl, rfl, rfl, hh⟩
    · rw [hlt hop hr]; exact ⟨rfl, rfl, rfl, hh⟩
    · rw [hgt hop hr]; exact ⟨rfl, rfl, rfl, hh⟩

/-- `JNZ r1, 0x0100` at address 0 of a fresh VM with 5 in register 1 is
taken. -/
theorem cond_jumps_witness :
    (operandState 0x51 1 5 0).vm.halted = false ∧
    (operandState 0x51 1 5 0).vm.ram (operandState 0x51 1 5 0).vm.pc = OP_JNZ ∧
    (vm_execute_one (operandState 0x51 1 5 0)).vm.pc = 0x100 := by
  have h := (cond_jumps (operandState 0x51 1 5 0) rfl (by decide) (by decide)).1 (by decide)
  refine ⟨rfl, by decide, ?_⟩
  rw [h]
  decide

/-- Claim C32 as stated fails for a jump in the last four bytes of memory:
`JNZ r0, 0x0010` at `p = 0xFFFC` with register 0 zero is not taken and leaves
PC = 0, not `p + 4 = 0x10000`. -/
theorem cond_jumps_counterexample :
    jumpAtTop.vm.halted = false ∧ jumpAtTop.vm.pc = 0xFFFC ∧
    jumpAtTop.vm.ram jumpAtTop.vm.pc = OP_JNZ ∧ jumpAtTop.vm.ram (jumpAtTop.vm.pc + 1) < 8 ∧
    jumpAtTop.vm.pc + 3 < 2 ^ 16 ∧
    jumpAtTop.vm.regs (jumpAtTop.vm.ram (jumpAtTop.vm.pc + 1)) = 0 ∧
    (vm_execute_one jumpAtTop).vm.pc = 0 ∧
    (vm_execute_one jumpAtTop).vm.pc ≠ jumpAtTop.vm.pc + 4 ∧
    (vm_execute_one jumpAtTop).vm.halted = false := by
  refine ⟨rfl, rfl, by decide, by decide, by decide, by decide, by decide, by decide,
    by decide⟩

end VM8

namespace VM8

/-- The two most significant bytes of a pushed 64-bit value decode to its bits
63..48. -/
theorem be16_pushBytes (ram : Nat → Nat) (sp val : Nat) (hval : val < 2 ^ 64) :
    be16 (pushBytes ram sp val) sp = val / 2 ^ 48 := by
  have b0 := pushBytes_inside ram sp val 0 (by omega)
  have b1 := pushBytes_inside ram sp val 1 (by omega)
  norm_num at b0 b1
  unfold be16
  rw [b0, b1, shl8_or _ _ (Nat.mod_lt _ (by decide))]
  omega

/-- Claim C34: mixing the two stack disciplines.  For a non-halted state with
`SP > 9` and `reg < 8` whose memory holds `CALL A` at PC and `PUSH reg; RET` at
address `A`, all instruction bytes inside memory and none of them inside
`[SP-10, SP)` (for the three bytes of the `CALL` itself this is not even
needed), the three steps `CALL`, `PUSH`, `RET` end with PC equal to bits
63..48 of `regs[reg]` (the two bytes on top of the stack are the most
significant bytes of the pushed register, not the return address) and with SP
equal to the original SP minus 8. -/
theorem call_push_ret (s : Sys) (reg A : Nat) (hh : s.vm.halted = false)
    (hsp : 9 < s.vm.sp) (hsp16 : s.vm.sp < 2 ^ 16) (hreg : reg < 8)
    (hpc : s.vm.pc + 2 < 2 ^ 16) (hA : A + 2 < 2 ^ 16)
    (hcall : s.vm.ram s.vm.pc = OP_CALL) (haddr : be16 s.vm.ram (s.vm.pc + 1) = A)
    (hpush : s.vm.ram A = OP_PUSH) (hopnd : s.vm.ram (A + 1) = reg)
    (hret : s.vm.ram (A + 2) = OP_RET)
    (hout2 : ∀ i, i < 3 → A + i < s.vm.sp - 10 ∨ s.vm.sp ≤ A + i)
    (hv : s.vm.regs reg < 2 ^ 64) :
    (vm_execute_one (vm_execute_one (vm_execute_one s))).vm.pc = s.vm.regs reg / 2 ^ 48 ∧
    (vm_execute_one (vm_execute_one (vm_execute_one s))).vm.sp = s.vm.sp - 8 := by
  have o0 := hout2 0 (by omega)
  have o1 := hout2 1 (by omega)
  have o2 := hout2 2 (by omega)
  -- the CALL
  obtain ⟨s1, hs1, hhalt1, hpc1, hsp1, hregs1, hram1⟩ :
      ∃ s1, vm_execute_one s = s1 ∧ s1.vm.halted = false ∧ s1.vm.pc = A ∧
        s1.vm.sp = s.vm.sp - 2 ∧ s1.vm.regs = s.vm.regs ∧
        ∀ a, a < s.vm.sp - 2 ∨ s.vm.sp ≤ a → s1.vm.ram a = s.vm.ram a := by
    refine ⟨_, rfl, ?_⟩
    rw [step_CALL_guard s hh hpc hcall, if_pos (by omega)]
    refine ⟨hh, haddr, rfl, rfl, fun a ha => ?_⟩
    have h1 : ¬ a = s.vm.sp - 2 + 1 := by omega
    have h2 : ¬ a = s.vm.sp - 2 := by omega
    show setAt (setAt s.vm.ram (s.vm.sp - 2) _) (s.vm.sp - 2 + 1) _ a = s.vm.ram a
    simp only [setAt, if_neg h1, if_neg h2]
  rw [hs1]
  -- the PUSH
  have hop1 : s1.vm.ram s1.vm.pc = OP_PUSH := by
    rw [hpc1, hram1 A (by omega), hpush]
  have hr1 : s1.vm.ram (s1.vm.pc + 1) = reg := by
    rw [hpc1, hram1 (A + 1) (by omega), hopnd]
  obtain ⟨s2, hs2, hhalt2, hpc2, hsp2, hram2, hret2⟩ :
      ∃ s2, vm_execute_one s1 = s2 ∧ s2.vm.halted = false ∧ s2.vm.pc = A + 2 ∧
        s2.vm.sp = s.vm.sp - 10 ∧
        s2.vm.ram = pushBytes s1.vm.ram (s.vm.sp - 10) (s.vm.regs reg) ∧
        s2.vm.ram (A + 2) = OP_RET := by
    refine ⟨_, rfl, ?_⟩
    rw [step_PUSH s1 hhalt1 (by omega) hop1, if_pos ⟨by rw [hr1]; exact hreg, by omega⟩, hr1,
      hregs1, hsp1, hpc1]
    have e10 : s.vm.sp - 2 - 8 = s.vm.sp - 10 := by omega
    refine ⟨hhalt1, Nat.mod_eq_of_lt (by omega), e10, by rw [e10], ?_⟩
    show pushBytes s1.vm.ram (s.vm.sp - 2 - 8) (s.vm.regs reg) (A + 2) = OP_RET
    rw [pushBytes_outside _ _ _ _ (by omega), hram1 (A + 2) (by omega), hret]
  rw [hs2]
  -- the RET
  have hop2 : s2.vm.ram s2.vm.pc = OP_RET := by rw [hpc2, hret2]
  rw [step_RET s2 hhalt2 (by omega) hop2 (by omega)]
  refine ⟨?_, ?_⟩
  · show be16 s2.vm.ram s2.vm.sp = s.vm.regs reg / 2 ^ 48
    rw [hram2, hsp2]
    exact be16_pushBytes _ _ _ hv
  · show (s2.vm.sp + 2) % 2 ^ 16 = s.vm.sp - 8
    rw [hsp2]
    omega

/-- `CALL 0x0010` into `PUSH r1; RET` in a fresh VM with 0xABCD123456789ABC in
register 1: the `RET` goes to 0xABCD. -/
theorem call_push_ret_witness :
    callPushRet.vm.halted = false ∧ 9 < callPushRet.vm.sp ∧
    (vm_execute_one (vm_execute_one (vm_execute_one callPushRet))).vm.pc = 0xABCD ∧
    (vm_execute_one (vm_execute_one (vm_execute_one callPushRet))).vm.sp = 0xFFF7 := by
  have h := call_push_ret callPushRet 1 0x10 rfl (by decide) (by decide) (by decide) (by decide)
    (by decide) (by decide) (by decide) (by decide) (by decide) (by decide)
    (fun i hi => Or.inl (by
      show 16 + i < 65535 - 10
      omega)) (by decide)
  refine ⟨rfl, by decide, ?_, ?_⟩
  · rw [h.1]; decide
  · rw [h.2]; decide

end VM8

namespace VM8

/-! ## The generated fibonacci image -/

set_option maxRecDepth 100000 in
/-- Claim C35 fails: the image of `gen_fibonacci` does not run as its comments
say.  The 56 bytes are as listed; `OUT r0`, commented `loop:`, lies at address
18 and not at `loop_addr = 31`, which is a zero byte inside the immediate of
the `MOVI r3, 0` at 28.  `ADD` is emitted with one operand byte only, so the
step at 34 takes the opcode byte 0x10 of the next `MOVI` as its `src`, and the
step after it fetches the byte 0x03 at address 37 (0x25) as an opcode.  The run
executes the instructions at 0, 6, 12, 18, 20, 26, 28, 34 and ends at 37 in
the unknown-opcode halt: `OUT r0` was executed once (stdout holds the bytes 1
and 10), `r2` is still 10, neither `SUB` nor `JNZ` nor the final `HALT` was
executed. -/
theorem fibonacci_image_run (extra : Nat) :
    gen_fibonacci [] =
      [0x10, 0, 0, 0, 0, 1, 0x10, 1, 0, 0, 0, 1, 0x10, 2, 0, 0, 0, 10, 0x40, 0,
       0x10, 3, 0, 0, 0, 10, 0x40, 3, 0x10, 3, 0, 0, 0, 0, 0x20, 3,
       0x10, 3, 0, 0, 0, 0, 0x10, 3, 0, 0, 0, 1, 0x21, 2, 3, 0x51, 2, 0, 31, 0] ∧
    (gen_fibonacci []).getD 18 0 = OP_OUT ∧ loop_addr = 31 ∧
    (gen_fibonacci []).getD loop_addr 0 = 0 ∧
    (List.range 9).map (fun k => (vm_execute_one^[k] fibonacci).vm.pc) =
      [0, 6, 12, 18, 20, 26, 28, 34, 37] ∧
    fibonacci.vm.ram 37 = 0x03 ∧ 0x03 ∉ opcodes ∧
    ∃ s', vm_run (9 + extra) fibonacci = some s' ∧
      s'.stdout = [1, 10] ∧
      s'.stderr = text "Unknown opcode: 0x03 at PC 0x0025\n" ∧
      s'.vm.halted = true ∧ s'.vm.cycle_count = 9 ∧ s'.vm.regs 2 = 10 := by
  refine ⟨by decide, by decide, rfl, by decide, by decide, by decide, by decide, ?_⟩
  have h0 : (vm_run_loop 9 fibonacci).map
      (fun p => (p.1.stdout, p.1.stderr, p.1.vm.halted, p.1.vm.cycle_count, p.1.vm.regs 2)) =
      some ([1, 10], text "Unknown opcode: 0x03 at PC 0x0025\n", true, 9, 10) := by decide
  cases hr : vm_run_loop 9 fibonacci with
  | none => rw [hr] at h0; exact Option.noConfusion h0
  | some r =>
    rw [hr] at h0
    simp only [Option.map_some', Option.some.injEq, Prod.mk.injEq] at h0
    refine ⟨r.1, ?_, h0.1, h0.2.1, h0.2.2.1, h0.2.2.2.1, h0.2.2.2.2⟩
    simp only [vm_run, run_fuel_mono extra 9 _ r hr, Option.map_some']

end VM8

namespace X64

open VM8 (setAt text fmtHex fmtDec)

/-! ## `MOVI` of the 64-bit machine -/

/-- One step over a `MOVI reg, imm64` with a valid register whose bounds
check passes. -/
theorem step_MOVI64 (n : SyscallNumbers) (host : Host) (s : Sys64)
    (hh : s.vm.halted = false) (hin : s.vm.rip + 10 < VM64_RAM_SIZE)
    (hop : s.vm.ram s.vm.rip = X64_MOVI) (hr : s.vm.ram (s.vm.rip + 1) < 16) :
    vm64_execute_one n host s =
      { s with
        vm := { s.vm.fetch with
                rip := s.vm.rip + 10
                regs := setAt s.vm.regs (s.vm.ram (s.vm.rip + 1))
                  (be64 s.vm.ram (s.vm.rip + 2)) }
        stdout := s.stdout ++ debugLine s.vm.fetch X64_MOVI } := by
  have h0 := hin
  unfold VM64_RAM_SIZE at h0
  have e1 : (s.vm.rip + 1) % 2 ^ 64 = s.vm.rip + 1 := Nat.mod_eq_of_lt (by omega)
  have e2 : (s.vm.rip + 1 + 1) % 2 ^ 64 = s.vm.rip + 2 := Nat.mod_eq_of_lt (by omega)
  have e3 : (s.vm.rip + 2 + 8) % 2 ^ 64 = s.vm.rip + 10 := by omega
  have e4 : (s.vm.rip + 1 + 9) % 2 ^ 64 = s.vm.rip + 10 := by omega
  have h1 : ¬ (s.vm.rip + 10 ≥ VM64_RAM_SIZE) := by omega
  rw [exec64_running n host s hh (by omega), hop, dispatch_MOVI64]
  simp only [Sys64.onVM, case_MOVI, VM64.fetch, VM64.advance, VM64.setReg, e1, e2, e3, e4,
    if_neg h1, VM64_REG_COUNT, hr, if_true]

/-- One step over a `MOVI` whose bounds check fires: only the fetch and the
halt flag. -/
theorem step_MOVI64_halt (n : SyscallNumbers) (host : Host) (s : Sys64)
    (hh : s.vm.halted = false) (hrip : s.vm.rip < VM64_RAM_SIZE)
    (hin : s.vm.rip + 10 ≥ VM64_RAM_SIZE) (hop : s.vm.ram s.vm.rip = X64_MOVI) :
    vm64_execute_one n host s =
      { s with
        vm := s.vm.fetch.halt
        stdout := s.stdout ++ debugLine s.vm.fetch X64_MOVI } := by
  have h0 := hrip
  unfold VM64_RAM_SIZE at h0
  have e1 : (s.vm.rip + 1) % 2 ^ 64 = s.vm.rip + 1 := Nat.mod_eq_of_lt (by omega)
  have e4 : (s.vm.rip + 1 + 9) % 2 ^ 64 = s.vm.rip + 10 := by omega
  rw [exec64_running n host s hh hrip, hop, dispatch_MOVI64]
  simp only [Sys64.onVM, case_MOVI, VM64.fetch, e1, e4, if_pos hin]

set_option maxRecDepth 100000 in
/-- Claim C33 fails by one byte; the rest of it holds.  `MOVI RAX, 0x41` loaded
into the last ten bytes of memory has its register byte and its eight
immediate bytes at `p+1 .. p+9` inside memory (`p + 9` is the last address),
yet the step halts on the bounds check and RAX keeps its value.  In general a
non-halted step on a `MOVI` at `p` halts exactly when `p + 10 >= 8 MiB`, that
is also when `p + 9` is the last byte of memory; when `p + 10 < 8 MiB` and
`reg < 16` the step does not halt, sets `regs[reg]` to the value decoded from
the eight immediate bytes, most significant first, and leaves RIP = p + 10. -/
theorem movi64_bounds_off_by_one :
    (moviLast.vm.halted = false ∧ moviLast.vm.rip = VM64_RAM_SIZE - 10 ∧
      moviLast.vm.ram moviLast.vm.rip = X64_MOVI ∧ moviLast.vm.ram (moviLast.vm.rip + 1) < 16 ∧
      moviLast.vm.rip + 9 < VM64_RAM_SIZE ∧
      (vm64_execute_one linux_x86_64 acceptingHost moviLast).vm.halted = true ∧
      (vm64_execute_one linux_x86_64 acceptingHost moviLast).vm.regs RAX = 0 ∧
      (vm64_execute_one linux_x86_64 acceptingHost moviLast).vm.rip = VM64_RAM_SIZE - 9) ∧
    (moviInside.vm.rip + 10 < VM64_RAM_SIZE ∧
      (vm64_execute_one linux_x86_64 acceptingHost moviInside).vm.halted = false ∧
      (vm64_execute_one linux_x86_64 acceptingHost moviInside).vm.regs RAX = 0x41) ∧
    (∀ (n : SyscallNumbers) (host : Host) (s : Sys64), s.vm.halted = false →
      s.vm.rip < VM64_RAM_SIZE → s.vm.ram s.vm.rip = X64_MOVI →
      ((vm64_execute_one n host s).vm.halted = true ↔ s.vm.rip + 10 ≥ VM64_RAM_SIZE)) ∧
    (∀ (n : SyscallNumbers) (host : Host) (s : Sys64), s.vm.halted = false →
      s.vm.rip + 10 < VM64_RAM_SIZE → s.vm.ram s.vm.rip = X64_MOVI →
      s.vm.ram (s.vm.rip + 1) < 16 →
      (vm64_execute_one n host s).vm.halted = false ∧
      (vm64_execute_one n host s).vm.regs (s.vm.ram (s.vm.rip + 1)) =
        be64 s.vm.ram (s.vm.rip + 2) ∧
      (vm64_execute_one n host s).vm.rip = s.vm.rip + 10) := by
  refine ⟨⟨by decide, by decide, by decide, by decide, by decide, by decide, by decide,
    by decide⟩, ⟨by decide, by decide, by decide⟩, ?_, ?_⟩
  · intro n host s hh hrip hop
    by_cases hin : s.vm.rip + 10 ≥ VM64_RAM_SIZE
    · rw [step_MOVI64_halt n host s hh hrip hin hop]
      exact ⟨fun _ => hin, fun _ => rfl⟩
    · by_cases hr : s.vm.ram (s.vm.rip + 1) < 16
      · rw [step_MOVI64 n host s hh (by omega) hop hr]
        constructor
        · intro h
          have h2 : s.vm.halted = true := h
          rw [hh] at h2
          exact Bool.noConfusion h2
        · intro h
          exact absurd h hin
      · have hinv : invalidRegister s.vm := by
          refine Or.inl ⟨?_, ?_⟩
          · rw [hop]; decide
          · unfold VM64_REG_COUNT; omega
        have hk : operandBytes (s.vm.ram s.vm.rip) = 9 := by rw [hop]; decide
        rw [invalid_register_step64 n host s hh (by rw [hk]; omega) (fun _ => by omega) hinv]
        constructor
        · intro h
          have h2 : s.vm.halted = true := h
          rw [hh] at h2
          exact Bool.noConfusion h2
        · intro h
          exact absurd h hin
  · intro n host s hh hin hop hr
    rw [step_MOVI64 n host s hh hin hop hr]
    refine ⟨hh, ?_, rfl⟩
    show setAt s.vm.regs (s.vm.ram (s.vm.rip + 1)) (be64 s.vm.ram (s.vm.rip + 2))
      (s.vm.ram (s.vm.rip + 1)) = _
    simp only [setAt, if_true]

end X64

namespace VM8

/-! ## The stack pointer along a sequence of calls -/

/-- What the `switch` can do to SP: nothing, or one of the four guarded
moves of `CALL`, `RET`, `PUSH` and `POP`. -/
theorem dispatch_sp (op : Nat) (s : Sys) :
    (dispatch op s).vm.sp = s.vm.sp ∨
    (1 < s.vm.sp ∧ (dispatch op s).vm.sp = s.vm.sp - 2) ∨
    (s.vm.sp + 1 < VM_RAM_SIZE ∧ (dispatch op s).vm.sp = (s.vm.sp + 2) % 2 ^ 16) ∨
    (7 < s.vm.sp ∧ (dispatch op s).vm.sp = s.vm.sp - 8) ∨
    (s.vm.sp + 8 ≤ VM_RAM_SIZE ∧ (dispatch op s).vm.sp = (s.vm.sp + 8) % 2 ^ 16) := by
  by_cases hmem : op ∈ opcodes
  · simp only [opcodes, List.mem_cons, List.not_mem_nil, or_false] at hmem
    rcases hmem with e | e | e | e | e | e | e | e | e | e | e | e | e | e | e | e | e | e | e |
      e | e | e | e | e | e | e | e
    all_goals subst e
    all_goals simp only [dispatch_HALT, dispatch_MOVI, dispatch_ADD, dispatch_SUB, dispatch_MUL,
      dispatch_DIV, dispatch_MOD, dispatch_AND, dispatch_OR, dispatch_XOR, dispatch_NOT,
      dispatch_SHL, dispatch_SHR, dispatch_LOAD, dispatch_STORE, dispatch_OUT, dispatch_IN,
      dispatch_JMP, dispatch_JNZ, dispatch_JZ, dispatch_JLT, dispatch_JGT, dispatch_CMP,
      dispatch_CALL, dispatch_RET, dispatch_PUSH, dispatch_POP, Sys.onVM, case_MOVI, case_ADD,
      case_SUB, case_MUL, case_DIV, case_MOD, case_AND, case_OR, case_XOR, case_NOT, case_SHL,
      case_SHR, case_LOAD, case_STORE, case_OUT, case_IN, case_JMP, case_JNZ, case_JZ, case_JLT,
      case_JGT, case_CMP, case_CALL, case_RET, case_PUSH, case_POP, twoRegs, regImm8, regAddr16,
      VM.halt, VM.advance, VM.setReg]
    all_goals first
      | exact Or.inl rfl
      | exact Or.inl trivial
      | (split_ifs <;> first
          | exact Or.inl rfl
          | exact Or.inl trivial
          | (cases s.stdin <;> exact Or.inl rfl)
          | exact Or.inr (Or.inl ⟨by assumption, rfl⟩)
          | exact Or.inr (Or.inr (Or.inl ⟨by assumption, rfl⟩))
          | exact Or.inr (Or.inr (Or.inr (Or.inl ⟨by omega, rfl⟩)))
          | exact Or.inr (Or.inr (Or.inr (Or.inr ⟨by omega, rfl⟩))))
  · rw [dispatch_default _ _ hmem]
    exact Or.inl rfl

/-- A step keeps SP odd and 16-bit. -/
theorem exec_sp_odd (s : Sys) (h : s.vm.sp % 2 = 1 ∧ s.vm.sp < 2 ^ 16) :
    (vm_execute_one s).vm.sp % 2 = 1 ∧ (vm_execute_one s).vm.sp < 2 ^ 16 := by
  by_cases hstop : s.vm.halted = true ∨ s.vm.pc ≥ VM_RAM_SIZE
  · have hx : vm_execute_one s = s.onVM VM.halt := by
      simp only [vm_execute_one, if_pos hstop]
    rw [hx]
    exact h
  · have hh : s.vm.halted = false := by
      cases hb : s.vm.halted with
      | false => rfl
      | true => exact absurd (Or.inl hb) hstop
    have hpc : s.vm.pc < 2 ^ 16 := by
      unfold VM_RAM_SIZE at hstop
      omega
    obtain ⟨t, ht, htsp⟩ : ∃ t : Sys, vm_execute_one s = dispatch (s.vm.ram s.vm.pc) t ∧
        t.vm.sp = s.vm.sp := ⟨_, exec_running s hh hpc, rfl⟩
    rw [ht]
    have hd := dispatch_sp (s.vm.ram s.vm.pc) t
    rw [htsp] at hd
    unfold VM_RAM_SIZE at hd
    rcases hd with e | ⟨g, e⟩ | ⟨g, e⟩ | ⟨g, e⟩ | ⟨g, e⟩ <;> rw [e] <;> omega

/-- Every call of the interface keeps SP odd and 16-bit. -/
theorem call_sp_odd (c : Call) (s : Sys) (h : s.vm.sp % 2 = 1 ∧ s.vm.sp < 2 ^ 16) :
    (c.run s).vm.sp % 2 = 1 ∧ (c.run s).vm.sp < 2 ^ 16 := by
  cases c with
  | execute_one => exact exec_sp_odd s h
  | load_image filename file =>
    have e : (vm_load_image s filename file).1.vm.sp = s.vm.sp := by
      unfold vm_load_image
      cases file with
      | none => rfl
      | some data =>
        simp only
        split_ifs <;> rfl
    show (vm_load_image s filename file).1.vm.sp % 2 = 1 ∧
      (vm_load_image s filename file).1.vm.sp < 2 ^ 16
    rw [e]
    exact h
  | load_builtin_image => exact h
  | reset =>
    show (VM_RAM_SIZE - 1) % 2 = 1 ∧ VM_RAM_SIZE - 1 < 2 ^ 16
    exact ⟨by decide, by decide⟩
  | set_debug_mode enable => exact h
  | add_breakpoint addr =>
    show (vm_add_breakpoint s.vm addr).sp % 2 = 1 ∧ (vm_add_breakpoint s.vm addr).sp < 2 ^ 16
    unfold vm_add_breakpoint
    split_ifs <;> exact h
  | remove_breakpoint addr =>
    have e : ∀ (n i : Nat), (remove_breakpoint_from s.vm addr i n).sp = s.vm.sp := by
      intro n
      induction n with
      | zero => intro i; rfl
      | succ k ih =>
        intro i
        unfold remove_breakpoint_from
        split_ifs
        · rfl
        · exact ih (i + 1)
    show (vm_remove_breakpoint s.vm addr).sp % 2 = 1 ∧ (vm_remove_breakpoint s.vm addr).sp < 2 ^ 16
    unfold vm_remove_breakpoint
    rw [e]
    exact h

theorem runCalls_sp_odd (cs : List Call) :
    ∀ s : Sys, s.vm.sp % 2 = 1 ∧ s.vm.sp < 2 ^ 16 →
      (runCalls cs s).vm.sp % 2 = 1 ∧ (runCalls cs s).vm.sp < 2 ^ 16 := by
  induction cs with
  | nil => intro s h; exact h
  | cons c cs ih =>
    intro s h
    exact ih (c.run s) (call_sp_odd c s h)

/-- Claim C36: SP parity.  In every state reached from `vm_create` or from a
`vm_reset` by any sequence of `vm_execute_one` steps, image loads and the
other calls of the interface, SP is odd (and 16-bit); so SP is never 0xFFFE,
0xFFF8 or 0, and whenever the guard of `RET` (`SP + 1 < 65536`) or of `POP`
(`SP + 8 <= 65536`) holds, the 16-bit addition `SP += 2`, resp. `SP += 8`,
does not wrap. -/
theorem sp_parity (cs : List Call) (s0 : Sys)
    (h0 : s0.vm = vm_create ∨ ∃ vm, s0.vm = vm_reset vm) :
    (runCalls cs s0).vm.sp % 2 = 1 ∧
    (runCalls cs s0).vm.sp < 2 ^ 16 ∧
    (runCalls cs s0).vm.sp ≠ 0xFFFE ∧
    (runCalls cs s0).vm.sp ≠ 0xFFF8 ∧
    (runCalls cs s0).vm.sp ≠ 0 ∧
    ((runCalls cs s0).vm.sp + 1 < VM_RAM_SIZE →
      ((runCalls cs s0).vm.sp + 2) % 2 ^ 16 = (runCalls cs s0).vm.sp + 2) ∧
    ((runCalls cs s0).vm.sp + 8 ≤ VM_RAM_SIZE →
      ((runCalls cs s0).vm.sp + 8) % 2 ^ 16 = (runCalls cs s0).vm.sp + 8) := by
  have hstart : s0.vm.sp % 2 = 1 ∧ s0.vm.sp < 2 ^ 16 := by
    have hc : (VM_RAM_SIZE - 1) % 2 = 1 ∧ VM_RAM_SIZE - 1 < 2 ^ 16 := ⟨by decide, by decide⟩
    rcases h0 with e | ⟨vm, e⟩ <;> rw [e] <;> exact hc
  have h := runCalls_sp_odd cs s0 hstart
  unfold VM_RAM_SIZE
  refine ⟨h.1, h.2, ?_, ?_, ?_, ?_, ?_⟩ <;> omega

/-- The fibonacci image loaded and stepped three times after a reset: SP is
still 0xFFFF. -/
theorem sp_parity_witness :
    (runCalls [Call.load_image (text "fibonacci.bin") (some (gen_fibonacci [])),
        Call.execute_one, Call.execute_one, Call.execute_one]
      (boot (vm_reset pushFresh.vm) [])).vm.sp % 2 = 1 :=
  (sp_parity [Call.load_image (text "fibonacci.bin") (some (gen_fibonacci [])),
      Call.execute_one, Call.execute_one, Call.execute_one]
    (boot (vm_reset pushFresh.vm) []) (Or.inr ⟨pushFresh.vm, rfl⟩)).1

end VM8

namespace VM8

/-! ## The program counter modulo 2^16 -/

/-- The `switch` keeps PC 16-bit. -/
theorem dispatch_pc_lt (op : Nat) (s : Sys) (h : s.vm.pc < 2 ^ 16) :
    (dispatch op s).vm.pc < 2 ^ 16 := by
  by_cases hmem : op ∈ opcodes
  · simp only [opcodes, List.mem_cons, List.not_mem_nil, or_false] at hmem
    rcases hmem with e | e | e | e | e | e | e | e | e | e | e | e | e | e | e | e | e | e | e |
      e | e | e | e | e | e | e | e
    all_goals subst e
    all_goals simp only [dispatch_HALT, dispatch_MOVI, dispatch_ADD, dispatch_SUB, dispatch_MUL,
      dispatch_DIV, dispatch_MOD, dispatch_AND, dispatch_OR, dispatch_XOR, dispatch_NOT,
      dispatch_SHL, dispatch_SHR, dispatch_LOAD, dispatch_STORE, dispatch_OUT, dispatch_IN,
      dispatch_JMP, dispatch_JNZ, dispatch_JZ, dispatch_JLT, dispatch_JGT, dispatch_CMP,
      dispatch_CALL, dispatch_RET, dispatch_PUSH, dispatch_POP, Sys.onVM, case_MOVI, case_ADD,
      case_SUB, case_MUL, case_DIV, case_MOD, case_AND, case_OR, case_XOR, case_NOT, case_SHL,
      case_SHR, case_LOAD, case_STORE, case_OUT, case_IN, case_JMP, case_JNZ, case_JZ, case_JLT,
      case_JGT, case_CMP, case_CALL, case_RET, case_PUSH, case_POP, twoRegs, regImm8, regAddr16,
      VM.halt, VM.advance, VM.setReg]
    all_goals first
      | exact h
      | (split_ifs <;> first
          | exact h
          | exact be16_lt _ _
          | exact Nat.mod_lt _ (by decide)
          | (cases s.stdin <;> exact Nat.mod_lt _ (by decide)))
  · rw [dispatch_default _ _ hmem]
    exact h

/-- A step keeps PC 16-bit. -/
theorem exec_pc_lt (s : Sys) (h : s.vm.pc < 2 ^ 16) : (vm_execute_one s).vm.pc < 2 ^ 16 := by
  by_cases hh : s.vm.halted = true
  · rw [exec_halted s hh]
    exact h
  · have hh' : s.vm.halted = false := by
      cases hb : s.vm.halted with
      | false => rfl
      | true => exact absurd hb hh
    rw [exec_running s hh' h]
    exact dispatch_pc_lt _ _ (Nat.mod_lt _ (by decide))

/-- Every call of the interface keeps PC 16-bit. -/
theorem call_pc_lt (c : Call) (s : Sys) (h : s.vm.pc < 2 ^ 16) : (c.run s).vm.pc < 2 ^ 16 := by
  cases c with
  | execute_one => exact exec_pc_lt s h
  | load_image filename file =>
    show (vm_load_image s filename file).1.vm.pc < 2 ^ 16
    unfold vm_load_image
    cases file with
    | none => exact h
    | some data =>
      simp only
      split_ifs
      · exact h
      · exact Nat.zero_lt_succ _
  | load_builtin_image => exact Nat.zero_lt_succ _
  | reset => exact Nat.zero_lt_succ _
  | set_debug_mode enable => exact h
  | add_breakpoint addr =>
    show (vm_add_breakpoint s.vm addr).pc < 2 ^ 16
    unfold vm_add_breakpoint
    split_ifs <;> exact h
  | remove_breakpoint addr =>
    have e : ∀ (n i : Nat), (remove_breakpoint_from s.vm addr i n).pc = s.vm.pc := by
      intro n
      induction n with
      | zero => intro i; rfl
      | succ k ih =>
        intro i
        unfold remove_breakpoint_from
        split_ifs
        · rfl
        · exact ih (i + 1)
    show (vm_remove_breakpoint s.vm addr).pc < 2 ^ 16
    unfold vm_remove_breakpoint
    rw [e]
    exact h

theorem runCalls_pc_lt (cs : List Call) :
    ∀ s : Sys, s.vm.pc < 2 ^ 16 → (runCalls cs s).vm.pc < 2 ^ 16 := by
  induction cs with
  | nil => intro s h; exact h
  | cons c cs ih =>
    intro s h
    exact ih (c.run s) (call_pc_lt c s h)

end VM8

namespace VM8

theorem operandBytes_five : operandBytes OP_MOVI = 5 := by decide

theorem operandBytes_three (op : Nat) (h : op ∈ [OP_LOAD, OP_STORE, OP_JNZ, OP_JZ, OP_JLT, OP_JGT]) :
    operandBytes op = 3 := by
  simp only [List.mem_cons, List.mem_singleton, List.not_mem_nil, or_false] at h
  rcases h with rfl | rfl | rfl | rfl | rfl | rfl <;> decide

theorem operandBytes_two (op : Nat)
    (h : op ∈ [OP_ADD, OP_SUB, OP_MUL, OP_DIV, OP_MOD, OP_AND, OP_OR, OP_XOR, OP_SHL, OP_SHR,
      OP_CMP]) : operandBytes op = 2 := by
  simp only [List.mem_cons, List.mem_singleton, List.not_mem_nil, or_false] at h
  rcases h with rfl | rfl | rfl | rfl | rfl | rfl | rfl | rfl | rfl | rfl | rfl <;> decide

theorem operandBytes_one (op : Nat) (h : op ∈ [OP_NOT, OP_OUT, OP_IN, OP_PUSH, OP_POP]) :
    operandBytes op = 1 := by
  simp only [List.mem_cons, List.mem_singleton, List.not_mem_nil, or_false] at h
  rcases h with rfl | rfl | rfl | rfl | rfl <;> decide

/-- A sequential instruction whose last byte is the last byte of memory: after
the fetch, with `k` operand bytes left up to the end of memory, the `switch`
leaves PC = 0 and the halt flag as it was. -/
theorem dispatch_sequential_last (op : Nat) (t : Sys) (hop : op ∈ sequentialOpcodes)
    (hk : t.vm.pc + operandBytes op = 2 ^ 16) :
    (dispatch op t).vm.pc = 0 ∧ (dispatch op t).vm.halted = t.vm.halted := by
  simp only [sequentialOpcodes, List.mem_cons, List.not_mem_nil, or_false] at hop
  rcases hop with e | e | e | e | e | e | e | e | e | e | e | e | e | e | e | e | e | e | e
  all_goals subst e
  all_goals first
    | rw [operandBytes_five] at hk
    | rw [operandBytes_three _ (by decide)] at hk
    | rw [operandBytes_two _ (by decide)] at hk
    | rw [operandBytes_one _ (by decide)] at hk
  all_goals simp only [dispatch_MOVI, dispatch_ADD, dispatch_SUB, dispatch_MUL,
    dispatch_DIV, dispatch_MOD, dispatch_AND, dispatch_OR, dispatch_XOR, dispatch_NOT,
    dispatch_SHL, dispatch_SHR, dispatch_LOAD, dispatch_STORE, dispatch_OUT, dispatch_IN,
    dispatch_CMP, dispatch_PUSH, dispatch_POP, Sys.onVM, case_MOVI, case_ADD,
    case_SUB, case_MUL, case_DIV, case_MOD, case_AND, case_OR, case_XOR, case_NOT, case_SHL,
    case_SHR, case_LOAD, case_STORE, case_OUT, case_IN, case_CMP, case_PUSH, case_POP, twoRegs,
    regImm8, regAddr16, VM.halt, VM.advance, VM.setReg]
  all_goals unfold VM_RAM_SIZE
  all_goals split_ifs
  all_goals first
    | omega
    | exact ⟨by omega, rfl⟩
    | (refine ⟨?_, rfl⟩
       show _ % 2 ^ 16 = 0
       omega)
    | (cases t.stdin <;>
        (refine ⟨?_, rfl⟩
         show _ % 2 ^ 16 = 0
         omega))

end VM8

namespace VM8

/-- One step over a conditional jump inside memory that is not taken. -/
theorem step_condJump_not_taken (s : Sys) (op : Nat) (P : Nat → Prop) [DecidablePred P]
    (hdisp : ∀ t : Sys, dispatch op t = t.onVM fun vm => regAddr16 vm fun v reg addr =>
      if reg < VM_REG_COUNT ∧ P (v.regs reg) then { v with pc := addr } else v)
    (hh : s.vm.halted = false) (hpc : s.vm.pc + 3 < 2 ^ 16) (hop : s.vm.ram s.vm.pc = op)
    (hnt : ¬ (s.vm.ram (s.vm.pc + 1) < VM_REG_COUNT ∧ P (s.vm.regs (s.vm.ram (s.vm.pc + 1))))) :
    vm_execute_one s =
      { s with
        stdout := s.stdout ++ debugLine s.vm op
        vm := { s.vm with
                pc := (s.vm.pc + 4) % 2 ^ 16
                cycle_count := (s.vm.cycle_count + 1) % 2 ^ 64 } } := by
  rw [exec_running s hh (by omega), hop, hdisp]
  simp only [Sys.onVM]
  rw [regAddr16_fetch s.vm _ hpc]
  have hg : ¬ (s.vm.ram (s.vm.pc + 1) < VM_REG_COUNT ∧
      P (({ s.vm.fetch with pc := (s.vm.pc + 4) % 2 ^ 16 } : VM).regs
        (s.vm.ram (s.vm.pc + 1)))) := hnt
  rw [if_neg hg]
  rfl

theorem operandBytes_sequential (op : Nat) (h : op ∈ sequentialOpcodes) :
    1 ≤ operandBytes op := by
  simp only [sequentialOpcodes, List.mem_cons, List.not_mem_nil, or_false] at h
  rcases h with e | e | e | e | e | e | e | e | e | e | e | e | e | e | e | e | e | e | e
  all_goals subst e
  all_goals decide

/-- Claim C40: PC arithmetic of the 8-bit machine is modulo 2^16.  When, in a
non-halted state, an instruction that is neither `HALT` nor a jump, call or
return, or a conditional jump that is not taken, has its last encoded byte at
address 0xFFFF, the step does not set the halt flag and leaves PC = 0, so that
the next step fetches its opcode at address 0.  PC stays below 65536 along
every sequence of calls from a state with a 16-bit PC, and there the tests
`pc >= VM_RAM_SIZE` of `vm_execute_one` and `pc < VM_RAM_SIZE` of `vm_run`
are decided by the type alone. -/
theorem pc_wraps (s : Sys) (hh : s.vm.halted = false)
    (hkind : s.vm.ram s.vm.pc ∈ sequentialOpcodes ∨
      (s.vm.ram s.vm.pc ∈ condJumpOpcodes ∧ ¬ jumpTaken s.vm))
    (hlast : s.vm.pc + operandBytes (s.vm.ram s.vm.pc) = 0xFFFF) :
    (vm_execute_one s).vm.halted = false ∧
    (vm_execute_one s).vm.pc = 0 ∧
    vm_execute_one (vm_execute_one s) =
      dispatch ((vm_execute_one s).vm.ram 0)
        { vm_execute_one s with
          stdout := (vm_execute_one s).stdout ++
            debugLine (vm_execute_one s).vm ((vm_execute_one s).vm.ram 0)
          vm := (vm_execute_one s).vm.fetch } ∧
    (∀ (cs : List Call) (s0 : Sys), s0.vm.pc < 2 ^ 16 →
      (runCalls cs s0).vm.pc < 2 ^ 16 ∧ ¬ ((runCalls cs s0).vm.pc ≥ VM_RAM_SIZE) ∧
      (runCalls cs s0).vm.pc < VM_RAM_SIZE) := by
  have hmain : (vm_execute_one s).vm.halted = false ∧ (vm_execute_one s).vm.pc = 0 := by
    rcases hkind with hseq | ⟨hj, hnt⟩
    · rw [exec_running s hh (by omega)]
      have h := dispatch_sequential_last (s.vm.ram s.vm.pc)
        { s with stdout := s.stdout ++ debugLine s.vm (s.vm.ram s.vm.pc), vm := s.vm.fetch } hseq
        (by
          have hpos := operandBytes_sequential _ hseq
          show (s.vm.pc + 1) % 2 ^ 16 + operandBytes (s.vm.ram s.vm.pc) = 2 ^ 16
          omega)
      exact ⟨h.2.trans hh, h.1⟩
    · have hk : operandBytes (s.vm.ram s.vm.pc) = 3 :=
        operandBytes_three _ (by
          simp only [condJumpOpcodes, List.mem_cons, List.mem_singleton, List.not_mem_nil,
            or_false] at hj
          simp only [List.mem_cons, List.mem_singleton, List.not_mem_nil, or_false]
          tauto)
      rw [hk] at hlast
      have e0 : (s.vm.pc + 4) % 2 ^ 16 = 0 := by omega
      unfold jumpTaken at hnt
      simp only [condJumpOpcodes, List.mem_cons, List.mem_singleton, List.not_mem_nil,
        or_false] at hj
      rcases hj with hop | hop | hop | hop
      · rw [step_condJump_not_taken s OP_JNZ (fun x => x ≠ 0) (fun t => rfl) hh (by omega) hop
          (fun hc => hnt ⟨hc.1, Or.inl ⟨hop, hc.2⟩⟩)]
        exact ⟨hh, e0⟩
      · rw [step_condJump_not_taken s OP_JZ (fun x => x = 0) (fun t => rfl) hh (by omega) hop
          (fun hc => hnt ⟨hc.1, Or.inr (Or.inl ⟨hop, hc.2⟩)⟩)]
        exact ⟨hh, e0⟩
      · rw [step_condJump_not_taken s OP_JLT (fun x => x ≥ 2 ^ 63) (fun t => rfl) hh (by omega)
          hop (fun hc => hnt ⟨hc.1, Or.inr (Or.inr (Or.inl ⟨hop, hc.2⟩))⟩)]
        exact ⟨hh, e0⟩
      · rw [step_condJump_not_taken s OP_JGT (fun x => 0 < x ∧ x < 2 ^ 63) (fun t => rfl) hh
          (by omega) hop (fun hc => hnt ⟨hc.1, Or.inr (Or.inr (Or.inr ⟨hop, hc.2⟩))⟩)]
        exact ⟨hh, e0⟩
  refine ⟨hmain.1, hmain.2, ?_, ?_⟩
  · have h := exec_running (vm_execute_one s) hmain.1 (by rw [hmain.2]; decide)
    rw [hmain.2] at h
    exact h
  · intro cs s0 h0
    have h := runCalls_pc_lt cs s0 h0
    unfold VM_RAM_SIZE
    exact ⟨h, by omega, by omega⟩

/-- `ADD r1, r2` in the last three bytes of memory: the step does not halt,
adds, and leaves PC = 0. -/
theorem pc_wraps_witness :
    addLast.vm.halted = false ∧ addLast.vm.pc = 0xFFFD ∧
    addLast.vm.ram addLast.vm.pc ∈ sequentialOpcodes ∧
    (vm_execute_one addLast).vm.halted = false ∧ (vm_execute_one addLast).vm.pc = 0 ∧
    (vm_execute_one addLast).vm.regs 1 = 7 := by
  have h := pc_wraps addLast rfl (Or.inl (by decide)) (by decide)
  exact ⟨rfl, rfl, by decide, h.1, h.2.1, by decide⟩

end VM8

namespace X64

open VM8 (setAt text fmtHex fmtDec)

/-! ## The stack pointer of the 64-bit machine -/

end X64

namespace X64

open VM8 (setAt text fmtHex fmtDec)

end X64

namespace X64

open VM8 (setAt text fmtHex fmtDec)

end X64
